import Mathlib

/-! # Telegram reminder bot: store, scheduler and session state machine

A shallow embedding of `main.go`.  The process-wide variables of the program
(`store`, `sessions`, `cronQuitMap`), the channels made so far, the armed
one-shot timers, the running recurring jobs and the transport requests issued
so far are the fields of one explicit `State`; every handler is a function
from states to states.  A handler returns `none` where the Go code panics
(an index past the end of a slice, `close` of a closed channel).

Go strings are lists of characters, Go `int`/`int64` values are integers;
the arithmetic that can leave the 64-bit range wraps explicitly (the
`time.Duration` product of `scheduleOnce`, the computations of package `time`
on the seconds of a `time.Time`, the offset steps of `ProcessUTC`).  Handlers
run atomically: the
interleaving of the main loop with timer callbacks and job goroutines is at
the granularity of whole handlers.  `saveStorage` writes the file and leaves
the in-memory state alone, so it does not appear.
-/

set_option autoImplicit false

namespace ReminderBot

/-! ## Strings and the library functions the program calls -/

/-- Go string, as its sequence of characters. -/
abbrev Str := List Char

/-- The function `strings.Split(s, sep)` for a one-character separator. -/
def Split (sep : Char) : Str → List Str
  | [] => [[]]
  | c :: cs =>
    if c = sep then [] :: Split sep cs
    else
      match Split sep cs with
      | [] => [[c]]
      | p :: ps => (c :: p) :: ps

/-- White space in the sense of `unicode.IsSpace`. -/
def isSpace (c : Char) : Bool :=
  let n := c.toNat
  (9 ≤ n && n ≤ 13) || n == 32 || n == 0x85 || n == 0xA0 || n == 0x1680 ||
  (0x2000 ≤ n && n ≤ 0x200A) || n == 0x2028 || n == 0x2029 || n == 0x202F ||
  n == 0x205F || n == 0x3000

/-- Worker of `Fields`: `cur` is the field being read. -/
def fieldsGo (cur : Str) : Str → List Str
  | [] => if cur = [] then [] else [cur]
  | c :: cs =>
    if isSpace c then
      (if cur = [] then fieldsGo [] cs else cur :: fieldsGo [] cs)
    else fieldsGo (cur ++ [c]) cs

/-- The function `strings.Fields`: the maximal runs of non-space characters. -/
def Fields (s : Str) : List Str := fieldsGo [] s

/-- The function `strings.Join`. -/
def Join (sep : Str) : List Str → Str
  | [] => []
  | [a] => a
  | a :: b :: rest => a ++ sep ++ Join sep (b :: rest)

/-- The function `strings.ToLower` on the ASCII letters (the program compares its
result with ASCII words and with a caseless word only). -/
def ToLower (s : Str) : Str := s.map Char.toLower

/-- The function `strings.HasPrefix`. -/
def startsWith (s p : Str) : Bool := p.isPrefixOf s

/-- Value of a decimal digit. -/
def digitVal (c : Char) : Nat := c.toNat - 48

/-- Reads a run of decimal digits; `none` when a character is not a digit. -/
def parseDigits : Str → Option Nat :=
  List.foldl (fun acc c => acc.bind (fun a => if c.isDigit then some (a * 10 + digitVal c) else none))
    (some 0)

/-- The function `strconv.Atoi`: the value and whether the error is nil.  A syntax
error gives 0, a range error the nearest 64-bit value. -/
def Atoi (s : Str) : Int × Bool :=
  match s with
  | [] => (0, false)
  | c :: cs =>
    let neg := (c == '-')
    let ds := if c = '-' ∨ c = '+' then cs else s
    if ds = [] then (0, false)
    else
      match parseDigits ds with
      | none => (0, false)
      | some n =>
        let v : Int := if neg then -(n : Int) else (n : Int)
        if v < -(2 ^ 63) then (-(2 ^ 63), false)
        else if v > 2 ^ 63 - 1 then (2 ^ 63 - 1, false)
        else (v, true)

/-- The character of a decimal digit. -/
def digitChar (k : Nat) : Char := Char.ofNat (48 + k)

/-- Worker of `natStr` with fuel. -/
def natStrAux : Nat → Nat → Str
  | 0, n => [digitChar n]
  | f + 1, n => if n < 10 then [digitChar n] else natStrAux f (n / 10) ++ [digitChar (n % 10)]

/-- Decimal digits of a natural number. -/
def natStr (n : Nat) : Str := natStrAux n n

/-- The verb `%0wd` of `fmt.Sprintf` (`w = 0` is the plain `%d`): sign, then the
digits padded with zeros to the width, the sign counted in the width. -/
def fmtInt (w : Nat) (n : Int) : Str :=
  let ds := natStr n.natAbs
  if n < 0 then '-' :: (List.replicate (w - 1 - ds.length) '0' ++ ds)
  else List.replicate (w - ds.length) '0' ++ ds

/-! ## Time -/

/-- The constant `time.Second`, in nanoseconds. -/
def Second : Int := 1000000000

/-- The constant `time.Minute`. -/
def Minute : Int := 60 * Second

/-- The constant `time.Hour`. -/
def Hour : Int := 60 * Minute

/-- Two's-complement wrap of an integer to 64 bits. -/
def wrap64 (x : Int) : Int := (x + 2 ^ 63) % 2 ^ 64 - 2 ^ 63

/-- Largest `time.Duration`. -/
def maxDuration : Int := 2 ^ 63 - 1

/-- Smallest `time.Duration`. -/
def minDuration : Int := -(2 ^ 63)

/-- Leap years of the proleptic Gregorian calendar (`isLeap` of package `time`). -/
def isLeap (y : Int) : Bool := y % 4 == 0 && (y % 100 != 0 || y % 400 == 0)

/-- Days of a common year before each month (index 0 is January). -/
def daysBefore : List Int := [0, 31, 59, 90, 120, 151, 181, 212, 243, 273, 304, 334]

/-- The constant `unixToInternal` of package `time`: the seconds from 1 January
of year 1 to the Unix epoch. -/
def unixToInternal : Int := 62135596800

/-- The constant `absoluteZeroYear` of package `time`. -/
def absoluteZeroYear : Int := -292277022399

/-- The constant `absoluteToInternal` of package `time`: the seconds from
1 January of year 1 back to 1 January of the absolute zero year. -/
def absoluteToInternal : Int := -9223371966579724800

/-- A `time.Time` in UTC without monotonic reading holds a 64-bit count of
seconds since 1 January of year 1 and the nanoseconds within the second.  It
is identified with the instant it denotes, in nanoseconds since the Unix
epoch; `timeSec` reads the seconds field of the instant `t`. -/
def timeSec (t : Int) : Int := t / Second + unixToInternal

/-- The nanoseconds field of a `time.Time`. -/
def timeNsec (t : Int) : Int := t % Second

/-- The instant of the `time.Time` with the given fields. -/
def mkTime (sec nsec : Int) : Int := (sec - unixToInternal) * Second + nsec

/-- The function `norm` of package `time` (it carries `lo` into `hi` so that
`0 ≤ lo < base`), in 64-bit arithmetic. -/
def norm (hi lo base : Int) : Int × Int :=
  let p : Int × Int :=
    if lo < 0 then
      let n := wrap64 (Int.tdiv (wrap64 (wrap64 (-lo) - 1)) base + 1)
      (wrap64 (hi - n), wrap64 (lo + wrap64 (n * base)))
    else (hi, lo)
  if p.2 ≥ base then
    let n := Int.tdiv p.2 base
    (wrap64 (p.1 + n), wrap64 (p.2 - wrap64 (n * base)))
  else p

/-- The function `daysSinceEpoch` of package `time`: the days from 1 January of
the absolute zero year to 1 January of `year`, the distance of the year taken
as an unsigned 64-bit number. -/
def daysSinceEpoch (year : Int) : Int :=
  let y := (year - absoluteZeroYear) % 2 ^ 64
  let n := y / 400
  let y := y - 400 * n
  let d := 146097 * n
  let n := y / 100
  let y := y - 100 * n
  let d := d + 36524 * n
  let n := y / 4
  let y := y - 4 * n
  let d := d + 1461 * n
  d + 365 * y

/-- The call `time.Date(yr, time.Month(mon), day, hh, mi, 0, 0, time.UTC)`: the
month is carried into the year, the minutes into the hours, the hours into
the days; the days and seconds are counted from the absolute zero year in
unsigned 64-bit arithmetic, and the count of seconds since year 1 that the
`time.Time` holds is its 64-bit wrap.  The steps are those of the
implementation that counts days with `daysSinceEpoch`; for years from
`absoluteZeroYear` on every step but the last wrap is exact. -/
def goDate (yr mon day hh mi : Int) : Int :=
  let ym := norm yr (wrap64 (mon - 1)) 12
  let hm := norm hh mi 60
  let dh := norm day hm.1 24
  let d := daysSinceEpoch ym.1 + daysBefore.getD ym.2.toNat 0 +
    (if isLeap ym.1 && decide (2 ≤ ym.2) then 1 else 0) + (dh.1 - 1)
  let abs := d * 86400 + (dh.2 * 3600 + hm.2 * 60)
  mkTime (wrap64 (abs + absoluteToInternal)) 0

/-- The method `Time.Add`: the duration is split into seconds and nanoseconds,
the nanoseconds are carried, and the seconds are added with the overflow test
of `addSec`, which sticks at the largest or smallest count. -/
def timeAdd (t d : Int) : Int :=
  let dsec := Int.tdiv d Second
  let nsec := timeNsec t + Int.tmod d Second
  let p : Int × Int :=
    if nsec ≥ Second then (dsec + 1, nsec - Second)
    else if nsec < 0 then (dsec - 1, nsec + Second)
    else (dsec, nsec)
  let sum := wrap64 (timeSec t + p.1)
  let ext :=
    if (decide (sum > timeSec t) == decide (p.1 > 0)) then sum
    else if p.1 > 0 then 2 ^ 63 - 1
    else -(2 ^ 63 - 1)
  mkTime ext p.2

/-- The method `Time.Sub` on two times without monotonic reading: the 64-bit
difference `d`, returned when `u.Add(d)` equals `t`, otherwise the smallest
duration when `t` is before `u` and the largest one when it is not. -/
def timeSub (t u : Int) : Int :=
  let d := wrap64 (wrap64 (wrap64 (timeSec t - timeSec u) * Second) + (timeNsec t - timeNsec u))
  if timeAdd u d = t then d
  else if t < u then minDuration
  else maxDuration

/-! ## Data model -/

/-- The struct `Reminder`. -/
structure Reminder where
  Name : Str := []
  Date : Str := []
  Time : Str := []
  ID : Int := 0
  OptInfo : Str := []
  CronOriginal : Str := []
  TZ : Str := []
  CronExpr : Str := []
deriving DecidableEq, Repr

/-- The struct `UserData`. -/
structure UserData where
  UTC : Int
  Reminders : List Reminder
  Lang : Str
deriving DecidableEq, Repr

/-- The wizard stages. -/
inductive Stage where
  | StageIdle
  | StageName
  | StageDate
  | StageTime
  | StageAskInfo
  | StageOptInfo
  | StageUTC
deriving DecidableEq, Repr

/-- The struct `Session`; its `ChatID` field is the key it is stored under. -/
structure Session where
  Stage : Stage := Stage.StageIdle
  Temp : Reminder := {}
deriving DecidableEq, Repr

/-- The closure armed by `time.AfterFunc` in `scheduleOnce`. -/
structure Timer where
  chatID : Int
  r : Reminder
  delay : Int
deriving DecidableEq, Repr

/-- One goroutine running `runExprJob`, with the channel it listens on. -/
structure Job where
  chatID : Int
  r : Reminder
  quit : Nat
deriving DecidableEq, Repr

/-- The keys of the `messages` table, and labels for the requests the program
builds without the table. -/
inductive MsgKey where
  | prompt_name | prompt_date | prompt_time | ask_extra | prompt_optinfo | no_extra
  | saved | list_empty | list_header | timezone_prompt | timezone_set
  | cancelled_index | invalid_index | notify | notify_cron | lang_prompt
  | lang_set_en | lang_set_zh | cron_usage | cron_set | cancel_prompt
  | err_invalid_tz | err_cron_parse | edit_markup | callback_ack
deriving DecidableEq, Repr

/-- One request to the chat transport. -/
structure Out where
  chatID : Int
  key : MsgKey
deriving DecidableEq, Repr

/-- The process state.  The keys of `store.Reminder` are the decimal texts of the
chat ids, so the map is indexed by the id itself; `sessions` and `cronQuitMap`
are indexed as in the program.  Channels are numbered in the order `make`
created them, and `closed` lists those `close` was called on. -/
structure State where
  store : Int → Option UserData := fun _ => none
  sessions : Int → Option Session := fun _ => none
  cronQuitMap : Int → Option Nat := fun _ => none
  chans : Nat := 0
  closed : List Nat := []
  timers : List Timer := []
  jobs : List Job := []
  sent : List Out := []

/-- Map update. -/
def setKey {β : Type} (m : Int → Option β) (k : Int) (v : Option β) : Int → Option β :=
  fun j => if j = k then v else m j

/-- The string `en`. -/
def sEn : Str := ['e', 'n']

/-- The string `zh`. -/
def sZh : Str := ['z', 'h']

/-! ## Store -/

/-- The function `getUserData`: the chat's entry, created when missing, its
language normalised; the entry is written back (the Go code mutates it through
the pointer held by the map). -/
def getUserData (st : State) (chatID : Int) : UserData × State :=
  let ud : UserData :=
    match st.store chatID with
    | some ud => ud
    | none => { UTC := 0, Reminders := [], Lang := sEn }
  let ud := if ud.Lang ≠ sEn ∧ ud.Lang ≠ sZh then { ud with Lang := sEn } else ud
  (ud, { st with store := setKey st.store chatID (some ud) })

/-- The reminder list of a chat (empty when the chat has no entry). -/
def reminders (st : State) (chatID : Int) : List Reminder :=
  match st.store chatID with
  | some ud => ud.Reminders
  | none => []

/-- The assignment `ud.Reminders = l` through the pointer of an existing entry. -/
def setReminders (st : State) (chatID : Int) (l : List Reminder) : State :=
  match st.store chatID with
  | some ud => { st with store := setKey st.store chatID (some { ud with Reminders := l }) }
  | none => st

/-- The statement `close(quit)`: panics on a closed channel. -/
def closeQuit (st : State) (c : Nat) : Option State :=
  if c ∈ st.closed then none else some { st with closed := c :: st.closed }

/-- The block the three deletion paths share: for a recurring reminder whose
id is registered, close the channel and delete the map entry. -/
def stopJob (st : State) (r : Reminder) : Option State :=
  if r.CronExpr ≠ [] then
    match st.cronQuitMap r.ID with
    | some quit =>
      (closeQuit st quit).map
        (fun st => { st with cronQuitMap := setKey st.cronQuitMap r.ID none })
    | none => some st
  else some st

/-- The function `deleteReminder`: with `head` the first entry goes, otherwise the
first entry whose id is `rid` (the loop breaks at the first match). -/
def deleteReminder (st : State) (chatID rid : Int) (head : Bool) : Option State :=
  let (ud, st) := getUserData st chatID
  if head then
    match ud.Reminders with
    | [] => some st
    | r :: rest => (stopJob st r).map (fun st => setReminders st chatID rest)
  else
    match ud.Reminders.find? (fun r => decide (r.ID = rid)) with
    | none => some st
    | some r =>
      (stopJob st r).map
        (fun st => setReminders st chatID (ud.Reminders.eraseP (fun r => decide (r.ID = rid))))

/-- The function `deleteByIndex`: the result and the new state. -/
def deleteByIndex (st : State) (chatID idx : Int) : Option (Bool × State) :=
  let (ud, st) := getUserData st chatID
  if idx < 1 ∨ idx > ud.Reminders.length then some (false, st)
  else
    match ud.Reminders[(idx - 1).toNat]? with
    | none => none
    | some r =>
      (stopJob st r).map
        (fun st => (true, setReminders st chatID (ud.Reminders.eraseIdx (idx - 1).toNat)))

/-- No channel registered in the job map has been closed. -/
def QuitOpen (st : State) : Prop :=
  ∀ k c, st.cronQuitMap k = some c → c ∉ st.closed

/-! ## Sessions and the transport -/

/-- The session of a chat as `getSession` returns it (Idle with an empty
accumulator when the chat has none yet). -/
def sessionOf (st : State) (chatID : Int) : Session :=
  match st.sessions chatID with
  | some s => s
  | none => {}

/-- The function `getSession`: the chat's session, created when missing. -/
def getSession (st : State) (chatID : Int) : Session × State :=
  (sessionOf st chatID,
    { st with sessions := setKey st.sessions chatID (some (sessionOf st chatID)) })

/-- Assignment to the chat's session through its pointer. -/
def setSession (st : State) (chatID : Int) (s : Session) : State :=
  { st with sessions := setKey st.sessions chatID (some s) }

/-- The assignment `s.Stage = g`. -/
def setStage (st : State) (chatID : Int) (g : Stage) : State :=
  setSession st chatID { sessionOf st chatID with Stage := g }

/-- A request handed to the transport (`bot.Send`, `bot.Request`). -/
def send (st : State) (chatID : Int) (key : MsgKey) : State :=
  { st with sent := st.sent ++ [{ chatID := chatID, key := key }] }

/-- The functions `sendText` and `editText` followed by `bot.Send`: both look the
language up through `getUserData` and hand one request to the transport. -/
def sendText (st : State) (chatID : Int) (key : MsgKey) : State :=
  send (getUserData st chatID).2 chatID key

/-! ## One-shot scheduling -/

/-- The string `am`. -/
def sAm : Str := ['a', 'm']

/-- The string `pm`. -/
def sPm : Str := ['p', 'm']

/-- The notification instant `notifyUTC` of `scheduleOnce` (a `time.Time`, as the
instant it denotes in nanoseconds since the Unix epoch), for a chat whose
offset is `utc`; `none` where an index into the split parts is out of range. -/
def notifyUTC (utc : Int) (r : Reminder) : Option Int := do
  let dparts := Split '/' r.Date
  let day := (Atoi (← dparts[0]?)).1
  let mon := (Atoi (← dparts[1]?)).1
  let yr := (Atoi (← dparts[2]?)).1
  let tparts := Split ' ' r.Time
  let hm := Split ':' (← tparts[0]?)
  let hh := (Atoi (← hm[0]?)).1
  let mi := (Atoi (← hm[1]?)).1
  let ap := ToLower (← tparts[1]?)
  let hh := if ap = sPm ∧ hh < 12 then hh + 12 else hh
  let hh := if ap = sAm ∧ hh = 12 then 0 else hh
  let evtUTC := timeAdd (goDate yr mon day hh mi) (wrap64 (wrap64 (-utc) * Hour))
  pure (timeAdd evtUTC (-10 * Minute))

/-- The delay `scheduleOnce` arms its timer with. -/
def armDelay (notify now : Int) : Int :=
  let delay := timeSub notify now
  if delay ≤ 0 then Second else delay

/-- The function `scheduleOnce`, called at clock reading `now`. -/
def scheduleOnce (now : Int) (st : State) (chatID : Int) (r : Reminder) : Option State :=
  let (ud, st) := getUserData st chatID
  match notifyUTC ud.UTC r with
  | none => none
  | some n =>
    some { st with timers := st.timers ++ [{ chatID := chatID, r := r, delay := armDelay n now }] }

/-- The function `finalizeReminder` for the session of `chatID`, at clock
reading `now` (in nanoseconds, as `UnixNano` gives it). -/
def finalizeReminder (now : Int) (st : State) (chatID : Int) : Option State :=
  let (ud, st) := getUserData st chatID
  let temp : Reminder := { (sessionOf st chatID).Temp with ID := Int.tmod now 1000000 }
  let st := setSession st chatID { sessionOf st chatID with Temp := temp }
  let st := setReminders st chatID (temp :: ud.Reminders)
  match scheduleOnce now st chatID temp with
  | none => none
  | some st =>
    let st := sendText st chatID MsgKey.saved
    some (setSession st chatID { Stage := Stage.StageIdle, Temp := {} })

/-- The callback of the timer at position `i`: it notifies and deletes by id. -/
def fireTimer (st : State) (i : Nat) : Option State :=
  match st.timers[i]? with
  | none => none
  | some t =>
    let st := { st with timers := st.timers.eraseIdx i }
    let st := sendText st t.chatID MsgKey.notify
    deleteReminder st t.chatID t.r.ID false

/-! ## Recurring jobs -/

/-- The three statements that start a recurring job: make the channel, register
it under the reminder's id, start the goroutine. -/
def startJob (st : State) (chatID : Int) (r : Reminder) : State :=
  { st with
    chans := st.chans + 1
    cronQuitMap := setKey st.cronQuitMap r.ID (some st.chans)
    jobs := st.jobs ++ [{ chatID := chatID, r := r, quit := st.chans }] }

/-- The timer branch of the `select` in `runExprJob` for the job at position `i`:
one notification, then the loop goes round. -/
def cronTick (st : State) (i : Nat) : Option State :=
  match st.jobs[i]? with
  | none => none
  | some j => some (sendText st j.chatID MsgKey.notify_cron)

/-- The quit branch of the `select` in `runExprJob`: possible once the channel is
closed; the goroutine returns. -/
def cronQuit (st : State) (i : Nat) : Option State :=
  match st.jobs[i]? with
  | none => none
  | some j => if j.quit ∈ st.closed then some { st with jobs := st.jobs.eraseIdx i } else none

/-- The two library calls the program validates a recurring reminder with:
whether `time.LoadLocation` and `cronexpr.Parse` succeed. -/
structure Env where
  loadLocation : Str → Bool
  cronParse : Str → Bool

/-- The body of the rehydration loop of `main` for one stored reminder. -/
def rehydrateOne (env : Env) (now : Int) (st : State) (chatID : Int) (r : Reminder) :
    Option State :=
  if r.CronExpr ≠ [] then
    if !env.loadLocation r.TZ then some st
    else if !env.cronParse r.CronOriginal then some st
    else some (startJob st chatID r)
  else scheduleOnce now st chatID r

/-- The inner loop of the rehydration: the reminders of one chat, in order. -/
def rehydrateList (env : Env) (now : Int) (chatID : Int) :
    State → List Reminder → Option State
  | st, [] => some st
  | st, r :: rs =>
    match rehydrateOne env now st chatID r with
    | none => none
    | some st => rehydrateList env now chatID st rs

/-- The rehydration loop of `main`; `keys` lists the chats of the store in the
order the `range` over the map happens to visit them. -/
def rehydrate (env : Env) (now : Int) : State → List Int → Option State
  | st, [] => some st
  | st, k :: ks =>
    match rehydrateList env now k st (reminders st k) with
    | none => none
    | some st => rehydrate env now st ks

/-! ## Handlers -/

/-- What the handlers read of an inbound `tgbotapi.Message`: the chat, the text,
and the library's view of it as a command. -/
structure Message where
  chatID : Int
  Text : Str := []
  IsCommand : Bool := false
  Command : Str := []
  CommandArguments : Str := []
deriving DecidableEq, Repr

/-- What the handlers read of an inbound `tgbotapi.CallbackQuery`. -/
structure CallbackQuery where
  chatID : Int
  Data : Str
deriving DecidableEq, Repr

/-- The date text `%02d/%02d/%04d` the date callback stores. -/
def fmtDate (d m y : Int) : Str :=
  fmtInt 2 d ++ ['/'] ++ fmtInt 2 m ++ ['/'] ++ fmtInt 4 y

/-- The time text `%d:%02d %s` the time callback stores. -/
def fmtTime (h mi : Int) (ap : Str) : Str :=
  fmtInt 0 h ++ [':'] ++ fmtInt 2 mi ++ [' '] ++ ap

/-- The function `ProcessCalendar` on the callback data: the four results and the
state after its transport request. -/
def ProcessCalendar (st : State) (chatID : Int) (data : Str) :
    Option ((Bool × Int × Int × Int) × State) := do
  let parts := Split ';' data
  let act ← parts[0]?
  let y := (Atoi (← parts[1]?)).1
  let m := (Atoi (← parts[2]?)).1
  let d := (Atoi (← parts[3]?)).1
  if act = "ignore".toList then pure ((false, 0, 0, 0), send st chatID MsgKey.callback_ack)
  else if act = "DAY".toList then pure ((true, y, m, d), send st chatID MsgKey.callback_ack)
  else if act = "PREV".toList then pure ((false, 0, 0, 0), send st chatID MsgKey.edit_markup)
  else if act = "NEXT".toList then pure ((false, 0, 0, 0), send st chatID MsgKey.edit_markup)
  else pure ((false, 0, 0, 0), st)

/-- The function `ProcessClock`. -/
def ProcessClock (st : State) (chatID : Int) (data : Str) :
    Option ((Bool × Int × Int × Str) × State) := do
  let parts := Split ';' data
  let act ← parts[0]?
  if act = "ignore".toList then pure ((false, 0, 0, []), send st chatID MsgKey.callback_ack)
  else
    let h := (Atoi (← parts[1]?)).1
    let mi := (Atoi (← parts[2]?)).1
    let ap ← parts[3]?
    if act = "OKAY".toList then pure ((true, h, mi, ap), send st chatID MsgKey.callback_ack)
    else pure ((false, 0, 0, []), send st chatID MsgKey.edit_markup)

/-- The function `ProcessUTC`; `off++` and `off--` are 64-bit steps. -/
def ProcessUTC (st : State) (chatID : Int) (data : Str) : Option ((Bool × Int) × State) := do
  let parts := Split ';' data
  let act ← parts[0]?
  let off := (Atoi (← parts[1]?)).1
  if act = "ignore".toList then pure ((false, off), send st chatID MsgKey.callback_ack)
  else if act = "PLUS".toList then
    pure ((false, wrap64 (off + 1)), send st chatID MsgKey.edit_markup)
  else if act = "MINUS".toList then
    pure ((false, wrap64 (off - 1)), send st chatID MsgKey.edit_markup)
  else if act = "OKAY".toList then pure ((true, off), send st chatID MsgKey.callback_ack)
  else pure ((false, off), send st chatID MsgKey.edit_markup)

/-- The case `cancel` of `handleMessage`. -/
def cmdCancel (st : State) (chatID : Int) (args : Str) : Option State :=
  if args ≠ [] then
    if (Atoi args).2 = false then
      some (setStage (sendText st chatID MsgKey.invalid_index) chatID Stage.StageIdle)
    else
      match deleteByIndex st chatID (Atoi args).1 with
      | none => none
      | some (false, st) =>
        some (setStage (sendText st chatID MsgKey.invalid_index) chatID Stage.StageIdle)
      | some (true, st) =>
        some (setStage (sendText st chatID MsgKey.cancelled_index) chatID Stage.StageIdle)
  else if reminders st chatID = [] then some (sendText st chatID MsgKey.list_empty)
  else some (send st chatID MsgKey.cancel_prompt)

/-- The case `cron` of `handleMessage`, at clock reading `now`. -/
def cmdCron (env : Env) (now : Int) (st : State) (chatID : Int) (args : Str) : Option State :=
  let fields := Fields args
  if fields.length < 7 then some (sendText st chatID MsgKey.cron_usage)
  else
    let spec := Join [' '] (fields.take 5)
    match fields[5]? with
    | none => none
    | some tzName =>
      let text := Join [' '] (fields.drop 6)
      if !env.loadLocation tzName then some (send st chatID MsgKey.err_invalid_tz)
      else if !env.cronParse spec then some (send st chatID MsgKey.err_cron_parse)
      else
        let r : Reminder :=
          { ID := Int.tmod now 1000000, Name := text, CronOriginal := spec, TZ := tzName,
            CronExpr := spec }
        let st := setReminders st chatID (reminders st chatID ++ [r])
        let st := startJob st chatID r
        some (sendText st chatID MsgKey.cron_set)

/-- The wizard `switch s.Stage` at the end of `handleMessage`. -/
def sessionFlow (now : Int) (st : State) (chatID : Int) (text : Str) : Option State :=
  match (sessionOf st chatID).Stage with
  | Stage.StageName =>
    let st := setSession st chatID
      { Stage := Stage.StageDate, Temp := { (sessionOf st chatID).Temp with Name := text } }
    some (send st chatID MsgKey.prompt_date)
  | Stage.StageOptInfo =>
    let st := setSession st chatID
      { sessionOf st chatID with Temp := { (sessionOf st chatID).Temp with OptInfo := text } }
    finalizeReminder now st chatID
  | Stage.StageAskInfo =>
    let yes : Str := if (getUserData st chatID).1.Lang = sEn then "Yes".toList else "是".toList
    if ToLower text = ToLower yes then
      some (sendText (setStage st chatID Stage.StageOptInfo) chatID MsgKey.prompt_optinfo)
    else finalizeReminder now st chatID
  | _ => some st

/-- The function `handleMessage`, at clock reading `now`. -/
def handleMessage (env : Env) (now : Int) (st : State) (msg : Message) : Option State :=
  let chatID := msg.chatID
  let st := (getUserData st chatID).2
  let st := (getSession st chatID).2
  if msg.IsCommand ∧ msg.Command = "start".toList then
    some (sendText (setStage st chatID Stage.StageName) chatID MsgKey.prompt_name)
  else if msg.IsCommand ∧ msg.Command = "cancel".toList then
    cmdCancel st chatID msg.CommandArguments
  else if msg.IsCommand ∧ msg.Command = "list".toList then
    (if reminders st chatID = [] then some (sendText st chatID MsgKey.list_empty)
     else some (send st chatID MsgKey.list_header))
  else if msg.IsCommand ∧ msg.Command = "time".toList then
    some (send (setStage st chatID Stage.StageUTC) chatID MsgKey.timezone_prompt)
  else if msg.IsCommand ∧ (msg.Command = "language".toList ∨ msg.Command = "lang".toList) then
    some (send st chatID MsgKey.lang_prompt)
  else if msg.IsCommand ∧ msg.Command = "cron".toList then
    cmdCron env now st chatID msg.CommandArguments
  else sessionFlow now st chatID msg.Text

/-- The assignment `ud.Lang = l` through the pointer of an existing entry. -/
def setLang (st : State) (chatID : Int) (l : Str) : State :=
  match st.store chatID with
  | some ud => { st with store := setKey st.store chatID (some { ud with Lang := l }) }
  | none => st

/-- The assignment `ud.UTC = off` through the pointer of an existing entry. -/
def setUTC (st : State) (chatID : Int) (off : Int) : State :=
  match st.store chatID with
  | some ud => { st with store := setKey st.store chatID (some { ud with UTC := off }) }
  | none => st

/-- The function `handleCallback`, at clock reading `now`. -/
def handleCallback (now : Int) (st : State) (q : CallbackQuery) : Option State :=
  let chatID := q.chatID
  let st := (getUserData st chatID).2
  let st := (getSession st chatID).2
  let data := q.Data
  if startsWith data "CANCELIDX;".toList then
    match (Split ';' data)[1]? with
    | none => none
    | some p =>
      match deleteByIndex st chatID (Atoi p).1 with
      | none => none
      | some (true, st) =>
        some (send (sendText (send st chatID MsgKey.edit_markup) chatID MsgKey.cancelled_index)
          chatID MsgKey.callback_ack)
      | some (false, st) =>
        some (send (sendText st chatID MsgKey.invalid_index) chatID MsgKey.callback_ack)
  else if startsWith data "LANG;".toList then
    match (Split ';' data)[1]? with
    | none => none
    | some p =>
      let st := setLang st chatID p
      let st :=
        if p = sEn then sendText st chatID MsgKey.lang_set_en
        else sendText st chatID MsgKey.lang_set_zh
      some (send st chatID MsgKey.edit_markup)
  else if (sessionOf st chatID).Stage = Stage.StageDate then
    match ProcessCalendar st chatID data with
    | none => none
    | some ((ok, y, m, d), st) =>
      if ok then
        let st := setSession st chatID
          { Stage := Stage.StageTime,
            Temp := { (sessionOf st chatID).Temp with Date := fmtDate d m y } }
        some (sendText st chatID MsgKey.prompt_time)
      else some st
  else if (sessionOf st chatID).Stage = Stage.StageTime then
    match ProcessClock st chatID data with
    | none => none
    | some ((ok, h, mi, ap), st) =>
      if ok then
        let st := setSession st chatID
          { Stage := Stage.StageAskInfo,
            Temp := { (sessionOf st chatID).Temp with Time := fmtTime h mi ap } }
        some (send st chatID MsgKey.ask_extra)
      else some st
  else if (sessionOf st chatID).Stage = Stage.StageAskInfo ∧
      (data = "askinfo_yes".toList ∨ data = "askinfo_no".toList) then
    (if data = "askinfo_yes".toList then
      some (send (setStage st chatID Stage.StageOptInfo) chatID MsgKey.prompt_optinfo)
     else finalizeReminder now (send st chatID MsgKey.no_extra) chatID)
  else if (sessionOf st chatID).Stage = Stage.StageUTC then
    match ProcessUTC st chatID data with
    | none => none
    | some ((done, off), st) =>
      if done then
        some (setStage (send (setUTC st chatID off) chatID MsgKey.timezone_set) chatID
          Stage.StageIdle)
      else some st
  else some (send st chatID MsgKey.callback_ack)

/-! ## The process as a transition system -/

/-- What can happen next: an inbound message or callback (with the clock reading
at its arrival), an armed timer firing, a job waking by time or by its
cancellation signal. -/
inductive Event where
  | message (now : Int) (msg : Message)
  | callback (now : Int) (q : CallbackQuery)
  | timer (i : Nat)
  | tick (i : Nat)
  | quit (i : Nat)

/-- One step of the process. -/
def step (env : Env) (st : State) : Event → Option State
  | Event.message now msg => handleMessage env now st msg
  | Event.callback now q => handleCallback now st q
  | Event.timer i => fireTimer st i
  | Event.tick i => cronTick st i
  | Event.quit i => cronQuit st i

/-- Runs a sequence of events; `none` as soon as one step panics. -/
def run (env : Env) : State → List Event → Option State
  | st, [] => some st
  | st, e :: es =>
    match step env st e with
    | none => none
    | some st => run env st es

/-- The states the process reaches from `st0`. -/
inductive ReachableFrom (env : Env) (st0 : State) : State → Prop where
  | start : ReachableFrom env st0 st0
  | next {st st2 : State} (e : Event) :
      ReachableFrom env st0 st → step env st e = some st2 → ReachableFrom env st0 st2

/-! ## Example states and specification-side definitions -/

/-- A chat with three reminders, the second one recurring and registered. -/
def threeChat : State :=
  { store := fun k =>
      if k = 7 then
        some { UTC := 0, Lang := sEn,
               Reminders :=
                [{ Name := ['a'], ID := 1, Date := fmtDate 1 1 2030, Time := fmtTime 9 0 sAm },
                 { Name := ['b'], ID := 2, CronExpr := ['*'], CronOriginal := ['*'], TZ := ['Z'] },
                 { Name := ['c'], ID := 3, Date := fmtDate 2 1 2030, Time := fmtTime 9 0 sPm }] }
      else none
    cronQuitMap := fun k => if k = 2 then some 0 else none
    chans := 1 }

/-- Days from 1 January 1970 to 1 January of `year` in the proleptic Gregorian
calendar, over the unbounded integers. -/
def daysToYear (year : Int) : Int :=
  let y := year - 1
  365 * y + y / 4 - y / 100 + y / 400 - 719162

/-- The UTC instant of the civil date and time (year, month, day, hour,
minute), as the specification means it: nanoseconds since the Unix epoch in
the proleptic Gregorian calendar, over the unbounded integers; a month
outside 1..12 is carried into the year and the other fields add up. -/
def utcInstant (yr mon day hh mi : Int) : Int :=
  let m0 := mon - 1
  let year := yr + m0 / 12
  let m := m0 % 12
  let d := daysToYear year + (daysBefore.getD m.toNat 0) +
    (if isLeap year && decide (2 ≤ m) then 1 else 0) + (day - 1)
  (d * 86400 + hh * 3600 + mi * 60) * Second

/-- The standard 12-hour to 24-hour conversion, as the specification words it:
12 am is 0, 12 pm is 12, H pm is H + 12 for H below 12, H am is H otherwise. -/
def hour24 (h : Int) (ap : Str) : Int :=
  if ap = sAm then (if h = 12 then 0 else h)
  else (if h < 12 then h + 12 else h)

/-- A one-shot reminder for 1 January 9999, 9:00 am. -/
def farReminder : Reminder := { Name := ['a'], Date := fmtDate 1 1 9999, Time := fmtTime 9 0 sAm }

/-- An environment in which every timezone loads and every expression parses. -/
def envAll : Env := { loadLocation := fun _ => true, cronParse := fun _ => true }

/-- The wizard run through once in chat 7 for a reminder named `name`, the
finalizing callback arriving at clock reading `now`. -/
def wizardRun (name : Str) (now : Int) : List Event :=
  [ Event.message 0 { chatID := 7, IsCommand := true, Command := "start".toList },
    Event.message 0 { chatID := 7, Text := name },
    Event.callback 0 { chatID := 7, Data := "DAY;2030;1;1".toList },
    Event.callback 0 { chatID := 7, Data := "OKAY;9;0;am".toList },
    Event.callback now { chatID := 7, Data := "askinfo_no".toList } ]

/-- Two wizard runs whose finalizing clock readings agree modulo 10^6 ns: the
two reminders get the same id. -/
def twinRun : List Event := wizardRun ['a'] 5 ++ wizardRun ['b'] 1000005

/-- The command `/cron 0 11 18 * * Asia/Shanghai report` in chat 7. -/
def cronMsg : Message :=
  { chatID := 7, IsCommand := true, Command := "cron".toList,
    CommandArguments := "0 11 18 * * Asia/Shanghai report".toList }

/-- A one-shot reminder with id 5. -/
def oneShot5 : Reminder :=
  { Name := ['a'], ID := 5, Date := fmtDate 1 1 2030, Time := fmtTime 9 0 sAm }

/-- A recurring reminder with id 6. -/
def cron6 : Reminder :=
  { Name := ['r'], ID := 6, CronExpr := ['*'], CronOriginal := ['*'], TZ := ['Z'] }

/-- A sequence of cancel-by-index calls `(chat, index)`; `none` if one panics. -/
def cancelEach : State → List (Int × Int) → Option State
  | st, [] => some st
  | st, (c, idx) :: ops =>
    match deleteByIndex st c idx with
    | none => none
    | some (_, st) => cancelEach st ops

/-- The rehydration body run over a flat list of (chat, reminder) pairs. -/
def rehydratePairs (env : Env) (now : Int) : State → List (Int × Reminder) → Option State
  | st, [] => some st
  | st, (c, r) :: ps =>
    match rehydrateOne env now st c r with
    | none => none
    | some st => rehydratePairs env now st ps

/-- The pairs the rehydration loop visits, in order. -/
def visited (st : State) (keys : List Int) : List (Int × Reminder) :=
  keys.flatMap (fun k => (reminders st k).map (fun r => (k, r)))

/-- The job map is well formed: registered channels are open, distinct keys
hold distinct channels, and every key is the id of a stored recurring
reminder. -/
def MapWF (st : State) : Prop :=
  (∀ k c, st.cronQuitMap k = some c → c ∉ st.closed) ∧
  (∀ k k2 c, st.cronQuitMap k = some c → st.cronQuitMap k2 = some c → k = k2) ∧
  (∀ k c, st.cronQuitMap k = some c →
    ∃ chat r, r ∈ reminders st chat ∧ r.ID = k ∧ r.CronExpr ≠ [])

/-- Every started job has had its channel closed or is still the one
registered under its reminder's id. -/
def JobsTracked (st : State) : Prop :=
  ∀ j ∈ st.jobs, j.quit ∈ st.closed ∨ st.cronQuitMap j.r.ID = some j.quit

/-- The process state right after `loadStorage` read the snapshot `snap`. -/
def loaded (snap : Int → Option UserData) : State := { store := snap }

/-- A snapshot with one well-formed one-shot reminder in chat 7. -/
def oneShotSnap : Int → Option UserData :=
  fun k => if k = 7 then some { UTC := 0, Lang := sEn, Reminders := [oneShot5] } else none

/-- A snapshot with a one-shot and a recurring reminder in chat 7. -/
def mixedSnap : Int → Option UserData :=
  fun k => if k = 7 then some { UTC := 0, Lang := sEn, Reminders := [oneShot5, cron6] } else none

/-- The ids of the recurring reminders among the visited pairs, in order. -/
def cronIDs (ps : List (Int × Reminder)) : List Int :=
  (ps.filter (fun p => decide (p.2.CronExpr ≠ []))).map (fun p => p.2.ID)

/-- The job map during rehydration: nothing closed yet, registered channels
already made, distinct keys hold distinct channels, every key is the id of a
stored recurring reminder. -/
def Rehy (st : State) : Prop :=
  st.closed = [] ∧
  (∀ k q, st.cronQuitMap k = some q → q < st.chans) ∧
  (∀ k k2 q, st.cronQuitMap k = some q → st.cronQuitMap k2 = some q → k = k2) ∧
  (∀ k q, st.cronQuitMap k = some q →
    ∃ chat r, r ∈ reminders st chat ∧ r.ID = k ∧ r.CronExpr ≠ [])

/-- The parts `scheduleOnce` indexes exist: three `/`-separated parts of the date,
two space-separated parts of the time, two `:`-separated parts of the first. -/
def hasParts (r : Reminder) : Bool :=
  decide (2 < (Split '/' r.Date).length) && decide (1 < (Split ' ' r.Time).length) &&
    decide (1 < (Split ':' ((Split ' ' r.Time).headD [])).length)

/-- The command `/cancel 9` in chat 7. -/
def cancelNinthMsg : Message :=
  { chatID := 7, IsCommand := true, Command := "cancel".toList, CommandArguments := ['9'] }

/-- The command `/start` in chat 7. -/
def startMsg : Message := { chatID := 7, IsCommand := true, Command := "start".toList }

/-- The command `/cancel abc` in chat 7. -/
def cancelAbcMsg : Message :=
  { chatID := 7, IsCommand := true, Command := "cancel".toList,
    CommandArguments := "abc".toList }

/-- An environment in which no timezone loads. -/
def envNoTZ : Env := { loadLocation := fun _ => false, cronParse := fun _ => true }

/-- The text was produced by the date callback. -/
def DateOK (s : Str) : Prop := ∃ d m y : Int, s = fmtDate d m y

/-- The text was produced by the time callback. -/
def TimeOK (s : Str) : Prop := ∃ (h mi : Int) (ap : Str), s = fmtTime h mi ap

/-- Exactly one kind is populated: date and time without expression (in either
of its two fields) and timezone (one-shot), or expression and timezone without
date and time (recurring). -/
def OneKind (r : Reminder) : Prop :=
  (r.Date ≠ [] ∧ r.Time ≠ [] ∧ r.CronExpr = [] ∧ r.CronOriginal = [] ∧ r.TZ = []) ∨
  (r.CronExpr ≠ [] ∧ r.CronOriginal ≠ [] ∧ r.TZ ≠ [] ∧ r.Date = [] ∧ r.Time = [])

/-- What the wizard guarantees of a session: the accumulator never carries an
expression or a timezone, from stage Time on its date is a formatted date, and
from stage AskInfo on its time is a formatted time. -/
def SessOK (s : Session) : Prop :=
  (s.Temp.CronExpr = [] ∧ s.Temp.CronOriginal = []) ∧ s.Temp.TZ = [] ∧
  (s.Stage = Stage.StageTime → DateOK s.Temp.Date) ∧
  (s.Stage = Stage.StageAskInfo ∨ s.Stage = Stage.StageOptInfo →
    DateOK s.Temp.Date ∧ TimeOK s.Temp.Time)

/-- The channels are in order: a registered channel is open and was made,
distinct keys hold distinct channels, closed channels were made. -/
def ChansOK (st : State) : Prop :=
  (∀ k q, st.cronQuitMap k = some q → q ∉ st.closed ∧ q < st.chans) ∧
  (∀ k k2 q, st.cronQuitMap k = some q → st.cronQuitMap k2 = some q → k = k2) ∧
  (∀ q ∈ st.closed, q < st.chans)

/-- The invariant of the running process, for a property `P` of stored
reminders that every reminder of exactly one kind has. -/
structure Inv (P : Reminder → Prop) (st : State) : Prop where
  kind : ∀ c, ∀ r ∈ reminders st c, P r
  sess : ∀ c, SessOK (sessionOf st c)
  chan : ChansOK st

/-- The second state has the reminder lists, the sessions, the job map and the
channels of the first. -/
structure Same (st st2 : State) : Prop where
  rem : ∀ k, reminders st2 k = reminders st k
  sess : ∀ k, sessionOf st2 k = sessionOf st k
  map : st2.cronQuitMap = st.cronQuitMap
  closed : st2.closed = st.closed
  chans : st2.chans = st.chans

/-- A wizard run and a recurring reminder with a different id. -/
def mixedRun : List Event :=
  wizardRun ['a'] 5 ++ [Event.message 6 cronMsg]

/-- A store whose chat 7 has a language the program does not know. -/
def frChat : State :=
  { store := fun k =>
      if k = 7 then some { UTC := 3, Lang := ['f', 'r'], Reminders := [oneShot5] } else none }

/-! ## The picker widgets

A keyboard is modelled by the callback data of its buttons, row by row; the
labels are display text only. -/

/-- The callback data `ignore` of the buttons that do nothing. -/
def sIgnore : Str := "ignore".toList

/-- The method `Time.Weekday` (Sunday is 0): the seconds since the absolute zero
year, an unsigned 64-bit count, are shifted by one day (that year began on a
Monday) and reduced to the week. -/
def weekdayOf (t : Int) : Int :=
  let abs := (timeSec t - absoluteToInternal) % 2 ^ 64
  ((abs + 86400) % 2 ^ 64 % 604800) / 86400

/-- The value of `int(first.Weekday())` for `first := time.Date(year, month, 1, 0,
0, 0, 0, time.Local)`, the local location taken to be UTC (in a location
whose clocks skip local midnight of the first, `time.Date` gives an instant
next to it). -/
def firstWeekday (year month : Int) : Int :=
  weekdayOf (goDate year month 1 0 0)

/-- The value of `time.Date(year, time.Month(month)+1, 0, ...).Day()`: day 0 of the
next month is the last day of the (normalised) month; the local location is
taken to be UTC and the year one whose seconds a `time.Time` holds. -/
def daysIn (year month : Int) : Int :=
  let m0 := month - 1
  let y := year + m0 / 12
  let m := m0 % 12
  if m = 1 then (if isLeap y then 29 else 28)
  else if m = 3 ∨ m = 5 ∨ m = 8 ∨ m = 10 then 30
  else 31

/-- The loop `for d <= days` of `monthCalendar` with `n` iterations left, followed
by the final append of the week under construction. -/
def weeksLoop (start : Nat) : Nat → Nat → List Int → List (List Int) → List (List Int)
  | 0, _, week, weeks => weeks ++ [week]
  | n + 1, d, week, weeks =>
    let idx := (start + d - 1) % 7
    let week := week.set idx (d : Int)
    if idx = 6 then weeksLoop start n (d + 1) (List.replicate 7 0) (weeks ++ [week])
    else weeksLoop start n (d + 1) week weeks

/-- The function `monthCalendar`: the weeks of the month, Monday first, 0 for a
blank cell. -/
def monthCalendar (year month : Int) : List (List Int) :=
  weeksLoop ((firstWeekday year month + 6) % 7).toNat (daysIn year month).toNat 1
    (List.replicate 7 0) []

/-- The callback data `DAY;%d;%d;%d` of a day button. -/
def dayData (year month d : Int) : Str :=
  ['D', 'A', 'Y', ';'] ++ fmtInt 0 year ++ [';'] ++ fmtInt 0 month ++ [';'] ++ fmtInt 0 d

/-- The callback data `PREV;%d;%d;0` of the button that pages back. -/
def prevData (year month : Int) : Str :=
  ['P', 'R', 'E', 'V', ';'] ++ fmtInt 0 year ++ [';'] ++ fmtInt 0 month ++ [';', '0']

/-- The callback data `NEXT;%d;%d;0` of the button that pages forward. -/
def nextData (year month : Int) : Str :=
  ['N', 'E', 'X', 'T', ';'] ++ fmtInt 0 year ++ [';'] ++ fmtInt 0 month ++ [';', '0']

/-- The function `CreateCalendar`: title, weekday header, the weeks, the paging row. -/
def CreateCalendar (year month : Int) : List (List Str) :=
  [[sIgnore], List.replicate 7 sIgnore] ++
  (monthCalendar year month).map
    (fun wk => wk.map (fun d => if d = 0 then sIgnore else dayData year month d)) ++
  [[prevData year month, sIgnore, nextData year month]]

/-- The callback data `<act>;%d;%d;%s` of a clock button. -/
def clockData (act : Str) (hour minute : Int) (ampm : Str) : Str :=
  act ++ [';'] ++ fmtInt 0 hour ++ [';'] ++ fmtInt 0 minute ++ [';'] ++ ampm

/-- The function `CreateClock`. -/
def CreateClock (hour minute : Int) (ampm : Str) : List (List Str) :=
  [[clockData "PLUS-HOUR".toList hour minute ampm, clockData "PLUS-MINUTE".toList hour minute ampm,
    clockData "PLUS-AMPM".toList hour minute ampm],
   [sIgnore, sIgnore, sIgnore],
   [clockData "MINUS-HOUR".toList hour minute ampm,
    clockData "MINUS-MINUTE".toList hour minute ampm,
    clockData "MINUS-AMPM".toList hour minute ampm],
   [clockData ['O', 'K', 'A', 'Y'] hour minute ampm]]

/-- The callback data `<act>;%d` of a timezone button. -/
def utcData (act : Str) (offset : Int) : Str := act ++ [';'] ++ fmtInt 0 offset

/-- The function `CreateTimezone`. -/
def CreateTimezone (offset : Int) : List (List Str) :=
  [[utcData ['P', 'L', 'U', 'S'] offset], [sIgnore], [utcData ['M', 'I', 'N', 'U', 'S'] offset],
   [utcData ['O', 'K', 'A', 'Y'] offset]]

/-- The message `a` in chat 7. -/
def nameMsg : Message := { chatID := 7, Text := ['a'] }

/-- The wizard up to the date picker, then a press on the picker's title button. -/
def ignoreDateRun : List Event :=
  [Event.message 0 startMsg, Event.message 0 nameMsg,
   Event.callback 0 { chatID := 7, Data := sIgnore }]

/-- The command `/time` in chat 7. -/
def timeMsg : Message := { chatID := 7, IsCommand := true, Command := "time".toList }

/-- The timezone picker opened, then a press on its current-value button. -/
def ignoreUTCRun : List Event :=
  [Event.message 0 timeMsg, Event.callback 0 { chatID := 7, Data := sIgnore }]

/-- The message is one of the commands `handleMessage` has a case for. -/
def knownCommand (msg : Message) : Bool :=
  msg.IsCommand &&
    decide (msg.Command ∈ ["start".toList, "cancel".toList, "list".toList, "time".toList,
      "language".toList, "lang".toList, "cron".toList])

/-- The label `messages["btn_yes"][lang]` for a normalised language. -/
def yesWord (lang : Str) : Str := if lang = sEn then "Yes".toList else "是".toList

/-- The UTC offset stored for a chat (0 when the chat has no entry yet). -/
def utcOf (st : State) (chatID : Int) : Int :=
  match st.store chatID with
  | some ud => ud.UTC
  | none => 0

/-- The wizard in chat 7 up to the question about extra information. -/
def askInfoRun : List Event :=
  [Event.message 0 startMsg, Event.message 0 nameMsg,
   Event.callback 0 { chatID := 7, Data := "DAY;2030;1;1".toList },
   Event.callback 0 { chatID := 7, Data := "OKAY;9;0;am".toList }]

/-- The command `/list` in chat 7. -/
def listMsg : Message := { chatID := 7, IsCommand := true, Command := "list".toList }

/-- Chat 7 waiting for a date, the name `a` stored. -/
def dateChat : State :=
  { sessions := fun k =>
      if k = 7 then some { Stage := Stage.StageDate, Temp := { Name := ['a'] } } else none }

/-- Chat 7 asked about extra information, name, date and time stored. -/
def askChat : State :=
  { sessions := fun k =>
      if k = 7 then
        some { Stage := Stage.StageAskInfo,
               Temp := { Name := ['a'], Date := fmtDate 1 1 2030, Time := fmtTime 9 0 sAm } }
      else none }

/-- The notification instant as the specification means it: the UTC instant of
the event (local date and time, hour converted to the 24-hour clock, minus the
offset `u` in hours) minus the ten minutes of lead. -/
def notifyInstant (y m d h mi : Int) (ap : Str) (u : Int) : Int :=
  utcInstant y m d (hour24 h ap) mi - u * Hour - 10 * Minute

/-- A one-shot reminder for 1 January 292277024628, 9:00 am. -/
def wrapReminder : Reminder :=
  { Name := ['a'], Date := fmtDate 1 1 292277024628, Time := fmtTime 9 0 sAm }

/-- A one-shot reminder for 18 November 2026, 12:30 am. -/
def nearReminder : Reminder :=
  { Name := ['a'], Date := fmtDate 18 11 2026, Time := fmtTime 12 30 sAm }

/-- Chat 7 with the offset 2562048 stored. -/
def offsetChat : State :=
  { store := fun k => if k = 7 then some { UTC := 2562048, Lang := sEn, Reminders := [] } else none }

/-- The one-shot reminders among the visited pairs, in order. -/
def oneShots (ps : List (Int × Reminder)) : List (Int × Reminder) :=
  ps.filter (fun p => decide (p.2.CronExpr = []))

/-- A second recurring reminder with id 6. -/
def cron6b : Reminder :=
  { Name := ['s'], ID := 6, CronExpr := ['*'], CronOriginal := ['*'], TZ := ['Z'] }

/-- A snapshot with two recurring reminders of the same id in chat 7. -/
def twinCronSnap : Int → Option UserData :=
  fun k => if k = 7 then some { UTC := 0, Lang := sEn, Reminders := [cron6, cron6b] } else none

/-! ## Basic facts about the store -/

theorem setKey_same {β : Type} (m : Int → Option β) (k : Int) (v : Option β) :
    setKey m k v k = v := by
  simp [setKey]

theorem setKey_other {β : Type} (m : Int → Option β) (k j : Int) (v : Option β) (h : j ≠ k) :
    setKey m k v j = m j := by
  simp [setKey, h]

@[simp]
theorem getUserData_reminders (st : State) (c : Int) :
    (getUserData st c).1.Reminders = reminders st c := by
  unfold getUserData reminders
  cases st.store c <;> simp
  all_goals (split <;> rfl)

@[simp]
theorem reminders_getUserData (st : State) (c k : Int) :
    reminders (getUserData st c).2 k = reminders st k := by
  unfold getUserData reminders
  by_cases h : k = c
  · subst h
    cases st.store k <;> simp [setKey]
    all_goals (split <;> rfl)
  · simp [setKey, h]

theorem getUserData_store_self (st : State) (c : Int) :
    (getUserData st c).2.store c = some (getUserData st c).1 := by
  simp [getUserData, setKey]

theorem reminders_setReminders (st : State) (c : Int) (l : List Reminder)
    (h : st.store c ≠ none) : reminders (setReminders st c l) c = l := by
  unfold setReminders reminders
  cases hs : st.store c with
  | none => exact absurd hs h
  | some ud => simp [setKey]

theorem reminders_setReminders_other (st : State) (c k : Int) (l : List Reminder)
    (h : k ≠ c) : reminders (setReminders st c l) k = reminders st k := by
  unfold setReminders reminders
  cases st.store c <;> simp [setKey, h]

@[simp]
theorem setReminders_cronQuitMap (st : State) (c : Int) (l : List Reminder) :
    (setReminders st c l).cronQuitMap = st.cronQuitMap := by
  unfold setReminders; cases st.store c <;> rfl

@[simp]
theorem setReminders_closed (st : State) (c : Int) (l : List Reminder) :
    (setReminders st c l).closed = st.closed := by
  unfold setReminders; cases st.store c <;> rfl

@[simp]
theorem setReminders_jobs (st : State) (c : Int) (l : List Reminder) :
    (setReminders st c l).jobs = st.jobs := by
  unfold setReminders; cases st.store c <;> rfl

@[simp]
theorem setReminders_timers (st : State) (c : Int) (l : List Reminder) :
    (setReminders st c l).timers = st.timers := by
  unfold setReminders; cases st.store c <;> rfl

@[simp]
theorem setReminders_sessions (st : State) (c : Int) (l : List Reminder) :
    (setReminders st c l).sessions = st.sessions := by
  unfold setReminders; cases st.store c <;> rfl

@[simp]
theorem setReminders_chans (st : State) (c : Int) (l : List Reminder) :
    (setReminders st c l).chans = st.chans := by
  unfold setReminders; cases st.store c <;> rfl

@[simp]
theorem getUserData_cronQuitMap (st : State) (c : Int) :
    (getUserData st c).2.cronQuitMap = st.cronQuitMap := rfl

@[simp]
theorem getUserData_closed (st : State) (c : Int) :
    (getUserData st c).2.closed = st.closed := rfl

@[simp]
theorem getUserData_jobs (st : State) (c : Int) : (getUserData st c).2.jobs = st.jobs := rfl

@[simp]
theorem getUserData_timers (st : State) (c : Int) :
    (getUserData st c).2.timers = st.timers := rfl

@[simp]
theorem getUserData_sessions (st : State) (c : Int) :
    (getUserData st c).2.sessions = st.sessions := rfl

@[simp]
theorem getUserData_chans (st : State) (c : Int) : (getUserData st c).2.chans = st.chans := rfl

theorem stopJob_store (st st2 : State) (r : Reminder) (h : stopJob st r = some st2) :
    st2.store = st.store := by
  unfold stopJob closeQuit at h
  split at h
  · split at h
    · split at h
      · simp at h
      · simp at h; subst h; rfl
    · simp at h; subst h; rfl
  · simp at h; subst h; rfl

theorem stopJob_isSome (st : State) (r : Reminder) (h : QuitOpen st) :
    ∃ st2, stopJob st r = some st2 := by
  unfold stopJob closeQuit
  split
  · split
    · rename_i quit hq
      simp [h r.ID quit hq]
    · exact ⟨_, rfl⟩
  · exact ⟨_, rfl⟩

theorem quitOpen_getUserData (st : State) (c : Int) (h : QuitOpen st) :
    QuitOpen (getUserData st c).2 := h

/-- C1: for a chat whose list has length n and an index with 1 ≤ idx ≤ n (in a
state whose registered quit channels are open), `deleteByIndex` returns true
and the chat's list becomes the old list without its idx-th entry (1-based):
the entries before it followed by the entries after it, in their order. -/
theorem deleteByIndex_removes (st : State) (chatID idx : Int) (hopen : QuitOpen st)
    (h1 : 1 ≤ idx) (h2 : idx ≤ (reminders st chatID).length) :
    ∃ st2, deleteByIndex st chatID idx = some (true, st2) ∧
      reminders st2 chatID =
        (reminders st chatID).take (idx - 1).toNat ++ (reminders st chatID).drop idx.toNat := by
  have hlt : (idx - 1).toNat < (reminders st chatID).length := by omega
  have hidx : (idx - 1).toNat + 1 = idx.toNat := by omega
  obtain ⟨st3, h3⟩ := stopJob_isSome (getUserData st chatID).2
    ((reminders st chatID)[(idx - 1).toNat]) (quitOpen_getUserData st chatID hopen)
  refine ⟨setReminders st3 chatID ((reminders st chatID).eraseIdx (idx - 1).toNat), ?_, ?_⟩
  · unfold deleteByIndex
    simp only [getUserData_reminders]
    rw [if_neg (by omega), List.getElem?_eq_getElem hlt]
    simp only [h3, Option.map_some']
  · rw [reminders_setReminders, List.eraseIdx_eq_take_drop_succ, hidx]
    rw [stopJob_store _ _ _ h3, getUserData_store_self]
    simp

theorem deleteByIndex_removes_witness :
    ∃ st2, deleteByIndex threeChat 7 2 = some (true, st2) ∧
      reminders st2 7 =
        [{ Name := ['a'], ID := 1, Date := fmtDate 1 1 2030, Time := fmtTime 9 0 sAm },
         { Name := ['c'], ID := 3, Date := fmtDate 2 1 2030, Time := fmtTime 9 0 sPm }] :=
  deleteByIndex_removes threeChat 7 2 (by intro k c _; simp [threeChat]) (by decide) (by decide)

/-! ## Parsing what the wizard formats -/

theorem digitChar_isDigit (k : Nat) (h : k < 10) : (digitChar k).isDigit = true := by
  interval_cases k <;> decide

theorem digitVal_digitChar (k : Nat) (h : k < 10) : digitVal (digitChar k) = k := by
  interval_cases k <;> decide

theorem parseDigits_snoc (xs : Str) (c : Char) :
    parseDigits (xs ++ [c]) =
      (parseDigits xs).bind (fun a => if c.isDigit then some (a * 10 + digitVal c) else none) := by
  simp [parseDigits, List.foldl_append]

theorem parseDigits_natStrAux (f n : Nat) (h : n ≤ f ∨ n < 10) :
    parseDigits (natStrAux f n) = some n := by
  induction f generalizing n with
  | zero =>
    have hn : n < 10 := by omega
    simp [natStrAux, parseDigits, digitChar_isDigit n hn, digitVal_digitChar n hn]
  | succ f ih =>
    unfold natStrAux
    split
    · rename_i hn
      simp [parseDigits, digitChar_isDigit n hn, digitVal_digitChar n hn]
    · rename_i hn
      have h10 : n % 10 < 10 := Nat.mod_lt _ (by decide)
      rw [parseDigits_snoc, ih (n / 10) (by omega)]
      simp [digitChar_isDigit _ h10, digitVal_digitChar _ h10]
      omega

theorem natStrAux_isDigit (f n : Nat) (h : n ≤ f ∨ n < 10) :
    ∀ c ∈ natStrAux f n, c.isDigit = true := by
  induction f generalizing n with
  | zero =>
    have hn : n < 10 := by omega
    simp [natStrAux, digitChar_isDigit n hn]
  | succ f ih =>
    unfold natStrAux
    split
    · rename_i hn
      simp [digitChar_isDigit n hn]
    · rename_i hn
      intro c hc
      rcases List.mem_append.1 hc with h1 | h1
      · exact ih (n / 10) (by omega) c h1
      · simp at h1
        subst h1
        exact digitChar_isDigit _ (Nat.mod_lt _ (by decide))

theorem natStrAux_ne_nil (f n : Nat) : natStrAux f n ≠ [] := by
  cases f with
  | zero => simp [natStrAux]
  | succ f =>
    unfold natStrAux
    split <;> simp

theorem parseDigits_zeros (k : Nat) (ds : Str) :
    parseDigits (List.replicate k '0' ++ ds) = parseDigits ds := by
  induction k with
  | zero => simp
  | succ k ih =>
    have h0 : parseDigits ('0' :: (List.replicate k '0' ++ ds)) =
        parseDigits (List.replicate k '0' ++ ds) := by
      simp [parseDigits, digitVal]
    rw [List.replicate_succ, List.cons_append, h0, ih]

/-- The text `fmtInt` gives a natural number: digits only, never empty, reading
back as the number. -/
theorem fmtInt_nat (w n : Nat) :
    fmtInt w (n : Int) ≠ [] ∧ (∀ c ∈ fmtInt w (n : Int), c.isDigit = true) ∧
      parseDigits (fmtInt w (n : Int)) = some n := by
  have hneg : ¬ ((n : Int) < 0) := by omega
  simp only [fmtInt, hneg, if_false, Int.natAbs_ofNat, natStr]
  refine ⟨?_, ?_, ?_⟩
  · simp [natStrAux_ne_nil]
  · intro c hc
    rcases List.mem_append.1 hc with h1 | h1
    · rw [List.eq_of_mem_replicate h1]; decide
    · exact natStrAux_isDigit n n (Or.inl (le_refl n)) c h1
  · rw [parseDigits_zeros]
    exact parseDigits_natStrAux n n (Or.inl (le_refl n))

theorem Atoi_digits (s : Str) (k : Nat) (hne : s ≠ []) (hall : ∀ c ∈ s, c.isDigit = true)
    (hp : parseDigits s = some k) (hk : k < 2 ^ 63) : Atoi s = ((k : Int), true) := by
  cases s with
  | nil => exact absurd rfl hne
  | cons c cs =>
    have hc : c.isDigit = true := hall c (List.mem_cons_self _ _)
    have h1 : c ≠ '-' := by rintro rfl; exact absurd hc (by decide)
    have h2 : c ≠ '+' := by rintro rfl; exact absurd hc (by decide)
    have hk2 : k < 9223372036854775808 := by
      norm_num at hk
      exact hk
    simp only [Atoi, h1, h2, hp, or_self, if_false]
    simp only [List.cons_ne_nil, if_false, beq_iff_eq, h1, decide_False, Bool.false_eq_true]
    norm_num
    rw [if_neg (by omega), if_neg (by omega)]

theorem Atoi_fmtInt (w n : Nat) (hn : n < 2 ^ 63) : (Atoi (fmtInt w (n : Int))).1 = (n : Int) := by
  obtain ⟨h1, h2, h3⟩ := fmtInt_nat w n
  rw [Atoi_digits _ n h1 h2 h3 hn]

theorem Split_no_sep (sep : Char) (a : Str) (h : sep ∉ a) : Split sep a = [a] := by
  induction a with
  | nil => rfl
  | cons c cs ih =>
    have hc : c ≠ sep := fun e => h (e ▸ List.mem_cons_self _ _)
    have hcs : sep ∉ cs := fun e => h (List.mem_cons_of_mem _ e)
    simp [Split, hc, ih hcs]

theorem Split_append (sep : Char) (a rest : Str) (h : sep ∉ a) :
    Split sep (a ++ sep :: rest) = a :: Split sep rest := by
  induction a with
  | nil => simp [Split]
  | cons c cs ih =>
    have hc : c ≠ sep := fun e => h (e ▸ List.mem_cons_self _ _)
    have hcs : sep ∉ cs := fun e => h (List.mem_cons_of_mem _ e)
    simp [Split, hc, ih hcs]

theorem not_mem_of_digits (sep : Char) (hsep : sep.isDigit = false) (a : Str)
    (h : ∀ c ∈ a, c.isDigit = true) : sep ∉ a := by
  intro hm
  have := h sep hm
  rw [hsep] at this
  exact absurd this (by decide)

theorem wrap64_of_range (x : Int) (h1 : -(2 ^ 63) ≤ x) (h2 : x < 2 ^ 63) : wrap64 x = x := by
  unfold wrap64
  rw [Int.emod_eq_of_lt (by omega) (by omega)]
  omega

/-! ## The arithmetic of package time -/

theorem tdiv_of_nonneg (a b : Int) (ha : 0 ≤ a) (hb : 0 ≤ b) : Int.tdiv a b = a / b :=
  Int.tdiv_eq_ediv ha hb

theorem tdiv_of_neg (a b : Int) (ha : a ≤ 0) (hb : 0 ≤ b) : Int.tdiv a b = -((-a) / b) := by
  have h := Int.neg_tdiv (-a) b
  rw [neg_neg] at h
  rw [h, Int.tdiv_eq_ediv (by omega) hb]

theorem tmod_eq (a b : Int) : Int.tmod a b = a - b * Int.tdiv a b := by
  have := Int.tmod_add_tdiv a b
  omega

theorem norm_exact (hi lo base : Int) (hb : 0 < base) (hb2 : base ≤ 60)
    (hlo1 : -(2 ^ 62) ≤ lo) (hlo2 : lo < 2 ^ 62) (hhi1 : -(2 ^ 62) ≤ hi) (hhi2 : hi < 2 ^ 62) :
    norm hi lo base = (hi + lo / base, lo % base) := by
  have hdm := Int.emod_add_ediv lo base
  have hm1 := Int.emod_nonneg lo (by omega : base ≠ 0)
  have hm2 := Int.emod_lt_of_pos lo hb
  by_cases hneg : lo < 0
  · -- n = (-lo-1)/base + 1
    have w1 : wrap64 (-lo) = -lo := wrap64_of_range _ (by omega) (by omega)
    have w2 : wrap64 (-lo - 1) = -lo - 1 := wrap64_of_range _ (by omega) (by omega)
    have t1 : Int.tdiv (-lo - 1) base = (-lo - 1) / base := tdiv_of_nonneg _ _ (by omega) (by omega)
    have q1 : (-lo - 1) / base = -(lo / base) - 1 := by
      have e : -lo - 1 = (base - 1 - lo % base) + base * (-(lo / base) - 1) := by
        have : base * (-(lo / base) - 1) = -(base * (lo / base)) - base := by ring
        omega
      rw [e, Int.add_mul_ediv_left _ _ (by omega : base ≠ 0),
        Int.ediv_eq_zero_of_lt (by omega) (by omega)]
      ring
    have hq : lo / base < 0 := Int.ediv_neg' hneg hb
    have hq2 : -(2 ^ 62) ≤ lo / base := by
      by_contra hc
      have : base * (lo / base) ≤ base * (-(2 ^ 62) - 1) :=
        Int.mul_le_mul_of_nonneg_left (by omega) (by omega)
      have : base * (-(2 ^ 62) - 1 : Int) ≤ 1 * (-(2 ^ 62) - 1) :=
        Int.mul_le_mul_of_nonpos_right (by omega) (by norm_num)
      omega
    have w3 : wrap64 (-(lo / base) - 1 + 1) = -(lo / base) :=
      by rw [wrap64_of_range _ (by omega) (by omega)]; ring
    have hnb : (-(lo / base)) * base = lo % base - lo := by
      have : (-(lo / base)) * base = -(base * (lo / base)) := by ring
      omega
    have w4 : wrap64 (-(lo / base) * base) = lo % base - lo := by
      rw [hnb]; exact wrap64_of_range _ (by omega) (by omega)
    have w5 : wrap64 (lo + (lo % base - lo)) = lo % base := by
      rw [wrap64_of_range _ (by omega) (by omega)]; ring
    have w6 : wrap64 (hi - -(lo / base)) = hi + lo / base := by
      rw [wrap64_of_range _ (by omega) (by omega)]; ring
    unfold norm
    simp only [hneg, if_true, w1, w2, t1, q1, w3, w4, w5, w6]
    rw [if_neg (by omega)]
  · have hlo0 : 0 ≤ lo := by omega
    have hq0 : 0 ≤ lo / base := Int.ediv_nonneg hlo0 (by omega)
    have hq2 : lo / base ≤ lo := Int.ediv_le_self _ hlo0
    unfold norm
    simp only [hneg, if_false]
    by_cases hge : lo ≥ base
    · have t1 : Int.tdiv lo base = lo / base := tdiv_of_nonneg _ _ hlo0 (by omega)
      have hnb : lo / base * base = lo - lo % base := by
        have : lo / base * base = base * (lo / base) := by ring
        omega
      have w4 : wrap64 (lo / base * base) = lo - lo % base := by
        rw [hnb]; exact wrap64_of_range _ (by omega) (by omega)
      have w5 : wrap64 (lo - (lo - lo % base)) = lo % base := by
        rw [wrap64_of_range _ (by omega) (by omega)]; ring
      have w6 : wrap64 (hi + lo / base) = hi + lo / base :=
        wrap64_of_range _ (by omega) (by omega)
      simp only [hge, if_true, t1, w4, w5, w6]
    · simp only [hge, if_false]
      have : lo / base = 0 := Int.ediv_eq_zero_of_lt hlo0 (by omega)
      have : lo % base = lo := Int.emod_eq_of_lt hlo0 (by omega)
      simp [*]

theorem daysSinceEpoch_eq (year : Int) (h1 : absoluteZeroYear ≤ year) (h2 : year < 2 ^ 63) :
    daysSinceEpoch year = daysToYear year + 106751991073094 := by
  unfold daysSinceEpoch daysToYear
  unfold absoluteZeroYear at *
  have e : (year - -292277022399) % 2 ^ 64 = year + 292277022399 := by
    rw [Int.emod_eq_of_lt (by omega) (by omega)]
    ring
  simp only [e]
  omega

theorem daysBefore_bounds (k : Nat) :
    0 ≤ daysBefore.getD k 0 ∧ daysBefore.getD k 0 ≤ 334 := by
  by_cases h : k < 12
  · interval_cases k <;> decide
  · have : daysBefore.getD k 0 = 0 := by
      unfold daysBefore
      rw [List.getD_eq_default]
      simp only [List.length_cons, List.length_nil]
      omega
    omega

/-- In the range of fields far from the 64-bit limits `time.Date` computes the
instant of the civil date and time. -/
theorem goDate_exact (yr mon day hh mi : Int)
    (hy : -1000000000 ≤ yr ∧ yr ≤ 1000000000) (hm : -1000000000 ≤ mon ∧ mon ≤ 1000000000)
    (hd : -1000000000 ≤ day ∧ day ≤ 1000000000) (hh2 : -1000000000 ≤ hh ∧ hh ≤ 1000000000)
    (hmi : -1000000000 ≤ mi ∧ mi ≤ 1000000000) :
    goDate yr mon day hh mi = utcInstant yr mon day hh mi := by
  have wm : wrap64 (mon - 1) = mon - 1 := wrap64_of_range _ (by omega) (by omega)
  have n1 : norm yr (mon - 1) 12 = (yr + (mon - 1) / 12, (mon - 1) % 12) :=
    norm_exact _ _ _ (by omega) (by omega) (by omega) (by omega) (by omega) (by omega)
  have n2 : norm hh mi 60 = (hh + mi / 60, mi % 60) :=
    norm_exact _ _ _ (by omega) (by omega) (by omega) (by omega) (by omega) (by omega)
  have n3 : norm day (hh + mi / 60) 24 = (day + (hh + mi / 60) / 24, (hh + mi / 60) % 24) :=
    norm_exact _ _ _ (by omega) (by omega) (by omega) (by omega) (by omega) (by omega)
  have hdse := daysSinceEpoch_eq (yr + (mon - 1) / 12) (by unfold absoluteZeroYear; omega)
    (by omega)
  obtain ⟨b1, b2⟩ := daysBefore_bounds ((mon - 1) % 12).toNat
  unfold goDate utcInstant
  simp only [wm, n1, n2, n3, hdse]
  generalize daysBefore.getD ((mon - 1) % 12).toNat 0 = db at *
  have hlp : (0 : Int) ≤ (if (isLeap (yr + (mon - 1) / 12) && decide (2 ≤ (mon - 1) % 12)) = true
      then (1 : Int) else 0) ∧
      (if (isLeap (yr + (mon - 1) / 12) && decide (2 ≤ (mon - 1) % 12)) = true
      then (1 : Int) else 0) ≤ 1 := by
    split_ifs <;> omega
  generalize (if (isLeap (yr + (mon - 1) / 12) && decide (2 ≤ (mon - 1) % 12)) = true
    then (1 : Int) else 0) = lp at *
  have hdy : -400000000000 ≤ daysToYear (yr + (mon - 1) / 12) ∧
      daysToYear (yr + (mon - 1) / 12) ≤ 400000000000 := by
    simp only [daysToYear]
    omega
  generalize daysToYear (yr + (mon - 1) / 12) = dy at *
  have hw : wrap64 ((dy + 106751991073094 + db + lp + (day + (hh + mi / 60) / 24 - 1)) * 86400 +
      ((hh + mi / 60) % 24 * 3600 + mi % 60 * 60) + absoluteToInternal) =
      (dy + db + lp + (day - 1)) * 86400 + hh * 3600 + mi * 60 + unixToInternal := by
    unfold absoluteToInternal unixToInternal
    rw [wrap64_of_range _ (by omega) (by omega)]
    omega
  rw [hw]
  unfold mkTime unixToInternal Second
  ring

theorem tdiv_second (d : Int) :
    Int.tdiv d 1000000000 = if 0 ≤ d then d / 1000000000 else -((-d) / 1000000000) := by
  split_ifs with h
  · exact tdiv_of_nonneg _ _ h (by omega)
  · exact tdiv_of_neg _ _ (by omega) (by omega)

/-- The method `Time.Add` gives the sum when the sum is a `time.Time`. -/
theorem timeAdd_exact (t d : Int) (ht : -(2 ^ 63) ≤ timeSec t ∧ timeSec t < 2 ^ 63)
    (hs : -(2 ^ 63) ≤ timeSec (t + d) ∧ timeSec (t + d) < 2 ^ 63) :
    timeAdd t d = t + d := by
  unfold timeAdd
  simp only [tmod_eq, timeNsec, timeSec, Second, unixToInternal, mkTime, wrap64, tdiv_second] at *
  norm_num at *
  split_ifs <;> omega

/-- When the sum is not a `time.Time` the seconds of `Time.Add` stick at a limit. -/
theorem timeAdd_saturated (t d : Int) (ht : -(2 ^ 63) ≤ timeSec t ∧ timeSec t < 2 ^ 63)
    (hd : -(2 ^ 63) ≤ d ∧ d < 2 ^ 63)
    (hs : ¬ (-(2 ^ 63) ≤ timeSec (t + d) ∧ timeSec (t + d) < 2 ^ 63)) :
    timeSec (timeAdd t d) = 2 ^ 63 - 1 ∨ timeSec (timeAdd t d) = -(2 ^ 63 - 1) := by
  unfold timeAdd
  simp only [tmod_eq, timeNsec, timeSec, Second, unixToInternal, mkTime, wrap64, tdiv_second] at *
  norm_num at *
  split_ifs <;> omega

theorem timeSub_duration (t u : Int) :
    wrap64 (wrap64 (wrap64 (timeSec t - timeSec u) * Second) + (timeNsec t - timeNsec u)) =
      wrap64 (t - u) := by
  simp only [timeNsec, timeSec, Second, unixToInternal, wrap64]
  norm_num
  omega

/-- The method `Time.Sub` between two `time.Time` values gives the difference, or the
largest or smallest duration when the difference does not fit. -/
theorem timeSub_saturates (t u : Int) (ht : -(2 ^ 63 - 1) < timeSec t ∧ timeSec t < 2 ^ 63 - 1)
    (hu : -(2 ^ 63) ≤ timeSec u ∧ timeSec u < 2 ^ 63) :
    timeSub t u =
      if t - u > maxDuration then maxDuration
      else if t - u < minDuration then minDuration else t - u := by
  unfold timeSub
  simp only [timeSub_duration]
  by_cases hfit : -(2 ^ 63) ≤ t - u ∧ t - u < 2 ^ 63
  · have hw : wrap64 (t - u) = t - u := wrap64_of_range _ hfit.1 hfit.2
    have ha : timeAdd u (t - u) = t := by
      rw [timeAdd_exact u (t - u) hu (by rw [show u + (t - u) = t by ring]; omega)]
      ring
    rw [hw, if_pos ha]
    unfold maxDuration minDuration
    rw [if_neg (by omega), if_neg (by omega)]
  · have hne : wrap64 (t - u) ≠ t - u := by
      intro e
      apply hfit
      unfold wrap64 at e
      omega
    have hwr : -(2 ^ 63) ≤ wrap64 (t - u) ∧ wrap64 (t - u) < 2 ^ 63 := by
      unfold wrap64
      omega
    have hna : timeAdd u (wrap64 (t - u)) ≠ t := by
      intro e
      by_cases hs : -(2 ^ 63) ≤ timeSec (u + wrap64 (t - u)) ∧
          timeSec (u + wrap64 (t - u)) < 2 ^ 63
      · rw [timeAdd_exact u _ hu hs] at e
        exact hne (by omega)
      · rcases timeAdd_saturated u _ hu hwr hs with h | h <;> rw [e] at h <;> omega
    rw [if_neg hna]
    unfold maxDuration minDuration
    split_ifs <;> omega

/-- What `notifyUTC` computes on the texts the wizard formats from natural
numbers, the calls of package `time` left as the code makes them. -/
theorem notifyUTC_fmt (d m y h mi : Nat) (ap : Str) (u : Int) (r : Reminder)
    (hd : d < 2 ^ 63) (hm : m < 2 ^ 63) (hy : y < 2 ^ 63) (hh2 : h < 2 ^ 63) (hmi : mi < 2 ^ 63)
    (hap : ap = sAm ∨ ap = sPm)
    (hD : r.Date = fmtDate d m y) (hT : r.Time = fmtTime h mi ap) :
    notifyUTC u r =
      some (timeAdd (timeAdd (goDate y m d (hour24 h ap) mi) (wrap64 (wrap64 (-u) * Hour)))
        (-10 * Minute)) := by
  have hsl : ('/' : Char).isDigit = false := by decide
  have hco : (':' : Char).isDigit = false := by decide
  have hsp : (' ' : Char).isDigit = false := by decide
  obtain ⟨-, dd, -⟩ := fmtInt_nat 2 d
  obtain ⟨-, dm, -⟩ := fmtInt_nat 2 m
  obtain ⟨-, dy, -⟩ := fmtInt_nat 4 y
  obtain ⟨-, dh, -⟩ := fmtInt_nat 0 h
  obtain ⟨-, dmi, -⟩ := fmtInt_nat 2 mi
  have hdate : Split '/' r.Date = [fmtInt 2 d, fmtInt 2 m, fmtInt 4 y] := by
    rw [hD, fmtDate]
    simp only [List.append_assoc, List.singleton_append, List.cons_append, List.nil_append]
    rw [Split_append _ _ _ (not_mem_of_digits _ hsl _ dd),
      Split_append _ _ _ (not_mem_of_digits _ hsl _ dm),
      Split_no_sep _ _ (not_mem_of_digits _ hsl _ dy)]
  have hapsp : ' ' ∉ ap := by
    rcases hap with e | e <;> subst e <;> decide
  have htime : Split ' ' r.Time = [fmtInt 0 h ++ ':' :: fmtInt 2 mi, ap] := by
    rw [hT, fmtTime]
    simp only [List.append_assoc, List.singleton_append, List.cons_append, List.nil_append]
    have hno : ' ' ∉ fmtInt 0 (h : Int) ++ ':' :: fmtInt 2 (mi : Int) := by
      intro hm
      rcases List.mem_append.1 hm with h1 | h1
      · exact not_mem_of_digits _ hsp _ dh h1
      · rcases List.mem_cons.1 h1 with h2 | h2
        · exact absurd h2 (by decide)
        · exact not_mem_of_digits _ hsp _ dmi h2
    have e : fmtInt 0 (h : Int) ++ ':' :: (fmtInt 2 (mi : Int) ++ ' ' :: ap) =
        (fmtInt 0 (h : Int) ++ ':' :: fmtInt 2 (mi : Int)) ++ ' ' :: ap := by simp
    rw [e, Split_append _ _ _ hno, Split_no_sep _ _ hapsp]
  have hhm : Split ':' (fmtInt 0 (h : Int) ++ ':' :: fmtInt 2 (mi : Int)) =
      [fmtInt 0 h, fmtInt 2 mi] := by
    rw [Split_append _ _ _ (not_mem_of_digits _ hco _ dh),
      Split_no_sep _ _ (not_mem_of_digits _ hco _ dmi)]
  have hlow : ToLower ap = ap := by
    rcases hap with e | e <;> subst e <;> decide
  have a1 := Atoi_fmtInt 2 d hd
  have a2 := Atoi_fmtInt 2 m hm
  have a3 := Atoi_fmtInt 4 y hy
  have a4 := Atoi_fmtInt 0 h hh2
  have a5 := Atoi_fmtInt 2 mi hmi
  unfold notifyUTC
  simp only [hdate, htime, hhm, hlow, a1, a2, a3, a4, a5, List.getElem?_cons_zero,
    List.getElem?_cons_succ, Option.pure_def, Option.bind_eq_bind, Option.some_bind]
  rcases hap with e | e
  · subst e
    have : sAm ≠ sPm := by decide
    simp only [this, false_and, if_false, true_and, hour24, if_true]
  · subst e
    have : sPm ≠ sAm := by decide
    simp only [this, false_and, if_false, true_and, hour24]

theorem utcInstant_bounds (yr mon day hh mi : Int)
    (hy : -1000000000 ≤ yr ∧ yr ≤ 1000000000) (hm : -1000000000 ≤ mon ∧ mon ≤ 1000000000)
    (hd : -1000000000 ≤ day ∧ day ≤ 1000000000) (hh2 : -1000000000 ≤ hh ∧ hh ≤ 1000000000)
    (hmi : -1000000000 ≤ mi ∧ mi ≤ 1000000000) :
    ∃ k : Int, utcInstant yr mon day hh mi = k * Second ∧
      -40000000000000000 ≤ k ∧ k ≤ 40000000000000000 := by
  obtain ⟨b1, b2⟩ := daysBefore_bounds ((mon - 1) % 12).toNat
  have hlp : (0 : Int) ≤ (if (isLeap (yr + (mon - 1) / 12) && decide (2 ≤ (mon - 1) % 12)) = true
      then (1 : Int) else 0) ∧
      (if (isLeap (yr + (mon - 1) / 12) && decide (2 ≤ (mon - 1) % 12)) = true
      then (1 : Int) else 0) ≤ 1 := by
    split_ifs <;> omega
  have hdy : -400000000000 ≤ daysToYear (yr + (mon - 1) / 12) ∧
      daysToYear (yr + (mon - 1) / 12) ≤ 400000000000 := by
    simp only [daysToYear]
    omega
  refine ⟨_, rfl, ?_, ?_⟩ <;> omega

theorem hour24_bounds (h : Nat) (ap : Str) (hh : h ≤ 12) :
    0 ≤ hour24 h ap ∧ hour24 h ap ≤ 23 := by
  unfold hour24
  split_ifs <;> omega

/-- On a well-formed reminder and an offset whose hours fit a duration the
calls of package `time` in `scheduleOnce` are exact: the notification instant
is the instant of the civil date and time, minus the offset, minus ten
minutes. -/
theorem notifyUTC_instant (d m y h mi : Nat) (ap : Str) (u : Int) (r : Reminder)
    (hd : d ≤ 99) (hm : m ≤ 99) (hy : y ≤ 9999) (hh2 : h ≤ 12) (hmi : mi ≤ 59)
    (hap : ap = sAm ∨ ap = sPm) (hu1 : -2562047 ≤ u) (hu2 : u ≤ 2562047)
    (hD : r.Date = fmtDate d m y) (hT : r.Time = fmtTime h mi ap) :
    notifyUTC u r = some (utcInstant y m d (hour24 h ap) mi - u * Hour - 10 * Minute) := by
  have p63 : (2 : Nat) ^ 63 = 9223372036854775808 := by norm_num
  have hw1 : wrap64 (-u) = -u := wrap64_of_range _ (by omega) (by omega)
  have hw2 : wrap64 (-u * Hour) = -u * Hour := by
    apply wrap64_of_range <;> simp only [Hour, Minute, Second] <;> omega
  obtain ⟨c1, c2⟩ := hour24_bounds h ap hh2
  have hg := goDate_exact y m d (hour24 h ap) mi (by omega) (by omega) (by omega) (by omega)
    (by omega)
  obtain ⟨k, hk, k1, k2⟩ := utcInstant_bounds y m d (hour24 h ap) mi (by omega) (by omega)
    (by omega) (by omega) (by omega)
  rw [notifyUTC_fmt d m y h mi ap u r (by omega) (by omega) (by omega) (by omega) (by omega)
    hap hD hT, hw1, hw2, hg, hk]
  have e1 : timeAdd (k * Second) (-u * Hour) = k * Second + -u * Hour := by
    apply timeAdd_exact <;> simp only [timeSec, unixToInternal, Hour, Minute, Second] <;> omega
  rw [e1]
  have e2 : timeAdd (k * Second + -u * Hour) (-10 * Minute) =
      k * Second + -u * Hour + -10 * Minute := by
    apply timeAdd_exact <;> simp only [timeSec, unixToInternal, Hour, Minute, Second] <;> omega
  rw [e2]
  congr 1
  ring

/-- C2 (amended): for a well-formed one-shot reminder (date DD/MM/YYYY, time
H:MM am|pm with H ≤ 12, which covers 1 ≤ H ≤ 12) and a chat offset u with
|u| ≤ 2562047 (u hours fit a 64-bit duration), the notification instant of `scheduleOnce` is the UTC
instant of (year, month, day, hour24, minute) minus u hours minus 10 minutes. -/
theorem notifyUTC_wellformed (d m y h mi : Nat) (ap : Str) (u : Int) (r : Reminder)
    (hd : d ≤ 99) (hm : m ≤ 99) (hy : y ≤ 9999) (hh2 : h ≤ 12) (hmi : mi ≤ 59)
    (hap : ap = sAm ∨ ap = sPm) (hu1 : -2562047 ≤ u) (hu2 : u ≤ 2562047)
    (hD : r.Date = fmtDate d m y) (hT : r.Time = fmtTime h mi ap) :
    notifyUTC u r = some (utcInstant y m d (hour24 h ap) mi - u * Hour - 10 * Minute) :=
  notifyUTC_instant d m y h mi ap u r hd hm hy hh2 hmi hap hu1 hu2 hD hT

theorem notifyUTC_wellformed_witness :
    notifyUTC 8 { Date := fmtDate 18 11 2026, Time := fmtTime 12 30 sAm } =
      some (utcInstant 2026 11 18 0 30 - 8 * Hour - 10 * Minute) :=
  notifyUTC_wellformed 18 11 2026 12 30 sAm 8 _ (by decide) (by decide) (by decide) (by decide)
    (by decide) (Or.inl rfl) (by decide) (by decide) rfl rfl

set_option maxRecDepth 100000 in
/-- C2 as stated fails: with offset 2562048 the duration product wraps and the
instant is not the event instant minus the offset minus ten minutes. -/
theorem notifyUTC_offset_counterexample :
    notifyUTC 2562048 { Date := fmtDate 18 11 2026, Time := fmtTime 12 30 sAm } ≠
      some (utcInstant 2026 11 18 (hour24 12 sAm) 30 - 2562048 * Hour - 10 * Minute) := by
  decide

/-! ## The delay of a one-shot timer -/

theorem notifyUTC_of_hasParts (u : Int) (r : Reminder) (h : hasParts r = true) :
    ∃ n, notifyUTC u r = some n := by
  simp only [hasParts, Bool.and_eq_true, decide_eq_true_eq] at h
  obtain ⟨⟨h1, h2⟩, h3⟩ := h
  unfold notifyUTC
  rcases hd : Split '/' r.Date with _ | ⟨a, _ | ⟨b, _ | ⟨c, t⟩⟩⟩
  · rw [hd] at h1; simp at h1
  · rw [hd] at h1; simp at h1
  · rw [hd] at h1; simp at h1
  rcases ht : Split ' ' r.Time with _ | ⟨x, _ | ⟨y, t2⟩⟩
  · rw [ht] at h2; simp at h2
  · rw [ht] at h2; simp at h2
  rw [ht] at h3
  simp only [List.headD_cons] at h3
  rcases hx : Split ':' x with _ | ⟨p, _ | ⟨q, t3⟩⟩
  · rw [hx] at h3; simp at h3
  · rw [hx] at h3; simp at h3
  simp [hx]

theorem armDelay_pos (n now : Int) : 0 < armDelay n now := by
  unfold armDelay
  simp only
  split_ifs with h
  · unfold Second; omega
  · omega

theorem scheduleOnce_arms (now : Int) (st : State) (chatID : Int) (r : Reminder) (n : Int)
    (hn : notifyUTC (getUserData st chatID).1.UTC r = some n) :
    scheduleOnce now st chatID r =
      some { (getUserData st chatID).2 with
        timers := st.timers ++ [{ chatID := chatID, r := r, delay := armDelay n now }] } := by
  simp only [scheduleOnce, hn]
  rfl

/-- The delay armed for a notification instant whose seconds are away from the
limits of `time.Time` and a clock reading that is a `time.Time`. -/
theorem armDelay_eq (n now : Int) (hn : -(2 ^ 63 - 1) < timeSec n ∧ timeSec n < 2 ^ 63 - 1)
    (hnow : -(2 ^ 63) ≤ timeSec now ∧ timeSec now < 2 ^ 63) :
    armDelay n now = if 0 < n - now then min (n - now) maxDuration else Second := by
  unfold armDelay
  simp only [timeSub_saturates n now hn hnow, maxDuration, minDuration, Second]
  norm_num
  split_ifs <;> first | rfl | omega

/-- C3 (amended): for every one-shot reminder whose date and time have the parts
`scheduleOnce` indexes and every clock reading, `scheduleOnce` arms a timer
with a strictly positive delay, so the reminder is never refused.  For a
well-formed reminder (date DD/MM/YYYY, time H:MM am|pm with H ≤ 12), a chat
offset u with |u| ≤ 2562047 and a clock reading that is a `time.Time` (its
seconds since year 1 fit 64 bits), the delay is n − now capped at the largest
duration (2^63 − 1 ns) when n − now is positive and one second otherwise,
where n is the notification instant: the UTC instant of the event minus u
hours minus ten minutes; an event five minutes after now gets one second. -/
theorem scheduleOnce_delay (now : Int) (st : State) (chatID : Int) (r : Reminder) :
    (hasParts r = true →
      ∃ st2 dl, scheduleOnce now st chatID r = some st2 ∧
        st2.timers = st.timers ++ [{ chatID := chatID, r := r, delay := dl }] ∧ 0 < dl) ∧
    (∀ (d m y h mi : Nat) (ap : Str),
      d ≤ 99 → m ≤ 99 → y ≤ 9999 → h ≤ 12 → mi ≤ 59 → (ap = sAm ∨ ap = sPm) →
      r.Date = fmtDate d m y → r.Time = fmtTime h mi ap →
      -2562047 ≤ (getUserData st chatID).1.UTC → (getUserData st chatID).1.UTC ≤ 2562047 →
      -(2 ^ 63) ≤ timeSec now → timeSec now < 2 ^ 63 →
      ∃ st2 dl, scheduleOnce now st chatID r = some st2 ∧
        st2.timers = st.timers ++ [{ chatID := chatID, r := r, delay := dl }] ∧
        dl = (if 0 < notifyInstant y m d h mi ap (getUserData st chatID).1.UTC - now then
            min (notifyInstant y m d h mi ap (getUserData st chatID).1.UTC - now) maxDuration
          else Second) ∧
        (notifyInstant y m d h mi ap (getUserData st chatID).1.UTC + 10 * Minute =
            now + 5 * Minute → dl = Second)) := by
  constructor
  · intro hp
    obtain ⟨n, hn⟩ := notifyUTC_of_hasParts (getUserData st chatID).1.UTC r hp
    exact ⟨_, _, scheduleOnce_arms now st chatID r n hn, rfl, armDelay_pos n now⟩
  · intro d m y h mi ap hd hm hy hh2 hmi hap hD hT hu1 hu2 hn1 hn2
    have hn : notifyUTC (getUserData st chatID).1.UTC r =
        some (notifyInstant y m d h mi ap (getUserData st chatID).1.UTC) :=
      notifyUTC_instant d m y h mi ap _ r hd hm hy hh2 hmi hap hu1 hu2 hD hT
    obtain ⟨c1, c2⟩ := hour24_bounds h ap hh2
    obtain ⟨k, hk, k1, k2⟩ := utcInstant_bounds y m d (hour24 h ap) mi (by omega) (by omega)
      (by omega) (by omega) (by omega)
    have hsec : -(2 ^ 63 - 1) < timeSec (notifyInstant y m d h mi ap (getUserData st chatID).1.UTC) ∧
        timeSec (notifyInstant y m d h mi ap (getUserData st chatID).1.UTC) < 2 ^ 63 - 1 := by
      unfold notifyInstant
      rw [hk]
      simp only [timeSec, unixToInternal, Hour, Minute, Second]
      omega
    have hd2 := armDelay_eq _ now hsec ⟨hn1, hn2⟩
    refine ⟨_, _, scheduleOnce_arms now st chatID r _ hn, rfl, hd2, fun h5 => ?_⟩
    rw [hd2, if_neg]
    unfold Minute Second at h5
    omega

set_option maxRecDepth 100000 in
/-- The delay armed for the reminder of 1 January 9999, 9:00 am, in chat 7 (offset
0) at clock reading 0. -/
theorem scheduleOnce_delay_witness :
    (hasParts farReminder = true ∧
      ∃ st2 dl, scheduleOnce 0 threeChat 7 farReminder = some st2 ∧
        st2.timers = threeChat.timers ++ [{ chatID := 7, r := farReminder, delay := dl }] ∧
        0 < dl) ∧
    (∃ st2 dl, scheduleOnce 0 threeChat 7 farReminder = some st2 ∧
      st2.timers = threeChat.timers ++ [{ chatID := 7, r := farReminder, delay := dl }] ∧
      dl = (if 0 < notifyInstant 9999 1 1 9 0 sAm 0 - 0 then
          min (notifyInstant 9999 1 1 9 0 sAm 0 - 0) maxDuration else Second) ∧
      (notifyInstant 9999 1 1 9 0 sAm 0 + 10 * Minute = 0 + 5 * Minute → dl = Second)) :=
  ⟨⟨by decide, (scheduleOnce_delay 0 threeChat 7 farReminder).1 (by decide)⟩,
    (scheduleOnce_delay 0 threeChat 7 farReminder).2 1 1 9999 9 0 sAm (by decide) (by decide)
      (by decide) (by decide) (by decide) (Or.inl rfl) rfl rfl (by decide) (by decide)
      (by decide) (by decide)⟩

set_option maxRecDepth 100000 in
/-- C3 as stated fails, the clock at 1 November 2026.  For an event in the year
9999 the difference is positive, yet the timer is armed with the largest
duration, not with the difference.  For an event in the year 292277024628
the seconds of `time.Date` wrap: the difference is positive, yet the timer is
armed with one second.  With the chat offset 2562048 the duration product
wraps: for an event on 18 November 2026 the difference is negative, yet the
timer is armed with the largest duration, not with one second. -/
theorem scheduleOnce_delay_counterexample :
    (0 < notifyInstant 9999 1 1 9 0 sAm 0 - utcInstant 2026 11 1 0 0 ∧
      (scheduleOnce (utcInstant 2026 11 1 0 0) {} 7 farReminder).map
          (fun s => s.timers.map (fun t => t.delay)) = some [maxDuration] ∧
      maxDuration ≠ notifyInstant 9999 1 1 9 0 sAm 0 - utcInstant 2026 11 1 0 0) ∧
    (0 < notifyInstant 292277024628 1 1 9 0 sAm 0 - utcInstant 2026 11 1 0 0 ∧
      (scheduleOnce (utcInstant 2026 11 1 0 0) {} 7 wrapReminder).map
          (fun s => s.timers.map (fun t => t.delay)) = some [Second]) ∧
    (notifyInstant 2026 11 18 12 30 sAm 2562048 - utcInstant 2026 11 1 0 0 ≤ 0 ∧
      (scheduleOnce (utcInstant 2026 11 1 0 0) offsetChat 7 nearReminder).map
          (fun s => s.timers.map (fun t => t.delay)) = some [maxDuration]) := by
  decide

/-! ## Cancelling twice -/

theorem getUserData_fix (st : State) (c : Int) (ud : UserData) (h : st.store c = some ud)
    (hl : ud.Lang = sEn ∨ ud.Lang = sZh) : getUserData st c = (ud, st) := by
  have hn : ¬ (ud.Lang ≠ sEn ∧ ud.Lang ≠ sZh) := by
    rcases hl with e | e <;> simp [e]
  unfold getUserData
  simp only [h, hn, if_false]
  congr 1
  cases st
  simp only [State.mk.injEq, and_true, true_and] at *
  funext j
  by_cases hj : j = c
  · subst hj; simp [setKey, h]
  · simp [setKey, hj]

theorem getUserData_lang (st : State) (c : Int) :
    (getUserData st c).1.Lang = sEn ∨ (getUserData st c).1.Lang = sZh := by
  unfold getUserData
  simp only
  split_ifs with h
  · exact Or.inl rfl
  · by_contra hc
    simp only [not_or] at hc
    exact h hc

theorem find_eraseP_none (p : Reminder → Bool) (l : List Reminder)
    (h : (l.filter p).length ≤ 1) : (l.eraseP p).find? p = none := by
  induction l with
  | nil => rfl
  | cons a t ih =>
    by_cases hp : p a = true
    · have ht : t.filter p = [] := by
        simp only [List.filter_cons, hp, if_true, List.length_cons] at h
        exact List.length_eq_zero.1 (by omega)
      simp only [List.eraseP_cons_of_pos hp]
      rw [List.find?_eq_none]
      intro x hx hpx
      have : x ∈ t.filter p := List.mem_filter.2 ⟨hx, hpx⟩
      rw [ht] at this
      exact absurd this (List.not_mem_nil _)
    · have ht : (t.filter p).length ≤ 1 := by
        simpa [List.filter_cons, hp] using h
      simp [List.eraseP_cons, hp, List.find?_cons, ih ht]

/-- C4 (amended): in a state where at most one reminder of the chat carries the
id (and the registered quit channels are open), `deleteReminder(chat, id,
false)` returns, and applying it again returns the very same state: the same
reminder list, the same job map, no further channel closed. -/
theorem deleteReminder_twice (st : State) (chatID rid : Int) (hopen : QuitOpen st)
    (huniq : ((reminders st chatID).filter (fun r => decide (r.ID = rid))).length ≤ 1) :
    ∃ st1, deleteReminder st chatID rid false = some st1 ∧
      deleteReminder st1 chatID rid false = some st1 := by
  have hl := getUserData_lang st chatID
  have hs := getUserData_store_self st chatID
  have hr := getUserData_reminders st chatID
  cases hf : (reminders st chatID).find? (fun r => decide (r.ID = rid)) with
  | none =>
    refine ⟨(getUserData st chatID).2, ?_, ?_⟩
    · simp [deleteReminder, hr, hf]
    · simp only [deleteReminder, getUserData_fix _ _ _ hs hl, hr, hf]
      simp
  | some r =>
    obtain ⟨st3, h3⟩ := stopJob_isSome (getUserData st chatID).2 r
      (quitOpen_getUserData st chatID hopen)
    have hst3 : st3.store chatID = some (getUserData st chatID).1 := by
      rw [stopJob_store _ _ _ h3, hs]
    refine ⟨setReminders st3 chatID
      ((reminders st chatID).eraseP (fun r => decide (r.ID = rid))), ?_, ?_⟩
    · simp [deleteReminder, hr, hf, h3]
    · have hstore : (setReminders st3 chatID
          ((reminders st chatID).eraseP (fun r => decide (r.ID = rid)))).store chatID =
          some { (getUserData st chatID).1 with
            Reminders := (reminders st chatID).eraseP (fun r => decide (r.ID = rid)) } := by
        simp [setReminders, hst3, setKey]
      simp only [deleteReminder, getUserData_fix _ _ _ hstore hl, find_eraseP_none _ _ huniq]
      simp

theorem deleteReminder_twice_witness :
    ∃ st1, deleteReminder threeChat 7 2 false = some st1 ∧
      deleteReminder st1 7 2 false = some st1 :=
  deleteReminder_twice threeChat 7 2 (by intro k c _; simp [threeChat]) (by decide)

set_option maxRecDepth 100000 in
/-- C4 as stated fails: after two wizard runs that received the same id,
cancelling that id once leaves one reminder, cancelling it twice leaves none. -/
theorem deleteReminder_twice_counterexample :
    ((run envAll {} twinRun).bind (fun s => deleteReminder s 7 5 false)).map
        (fun s => (reminders s 7).map (fun r => r.Name)) = some [['a']] ∧
    (((run envAll {} twinRun).bind (fun s => deleteReminder s 7 5 false)).bind
        (fun s => deleteReminder s 7 5 false)).map
        (fun s => (reminders s 7).map (fun r => r.Name)) = some [] := by
  decide

/-! ## Firings -/

@[simp]
theorem reminders_send (st : State) (c k : Int) (key : MsgKey) :
    reminders (send st c key) k = reminders st k := rfl

@[simp]
theorem reminders_sendText (st : State) (c k : Int) (key : MsgKey) :
    reminders (sendText st c key) k = reminders st k := by
  simp [sendText, reminders_getUserData]

theorem stopJob_cases (st : State) (r : Reminder) (h : QuitOpen st) :
    (∃ q, r.CronExpr ≠ [] ∧ st.cronQuitMap r.ID = some q ∧
      stopJob st r = some { st with closed := q :: st.closed,
                                    cronQuitMap := setKey st.cronQuitMap r.ID none }) ∨
    ((r.CronExpr = [] ∨ st.cronQuitMap r.ID = none) ∧ stopJob st r = some st) := by
  by_cases hc : r.CronExpr = []
  · exact Or.inr ⟨Or.inl hc, by simp [stopJob, hc]⟩
  · cases hq : st.cronQuitMap r.ID with
    | none => exact Or.inr ⟨Or.inr rfl, by simp [stopJob, hc, hq]⟩
    | some q =>
      refine Or.inl ⟨q, hc, rfl, ?_⟩
      simp [stopJob, hc, hq, closeQuit, h r.ID q hq]

theorem mem_eraseIdx_of_ne (l : List Reminder) (i : Nat) (x r : Reminder) (hx : x ∈ l)
    (hr : l[i]? = some r) (hne : x ≠ r) : x ∈ l.eraseIdx i := by
  induction l generalizing i with
  | nil => exact absurd hx (List.not_mem_nil _)
  | cons a t ih =>
    cases i with
    | zero =>
      simp only [List.getElem?_cons_zero, Option.some.injEq] at hr
      subst hr
      rcases List.mem_cons.1 hx with e | e
      · exact absurd e hne
      · simpa using e
    | succ i =>
      simp only [List.getElem?_cons_succ] at hr
      rcases List.mem_cons.1 hx with e | e
      · subst e; simp
      · simp only [List.eraseIdx_cons_succ]
        exact List.mem_cons_of_mem _ (ih i e hr)

theorem mapWF_getUserData (st : State) (c : Int) (h : MapWF st) : MapWF (getUserData st c).2 := by
  obtain ⟨h1, h2, h3⟩ := h
  refine ⟨h1, h2, ?_⟩
  intro k q hk
  obtain ⟨chat, r, hr, e1, e2⟩ := h3 k q hk
  exact ⟨chat, r, by rw [reminders_getUserData]; exact hr, e1, e2⟩

/-- Cancel-by-index never panics on a well-formed job map and keeps it well
formed; tracked jobs stay tracked. -/
theorem deleteByIndex_inv (st : State) (c idx : Int) (h : MapWF st) :
    ∃ b st2, deleteByIndex st c idx = some (b, st2) ∧ MapWF st2 ∧
      (JobsTracked st → JobsTracked st2) ∧ st2.jobs = st.jobs := by
  have hg := mapWF_getUserData st c h
  have hs := getUserData_store_self st c
  have hr := getUserData_reminders st c
  by_cases hv : idx < 1 ∨ idx > (reminders st c).length
  · exact ⟨false, (getUserData st c).2, by simp [deleteByIndex, hr, hv], hg, fun hj => hj, rfl⟩
  · have hlt : (idx - 1).toNat < (reminders st c).length := by omega
    simp only [deleteByIndex, hr, hv, if_false]
    generalize (idx - 1).toNat = i at hlt ⊢
    have hget : (reminders st c)[i]? = some (reminders st c)[i] := List.getElem?_eq_getElem hlt
    generalize hrdef : (reminders st c)[i] = r at hget
    simp only [hget]
    have hrmem : r ∈ reminders st c := by rw [← hrdef]; exact List.getElem_mem hlt
    obtain ⟨g1, g2, g3⟩ := hg
    have key : ∀ s2, s2.store = (getUserData st c).2.store →
        (∀ k, reminders (setReminders s2 c ((reminders st c).eraseIdx i)) k =
          if k = c then (reminders st c).eraseIdx i else reminders st k) := by
      intro s2 hs2 k
      by_cases hk : k = c
      · subst hk
        rw [if_pos rfl, reminders_setReminders]
        rw [hs2, hs]; simp
      · rw [if_neg hk, reminders_setReminders_other _ _ _ _ hk]
        show reminders s2 k = reminders st k
        rw [← reminders_getUserData st c k]
        unfold reminders
        rw [hs2]
    have keep : ∀ s2, s2.store = (getUserData st c).2.store → ∀ chat x, x ∈ reminders st chat →
        x ≠ r → x ∈ reminders (setReminders s2 c ((reminders st c).eraseIdx i)) chat := by
      intro s2 hs2 chat x hx hne
      rw [key s2 hs2]
      split_ifs with hk
      · subst hk
        exact mem_eraseIdx_of_ne _ _ _ _ hx hget hne
      · exact hx
    simp only [getUserData_cronQuitMap, getUserData_closed] at g1 g2 g3
    rcases stopJob_cases (getUserData st c).2 r g1 with ⟨q, hc, hq, hstop⟩ | ⟨hno, hstop⟩
    · simp only [getUserData_cronQuitMap] at hq
      have hmap : ∀ k q2, (setReminders { (getUserData st c).2 with
            closed := q :: (getUserData st c).2.closed,
            cronQuitMap := setKey (getUserData st c).2.cronQuitMap r.ID none } c
            ((reminders st c).eraseIdx i)).cronQuitMap k = some q2 →
          k ≠ r.ID ∧ st.cronQuitMap k = some q2 := by
        intro k q2 hk
        simp only [setReminders_cronQuitMap, getUserData_cronQuitMap, setKey] at hk
        by_cases e : k = r.ID
        · simp [e] at hk
        · exact ⟨e, by simpa [e] using hk⟩
      simp only [hstop, Option.map_some']
      refine ⟨true, _, rfl, ?_, ?_, by simp⟩
      · refine ⟨?_, ?_, ?_⟩
        · intro k q2 hk
          obtain ⟨hk2, hk3⟩ := hmap k q2 hk
          have hq2 : q2 ≠ q := fun e => hk2 (g2 _ _ _ hk3 (e ▸ hq))
          have := g1 k q2 hk3
          simp only [setReminders_closed, getUserData_closed, List.mem_cons, not_or]
          exact ⟨hq2, this⟩
        · intro k k2 q2 hk hk'
          exact g2 _ _ _ (hmap k q2 hk).2 (hmap k2 q2 hk').2
        · intro k q2 hk
          obtain ⟨a1, b1⟩ := hmap k q2 hk
          obtain ⟨chat, x, hx, e1, e2⟩ := g3 k q2 b1
          rw [reminders_getUserData] at hx
          refine ⟨chat, x, keep _ ?_ chat x hx (fun e => a1 (by rw [← e1, e])), e1, e2⟩
          rfl
      · intro hj j hjm
        have hjm2 : j ∈ st.jobs := by simpa using hjm
        simp only [setReminders_closed, setReminders_cronQuitMap, getUserData_closed,
          getUserData_cronQuitMap, List.mem_cons]
        rcases hj j hjm2 with e | e
        · exact Or.inl (Or.inr e)
        · by_cases hid : j.r.ID = r.ID
          · left; left
            rw [hid, hq] at e
            exact (Option.some.inj e).symm
          · right
            simp only [setKey, hid, if_false]
            exact e
    · simp only [hstop, Option.map_some']
      refine ⟨true, _, rfl, ?_, ?_, by simp⟩
      · refine ⟨?_, ?_, ?_⟩
        · intro k q2 hk
          simp only [setReminders_cronQuitMap, getUserData_cronQuitMap] at hk
          simpa using g1 k q2 hk
        · intro k k2 q2 hk hk'
          simp only [setReminders_cronQuitMap, getUserData_cronQuitMap] at hk hk'
          exact g2 _ _ _ hk hk'
        · intro k q2 hk
          simp only [setReminders_cronQuitMap, getUserData_cronQuitMap] at hk
          obtain ⟨chat, x, hx, e1, e2⟩ := g3 k q2 hk
          rw [reminders_getUserData] at hx
          refine ⟨chat, x, keep _ rfl chat x hx ?_, e1, e2⟩
          intro e
          subst e
          rcases hno with hno | hno
          · exact e2 hno
          · simp only [getUserData_cronQuitMap] at hno
            rw [e1, hk] at hno
            exact absurd hno (by simp)
      · intro hj j hjm
        have hjm2 : j ∈ st.jobs := by simpa using hjm
        simpa using hj j hjm2

theorem cancelEach_inv (ops : List (Int × Int)) (st : State) (h : MapWF st) :
    ∃ st2, cancelEach st ops = some st2 ∧ MapWF st2 ∧
      (JobsTracked st → JobsTracked st2) ∧ st2.jobs = st.jobs := by
  induction ops generalizing st with
  | nil => exact ⟨st, rfl, h, fun hj => hj, rfl⟩
  | cons op ops ih =>
    obtain ⟨c, idx⟩ := op
    obtain ⟨b, s1, h1, h2, h3, h4⟩ := deleteByIndex_inv st c idx h
    obtain ⟨s2, g1, g2, g3, g4⟩ := ih s1 h2
    exact ⟨s2, by simp only [cancelEach, h1, g1], g2, fun hj => g3 (h3 hj), by rw [g4, h4]⟩

theorem scheduleOnce_fields (now : Int) (st st2 : State) (c : Int) (r : Reminder)
    (h : scheduleOnce now st c r = some st2) :
    st2.cronQuitMap = st.cronQuitMap ∧ st2.closed = st.closed ∧ st2.jobs = st.jobs ∧
      st2.chans = st.chans ∧ st2.sessions = st.sessions ∧
      ∀ k, reminders st2 k = reminders st k := by
  unfold scheduleOnce at h
  simp only at h
  split at h
  · exact absurd h (by simp)
  · simp only [Option.some.injEq] at h
    subst h
    exact ⟨rfl, rfl, rfl, rfl, rfl, fun k => reminders_getUserData st c k⟩

theorem rehydrateOne_cases (env : Env) (now : Int) (st st2 : State) (c : Int) (r : Reminder)
    (h : rehydrateOne env now st c r = some st2) :
    (st2 = startJob st c r ∧ r.CronExpr ≠ []) ∨
    (st2.cronQuitMap = st.cronQuitMap ∧ st2.closed = st.closed ∧ st2.jobs = st.jobs ∧
      st2.chans = st.chans ∧ ∀ k, reminders st2 k = reminders st k) := by
  unfold rehydrateOne at h
  split_ifs at h with h1 h2 h3
  · simp only [Option.some.injEq] at h; subst h
    exact Or.inr ⟨rfl, rfl, rfl, rfl, fun _ => rfl⟩
  · simp only [Option.some.injEq] at h; subst h
    exact Or.inr ⟨rfl, rfl, rfl, rfl, fun _ => rfl⟩
  · simp only [Option.some.injEq] at h; subst h
    exact Or.inl ⟨rfl, h1⟩
  · obtain ⟨a1, a2, a3, a4, -, a6⟩ := scheduleOnce_fields now st st2 c r h
    exact Or.inr ⟨a1, a2, a3, a4, a6⟩

theorem rehydrateOne_reminders (env : Env) (now : Int) (st st2 : State) (c : Int) (r : Reminder)
    (h : rehydrateOne env now st c r = some st2) (k : Int) :
    reminders st2 k = reminders st k := by
  rcases rehydrateOne_cases env now st st2 c r h with ⟨e, -⟩ | ⟨-, -, -, -, e⟩
  · subst e; rfl
  · exact e k

theorem rehydratePairs_reminders (env : Env) (now : Int) (ps : List (Int × Reminder))
    (st st2 : State) (h : rehydratePairs env now st ps = some st2) (k : Int) :
    reminders st2 k = reminders st k := by
  induction ps generalizing st with
  | nil =>
    simp only [rehydratePairs, Option.some.injEq] at h
    subst h; rfl
  | cons p ps ih =>
    obtain ⟨c, r⟩ := p
    simp only [rehydratePairs] at h
    split at h
    · exact absurd h (by simp)
    · rename_i s1 h1
      rw [ih s1 h, rehydrateOne_reminders env now st s1 c r h1]

theorem rehydratePairs_append (env : Env) (now : Int) (ps qs : List (Int × Reminder))
    (st : State) :
    rehydratePairs env now st (ps ++ qs) =
      (rehydratePairs env now st ps).bind (fun s => rehydratePairs env now s qs) := by
  induction ps generalizing st with
  | nil => rfl
  | cons p ps ih =>
    obtain ⟨c, r⟩ := p
    simp only [List.cons_append, rehydratePairs]
    split
    · rfl
    · rename_i s1 _
      exact ih s1

theorem rehydrateList_eq (env : Env) (now : Int) (c : Int) (rs : List Reminder) (st : State) :
    rehydrateList env now c st rs = rehydratePairs env now st (rs.map (fun r => (c, r))) := by
  induction rs generalizing st with
  | nil => rfl
  | cons r rs ih =>
    simp only [rehydrateList, List.map_cons, rehydratePairs]
    split
    · rfl
    · rename_i s1 _
      exact ih s1

theorem visited_congr (st st2 : State) (keys : List Int)
    (h : ∀ k, reminders st2 k = reminders st k) : visited st2 keys = visited st keys := by
  simp only [visited, h]

/-- The nested rehydration loops visit the pairs of `visited` in order. -/
theorem rehydrate_eq (env : Env) (now : Int) (keys : List Int) (st : State) :
    rehydrate env now st keys = rehydratePairs env now st (visited st keys) := by
  induction keys generalizing st with
  | nil => rfl
  | cons k ks ih =>
    have hv : visited st (k :: ks) = (reminders st k).map (fun r => (k, r)) ++ visited st ks := by
      simp [visited]
    rw [hv, rehydratePairs_append, ← rehydrateList_eq]
    simp only [rehydrate]
    cases h1 : rehydrateList env now k st (reminders st k) with
    | none => rfl
    | some s1 =>
      simp only [Option.some_bind]
      rw [ih s1, visited_congr st s1 ks]
      intro j
      rw [rehydrateList_eq] at h1
      exact rehydratePairs_reminders env now _ st s1 h1 j

theorem cronIDs_cons_sub (p : Int × Reminder) (ps : List (Int × Reminder)) (x : Int)
    (h : x ∈ cronIDs ps) : x ∈ cronIDs (p :: ps) := by
  unfold cronIDs at *
  rw [List.filter_cons]
  split
  · exact List.mem_cons_of_mem _ h
  · exact h

theorem cronIDs_nodup_tail (p : Int × Reminder) (ps : List (Int × Reminder))
    (h : (cronIDs (p :: ps)).Nodup) : (cronIDs ps).Nodup := by
  unfold cronIDs at *
  rw [List.filter_cons] at h
  split at h
  · exact (List.nodup_cons.1 h).2
  · exact h

theorem cronIDs_head_not_mem (c : Int) (r : Reminder) (ps : List (Int × Reminder))
    (hc : r.CronExpr ≠ []) (h : (cronIDs ((c, r) :: ps)).Nodup) : r.ID ∉ cronIDs ps := by
  unfold cronIDs at *
  rw [List.filter_cons] at h
  simp only [hc, ne_eq, not_false_eq_true, decide_True, if_true, List.map_cons] at h
  exact (List.nodup_cons.1 h).1

theorem cronIDs_head_mem (c : Int) (r : Reminder) (ps : List (Int × Reminder))
    (hc : r.CronExpr ≠ []) : r.ID ∈ cronIDs ((c, r) :: ps) := by
  unfold cronIDs
  rw [List.filter_cons]
  simp [hc]

/-- Rehydration keeps the job map well formed. -/
theorem rehydratePairs_inv (env : Env) (now : Int) (ps : List (Int × Reminder))
    (st st2 : State) (hinv : Rehy st) (hmem : ∀ p ∈ ps, p.2 ∈ reminders st p.1)
    (h : rehydratePairs env now st ps = some st2) : Rehy st2 := by
  induction ps generalizing st with
  | nil =>
    simp only [rehydratePairs, Option.some.injEq] at h
    subst h; exact hinv
  | cons p ps ih =>
    obtain ⟨c, r⟩ := p
    simp only [rehydratePairs] at h
    split at h
    · exact absurd h (by simp)
    · rename_i s1 h1
      have hrem := rehydrateOne_reminders env now st s1 c r h1
      refine ih s1 ?_ ?_ h
      · obtain ⟨i1, i2, i3, i4⟩ := hinv
        rcases rehydrateOne_cases env now st s1 c r h1 with ⟨e, hc⟩ | ⟨a1, a2, a3, a4, a5⟩
        · subst e
          refine ⟨i1, ?_, ?_, ?_⟩
          · intro k q hk
            simp only [startJob, setKey] at hk ⊢
            split_ifs at hk with hkr
            · simp only [Option.some.injEq] at hk
              omega
            · have := i2 k q hk
              omega
          · intro k k2 q hk hk2
            simp only [startJob, setKey] at hk hk2
            split_ifs at hk hk2 with e1 e2 e2
            · rw [e1, e2]
            · simp only [Option.some.injEq] at hk
              have := i2 k2 q hk2
              omega
            · simp only [Option.some.injEq] at hk2
              have := i2 k q hk
              omega
            · exact i3 k k2 q hk hk2
          · intro k q hk
            simp only [startJob, setKey] at hk
            split_ifs at hk with e1
            · exact ⟨c, r, hmem (c, r) (List.mem_cons_self _ _), e1.symm, hc⟩
            · exact i4 k q hk
        · refine ⟨by rw [a2]; exact i1, ?_, ?_, ?_⟩
          · intro k q hk
            rw [a1] at hk; rw [a4]
            exact i2 k q hk
          · intro k k2 q hk hk2
            rw [a1] at hk hk2
            exact i3 k k2 q hk hk2
          · intro k q hk
            rw [a1] at hk
            obtain ⟨chat, x, hx, e1, e2⟩ := i4 k q hk
            exact ⟨chat, x, by rw [a5]; exact hx, e1, e2⟩
      · intro p hp
        rw [hrem]
        exact hmem p (List.mem_cons_of_mem _ hp)

/-- With pairwise distinct ids among the recurring reminders, every job started
by rehydration stays registered under its id. -/
theorem rehydratePairs_tracked (env : Env) (now : Int) (ps : List (Int × Reminder))
    (st st2 : State) (hj : ∀ j ∈ st.jobs, st.cronQuitMap j.r.ID = some j.quit)
    (hnd : (cronIDs ps).Nodup) (hdis : ∀ j ∈ st.jobs, j.r.ID ∉ cronIDs ps)
    (h : rehydratePairs env now st ps = some st2) :
    ∀ j ∈ st2.jobs, st2.cronQuitMap j.r.ID = some j.quit := by
  induction ps generalizing st with
  | nil =>
    simp only [rehydratePairs, Option.some.injEq] at h
    subst h; exact hj
  | cons p ps ih =>
    obtain ⟨c, r⟩ := p
    simp only [rehydratePairs] at h
    split at h
    · exact absurd h (by simp)
    · rename_i s1 h1
      have hnd2 := cronIDs_nodup_tail _ _ hnd
      rcases rehydrateOne_cases env now st s1 c r h1 with ⟨e, hc⟩ | ⟨a1, a2, a3, a4, a5⟩
      · subst e
        refine ih _ ?_ hnd2 ?_ h
        · intro j hjm
          simp only [startJob, List.mem_append, List.mem_singleton] at hjm
          rcases hjm with hjm | hjm
          · have hne : j.r.ID ≠ r.ID := fun e =>
              hdis j hjm (e ▸ cronIDs_head_mem c r ps hc)
            simp only [startJob, setKey, hne, if_false]
            exact hj j hjm
          · subst hjm
            simp [startJob, setKey]
        · intro j hjm
          simp only [startJob, List.mem_append, List.mem_singleton] at hjm
          rcases hjm with hjm | hjm
          · exact fun hx => hdis j hjm (cronIDs_cons_sub _ _ _ hx)
          · subst hjm
            exact cronIDs_head_not_mem c r ps hc hnd
      · refine ih s1 ?_ hnd2 ?_ h
        · intro j hjm
          rw [a3] at hjm
          rw [a1]
          exact hj j hjm
        · intro j hjm
          rw [a3] at hjm
          exact fun hx => hdis j hjm (cronIDs_cons_sub _ _ _ hx)

theorem visited_mem (st : State) (keys : List Int) :
    ∀ p ∈ visited st keys, p.2 ∈ reminders st p.1 := by
  intro p hp
  simp only [visited, List.mem_flatMap, List.mem_map] at hp
  obtain ⟨k, -, r, hr, e⟩ := hp
  subst e
  exact hr

theorem stopJob_timers (st st2 : State) (r : Reminder) (h : stopJob st r = some st2) :
    st2.timers = st.timers := by
  unfold stopJob closeQuit at h
  split at h
  · split at h
    · split at h
      · simp at h
      · simp at h; subst h; rfl
    · simp at h; subst h; rfl
  · simp at h; subst h; rfl

theorem deleteByIndex_timers (st st2 : State) (c idx : Int) (b : Bool)
    (h : deleteByIndex st c idx = some (b, st2)) : st2.timers = st.timers := by
  unfold deleteByIndex at h
  simp only at h
  split at h
  · simp only [Option.some.injEq, Prod.mk.injEq] at h
    rw [← h.2]
    rfl
  · split at h
    · exact absurd h (by simp)
    · rename_i r hr
      cases hs : stopJob (getUserData st c).2 r with
      | none => rw [hs] at h; exact absurd h (by simp)
      | some s1 =>
        rw [hs] at h
        simp only [Option.map_some', Option.some.injEq, Prod.mk.injEq] at h
        rw [← h.2, setReminders_timers, stopJob_timers _ _ _ hs]
        rfl

theorem cancelEach_timers (ops : List (Int × Int)) (st st2 : State)
    (h : cancelEach st ops = some st2) : st2.timers = st.timers := by
  induction ops generalizing st with
  | nil =>
    simp only [cancelEach, Option.some.injEq] at h
    subst h; rfl
  | cons op ops ih =>
    obtain ⟨c, idx⟩ := op
    simp only [cancelEach] at h
    split at h
    · exact absurd h (by simp)
    · rename_i b s1 h1
      rw [ih s1 h, deleteByIndex_timers st s1 c idx b h1]

theorem rehydrateOne_timers (env : Env) (now : Int) (st st2 : State) (c : Int) (r : Reminder)
    (h : rehydrateOne env now st c r = some st2) :
    st2.timers.map (fun t => (t.chatID, t.r)) =
      st.timers.map (fun t => (t.chatID, t.r)) ++ oneShots [(c, r)] := by
  unfold rehydrateOne at h
  split_ifs at h with h1 h2 h3
  · simp only [Option.some.injEq] at h; subst h
    simp [oneShots, h1]
  · simp only [Option.some.injEq] at h; subst h
    simp [oneShots, h1]
  · simp only [Option.some.injEq] at h; subst h
    simp [oneShots, h1, startJob]
  · have h1b : r.CronExpr = [] := by simpa using h1
    unfold scheduleOnce at h
    simp only at h
    split at h
    · exact absurd h (by simp)
    · simp only [Option.some.injEq] at h
      subst h
      simp [oneShots, h1b]

theorem rehydratePairs_timers (env : Env) (now : Int) (ps : List (Int × Reminder))
    (st st2 : State) (h : rehydratePairs env now st ps = some st2) :
    st2.timers.map (fun t => (t.chatID, t.r)) =
      st.timers.map (fun t => (t.chatID, t.r)) ++ oneShots ps := by
  induction ps generalizing st with
  | nil =>
    simp only [rehydratePairs, Option.some.injEq] at h
    subst h; simp [oneShots]
  | cons p ps ih =>
    obtain ⟨c, r⟩ := p
    simp only [rehydratePairs] at h
    split at h
    · exact absurd h (by simp)
    · rename_i s1 h1
      rw [ih s1 h, rehydrateOne_timers env now st s1 c r h1, List.append_assoc]
      congr 1
      simp only [oneShots, ← List.filter_append]
      rfl

/-- C6 (amended): start from a persisted snapshot, run the rehydration loop
(it returns when the one-shot reminders of the snapshot have the parts
`scheduleOnce` indexes), then any sequence of cancel-by-index calls.  The calls
never panic; once every chat's list is empty no cancellation handle is left in
the job map, and, when the recurring reminders of the snapshot carry pairwise
distinct ids, every recurring job started by rehydration has had its quit
channel closed.  Rehydration arms one timer for each one-shot reminder it
visits; the timers have no handle, and whatever is cancelled they all stay
armed. -/
theorem rehydrate_then_cancel (env : Env) (now : Int) (snap : Int → Option UserData)
    (keys : List Int) (st1 : State) (ops : List (Int × Int))
    (hre : rehydrate env now (loaded snap) keys = some st1) :
    ∃ st2, cancelEach st1 ops = some st2 ∧
      ((∀ c, reminders st2 c = []) →
        (∀ k, st2.cronQuitMap k = none) ∧
        ((cronIDs (visited (loaded snap) keys)).Nodup → ∀ j ∈ st1.jobs, j.quit ∈ st2.closed)) ∧
      st1.timers.map (fun t => (t.chatID, t.r)) = oneShots (visited (loaded snap) keys) ∧
      st2.timers = st1.timers := by
  rw [rehydrate_eq] at hre
  have h0 : Rehy (loaded snap) :=
    ⟨rfl, fun k q hk => by simp [loaded] at hk, fun k k2 q hk => by simp [loaded] at hk,
      fun k q hk => by simp [loaded] at hk⟩
  obtain ⟨r1, r2, r3, r4⟩ :=
    rehydratePairs_inv env now _ _ st1 h0 (visited_mem _ keys) hre
  have hwf : MapWF st1 := ⟨fun k q _ => by rw [r1]; exact List.not_mem_nil _, r3, r4⟩
  obtain ⟨st2, c1, ⟨-, -, c4⟩, c5, c6⟩ := cancelEach_inv ops st1 hwf
  have htm : st1.timers.map (fun t => (t.chatID, t.r)) = oneShots (visited (loaded snap) keys) := by
    rw [rehydratePairs_timers env now _ _ st1 hre]
    simp [loaded]
  refine ⟨st2, c1, fun hempty => ?_, htm, cancelEach_timers ops st1 st2 c1⟩
  have hmap : ∀ k, st2.cronQuitMap k = none := by
    intro k
    cases hk : st2.cronQuitMap k with
    | none => rfl
    | some q =>
      obtain ⟨chat, r, hr, -, -⟩ := c4 k q hk
      rw [hempty chat] at hr
      exact absurd hr (List.not_mem_nil _)
  refine ⟨hmap, fun hnd j hj => ?_⟩
  have ht := rehydratePairs_tracked env now _ (loaded snap) st1
    (fun j hj => by simp [loaded] at hj) hnd (fun j hj => by simp [loaded] at hj) hre
  have htr : JobsTracked st1 := fun j hj => Or.inr (ht j hj)
  rcases c5 htr j (by rw [c6]; exact hj) with e | e
  · exact e
  · rw [hmap] at e
    exact absurd e (by simp)

set_option maxRecDepth 100000 in
theorem rehydrate_then_cancel_witness :
    (∃ st1, rehydrate envAll 0 (loaded mixedSnap) [7] = some st1 ∧
      ∃ st2, cancelEach st1 [(7, 1), (7, 1)] = some st2 ∧
        ((∀ c, reminders st2 c = []) →
          (∀ k, st2.cronQuitMap k = none) ∧
          ((cronIDs (visited (loaded mixedSnap) [7])).Nodup →
            ∀ j ∈ st1.jobs, j.quit ∈ st2.closed)) ∧
        st1.timers.map (fun t => (t.chatID, t.r)) = oneShots (visited (loaded mixedSnap) [7]) ∧
        st2.timers = st1.timers) ∧
    ((rehydrate envAll 0 (loaded mixedSnap) [7]).bind
        (fun s => cancelEach s [(7, 1), (7, 1)])).map
        (fun s => (reminders s 7, s.cronQuitMap 6, s.jobs.map (fun j => j.quit), s.closed,
          s.timers.map (fun t => t.r))) =
      some ([], none, [0], [0], [oneShot5]) := by
  have h : (rehydrate envAll 0 (loaded mixedSnap) [7]).isSome = true := by decide
  obtain ⟨st1, h1⟩ := Option.isSome_iff_exists.1 h
  exact ⟨⟨st1, h1, rehydrate_then_cancel envAll 0 mixedSnap [7] st1 [(7, 1), (7, 1)] h1⟩,
    by decide⟩

set_option maxRecDepth 100000 in
/-- C6 as stated fails.  Rehydrating a snapshot with one one-shot reminder and
then cancelling it leaves the store empty and the job map empty, but the timer
rehydration armed is still armed and no signal was triggered.  Rehydrating a
snapshot with two recurring reminders of the same id starts two jobs and
registers only the channel of the second; cancelling both reminders empties
the store and the job map and closes that channel, and the first job has
never had its signal triggered. -/
theorem rehydrate_then_cancel_counterexample :
    ((rehydrate envAll 0 (loaded oneShotSnap) [7]).bind
        (fun s => cancelEach s [(7, 1)])).map
        (fun s => (reminders s 7, s.timers.map (fun t => t.r), s.closed)) =
      some ([], [oneShot5], []) ∧
    ((rehydrate envAll 0 (loaded twinCronSnap) [7]).bind
        (fun s => cancelEach s [(7, 1), (7, 1)])).map
        (fun s => (reminders s 7, s.cronQuitMap 6, s.jobs.map (fun j => j.quit), s.closed)) =
      some ([], none, [0, 1], [1]) := by
  decide

/-! ## Sessions under the primitive state changes -/

@[simp]
theorem sessionOf_getUserData (st : State) (c k : Int) :
    sessionOf (getUserData st c).2 k = sessionOf st k := rfl

@[simp]
theorem sessionOf_getSession (st : State) (c k : Int) :
    sessionOf (getSession st c).2 k = sessionOf st k := by
  unfold getSession sessionOf
  by_cases h : k = c
  · subst h
    cases st.sessions k <;> simp [setKey]
  · simp [setKey, h]

@[simp]
theorem reminders_getSession (st : State) (c k : Int) :
    reminders (getSession st c).2 k = reminders st k := rfl

@[simp]
theorem sessionOf_setSession (st : State) (c k : Int) (s : Session) :
    sessionOf (setSession st c s) k = if k = c then s else sessionOf st k := by
  unfold setSession sessionOf
  by_cases h : k = c <;> simp [setKey, h]

@[simp]
theorem reminders_setSession (st : State) (c k : Int) (s : Session) :
    reminders (setSession st c s) k = reminders st k := rfl

@[simp]
theorem reminders_setStage (st : State) (c k : Int) (g : Stage) :
    reminders (setStage st c g) k = reminders st k := rfl

@[simp]
theorem sessionOf_send (st : State) (c k : Int) (key : MsgKey) :
    sessionOf (send st c key) k = sessionOf st k := rfl

@[simp]
theorem sessionOf_sendText (st : State) (c k : Int) (key : MsgKey) :
    sessionOf (sendText st c key) k = sessionOf st k := rfl

@[simp]
theorem sessionOf_setReminders (st : State) (c k : Int) (l : List Reminder) :
    sessionOf (setReminders st c l) k = sessionOf st k := by
  unfold sessionOf
  rw [setReminders_sessions]

theorem ne_cancel_start : ¬ ("cancel".toList = "start".toList) := by decide

theorem ne_cron_start : ¬ ("cron".toList = "start".toList) := by decide

theorem ne_cron_cancel : ¬ ("cron".toList = "cancel".toList) := by decide

theorem ne_cron_list : ¬ ("cron".toList = "list".toList) := by decide

theorem ne_cron_time : ¬ ("cron".toList = "time".toList) := by decide

theorem ne_cron_language : ¬ ("cron".toList = "language".toList) := by decide

theorem ne_cron_lang : ¬ ("cron".toList = "lang".toList) := by decide

/-- C7 (amended): for every state and every `/cancel` command whose argument is
a bad index (not an integer, or outside 1..len of the chat's list), the handler
reports the invalid-index error, leaves every reminder list, the job map, the
closed channels, the timers, the jobs and the chat's accumulator as they were,
and sets the chat's session stage to Idle. -/
theorem cancel_bad_index (env : Env) (now : Int) (st : State) (msg : Message)
    (hcmd : msg.IsCommand = true) (hc : msg.Command = "cancel".toList)
    (hargs : msg.CommandArguments ≠ [])
    (hbad : (Atoi msg.CommandArguments).2 = false ∨ (Atoi msg.CommandArguments).1 < 1 ∨
      (Atoi msg.CommandArguments).1 > (reminders st msg.chatID).length) :
    ∃ st2, handleMessage env now st msg = some st2 ∧
      st2.sent = st.sent ++ [{ chatID := msg.chatID, key := MsgKey.invalid_index }] ∧
      (∀ k, reminders st2 k = reminders st k) ∧
      st2.cronQuitMap = st.cronQuitMap ∧ st2.closed = st.closed ∧
      st2.timers = st.timers ∧ st2.jobs = st.jobs ∧
      (sessionOf st2 msg.chatID).Temp = (sessionOf st msg.chatID).Temp ∧
      (sessionOf st2 msg.chatID).Stage = Stage.StageIdle ∧
      (∀ k, k ≠ msg.chatID → sessionOf st2 k = sessionOf st k) := by
  have hfin : ∀ s0 : State, (∀ k, reminders s0 k = reminders st k) →
      (∀ k, sessionOf s0 k = sessionOf st k) → s0.sent = st.sent →
      s0.cronQuitMap = st.cronQuitMap → s0.closed = st.closed → s0.timers = st.timers →
      s0.jobs = st.jobs →
      ∃ st2, some (setStage (sendText s0 msg.chatID MsgKey.invalid_index) msg.chatID
          Stage.StageIdle) = some st2 ∧
        st2.sent = st.sent ++ [{ chatID := msg.chatID, key := MsgKey.invalid_index }] ∧
        (∀ k, reminders st2 k = reminders st k) ∧
        st2.cronQuitMap = st.cronQuitMap ∧ st2.closed = st.closed ∧
        st2.timers = st.timers ∧ st2.jobs = st.jobs ∧
        (sessionOf st2 msg.chatID).Temp = (sessionOf st msg.chatID).Temp ∧
        (sessionOf st2 msg.chatID).Stage = Stage.StageIdle ∧
        (∀ k, k ≠ msg.chatID → sessionOf st2 k = sessionOf st k) := by
    intro s0 h1 h2 h3 h4 h5 h6 h7
    refine ⟨_, rfl, ?_, ?_, ?_, ?_, ?_, ?_, ?_, ?_, ?_⟩
    · simp [setStage, setSession, sendText, send, getUserData, h3]
    · intro k; simp [h1]
    · simpa [setStage, setSession, sendText, send] using h4
    · simpa [setStage, setSession, sendText, send] using h5
    · simpa [setStage, setSession, sendText, send] using h6
    · simpa [setStage, setSession, sendText, send] using h7
    · simp [setStage, h2]
    · simp [setStage]
    · intro k hk; simp [setStage, hk, h2]
  unfold handleMessage
  simp only [hcmd, hc, ne_cancel_start, and_false, if_false, true_and, if_true, cmdCancel,
    hargs, ne_eq, not_false_eq_true]
  by_cases hok : (Atoi msg.CommandArguments).2 = false
  · simp only [hok, if_true]
    exact hfin _ (by intro k; simp) (by intro k; simp) rfl rfl rfl rfl rfl
  · have hidx : (Atoi msg.CommandArguments).1 < 1 ∨
        (Atoi msg.CommandArguments).1 > (reminders st msg.chatID).length := by
      rcases hbad with h | h
      · exact absurd h hok
      · exact h
    have hdel : deleteByIndex (getSession (getUserData st msg.chatID).2 msg.chatID).2 msg.chatID
        (Atoi msg.CommandArguments).1 =
        some (false, (getUserData (getSession (getUserData st msg.chatID).2 msg.chatID).2
          msg.chatID).2) := by
      unfold deleteByIndex
      simp only [getUserData_reminders, reminders_getSession, reminders_getUserData, hidx,
        if_true]
    simp only [hok, if_false, hdel]
    exact hfin _ (by intro k; simp [reminders_getUserData]) (by intro k; simp) rfl rfl rfl rfl rfl

theorem cancel_bad_index_witness :
    ∃ st2, handleMessage envAll 0 threeChat cancelNinthMsg = some st2 ∧
      st2.sent = [{ chatID := 7, key := MsgKey.invalid_index }] ∧
      reminders st2 7 = reminders threeChat 7 ∧
      (sessionOf st2 7).Stage = Stage.StageIdle := by
  obtain ⟨st2, h1, h2, h3, -, -, -, -, -, h4, -⟩ :=
    cancel_bad_index envAll 0 threeChat cancelNinthMsg rfl rfl (by decide)
      (Or.inr (Or.inr (by decide)))
  exact ⟨st2, h1, h2, h3 7, h4⟩

set_option maxRecDepth 100000 in
/-- C7 as stated fails: after `/start` the session is in stage Name; `/cancel abc`
reports the invalid index and leaves the session in stage Idle. -/
theorem cancel_bad_index_counterexample :
    (run envAll {} [Event.message 0 startMsg]).map (fun s => (sessionOf s 7).Stage) =
      some Stage.StageName ∧
    (run envAll {} [Event.message 0 startMsg, Event.message 0 cancelAbcMsg]).map
        (fun s => ((sessionOf s 7).Stage, s.sent.map (fun o => o.key))) =
      some (Stage.StageIdle, [MsgKey.prompt_name, MsgKey.invalid_index]) := by
  decide

/-! ## Finalizing the wizard -/

/-- C8: for a session whose accumulator t has the date and time parts
`scheduleOnce` indexes (as every accumulator the wizard finalizes has) and a
chat with list L, `finalizeReminder` returns; the chat's list is then t with
its new identifier (all other fields kept) followed by L, and the session is
in stage Idle with an empty accumulator. -/
theorem finalizeReminder_prepends (now : Int) (st : State) (chatID : Int)
    (hp : hasParts (sessionOf st chatID).Temp = true) :
    ∃ st2, finalizeReminder now st chatID = some st2 ∧
      reminders st2 chatID =
        { (sessionOf st chatID).Temp with ID := Int.tmod now 1000000 } :: reminders st chatID ∧
      sessionOf st2 chatID = { Stage := Stage.StageIdle, Temp := {} } := by
  have hs := getUserData_store_self st chatID
  unfold finalizeReminder
  simp only [sessionOf_getUserData, getUserData_reminders]
  generalize htemp : ({ (sessionOf st chatID).Temp with ID := Int.tmod now 1000000 } : Reminder)
    = temp
  have hp2 : hasParts temp = true := by rw [← htemp]; exact hp
  generalize hs1 : setReminders (setSession (getUserData st chatID).2 chatID
    { Stage := (sessionOf st chatID).Stage, Temp := temp }) chatID
    (temp :: reminders st chatID) = s1
  have hrem1 : reminders s1 chatID = temp :: reminders st chatID := by
    rw [← hs1, reminders_setReminders]
    simp [setSession, hs]
  obtain ⟨n, hn⟩ := notifyUTC_of_hasParts (getUserData s1 chatID).1.UTC temp hp2
  simp only [scheduleOnce, hn]
  refine ⟨_, rfl, ?_, ?_⟩
  · simp only [reminders_setSession, reminders_sendText]
    show reminders (getUserData s1 chatID).2 chatID = _
    rw [reminders_getUserData, hrem1]
  · simp

theorem finalizeReminder_prepends_witness :
    ∃ st2, finalizeReminder 1000005
        (setSession threeChat 7 { Stage := Stage.StageAskInfo, Temp := oneShot5 }) 7 = some st2 ∧
      reminders st2 7 = oneShot5 :: reminders threeChat 7 ∧
      sessionOf st2 7 = { Stage := Stage.StageIdle, Temp := {} } :=
  finalizeReminder_prepends 1000005
    (setSession threeChat 7 { Stage := Stage.StageAskInfo, Temp := oneShot5 }) 7 (by decide)

/-! ## The recurring-reminder command -/

/-- C9: for every state and every `/cron` command whose arguments have fewer
than seven fields, or whose timezone fails to load, or whose five-field
expression fails to parse, the handler returns after exactly one error
request to the transport and changes nothing else: every reminder list, the
job map, the jobs, the timers, the channels and every session (stage and
accumulator) are as before. -/
theorem cron_invalid (env : Env) (now : Int) (st : State) (msg : Message)
    (hcmd : msg.IsCommand = true) (hc : msg.Command = "cron".toList)
    (hbad : (Fields msg.CommandArguments).length < 7 ∨
      (∃ tz, (Fields msg.CommandArguments)[5]? = some tz ∧ env.loadLocation tz = false) ∨
      env.cronParse (Join [' '] ((Fields msg.CommandArguments).take 5)) = false) :
    ∃ st2 key, handleMessage env now st msg = some st2 ∧
      (key = MsgKey.cron_usage ∨ key = MsgKey.err_invalid_tz ∨ key = MsgKey.err_cron_parse) ∧
      st2.sent = st.sent ++ [{ chatID := msg.chatID, key := key }] ∧
      (∀ k, reminders st2 k = reminders st k) ∧
      st2.cronQuitMap = st.cronQuitMap ∧ st2.jobs = st.jobs ∧ st2.timers = st.timers ∧
      st2.closed = st.closed ∧ st2.chans = st.chans ∧
      (∀ k, sessionOf st2 k = sessionOf st k) := by
  have hfin : ∀ key, ∀ s2, (s2 = sendText (getSession (getUserData st msg.chatID).2
        msg.chatID).2 msg.chatID key ∨ s2 = send (getSession (getUserData st msg.chatID).2
        msg.chatID).2 msg.chatID key) →
      s2.sent = st.sent ++ [{ chatID := msg.chatID, key := key }] ∧
      (∀ k, reminders s2 k = reminders st k) ∧
      s2.cronQuitMap = st.cronQuitMap ∧ s2.jobs = st.jobs ∧ s2.timers = st.timers ∧
      s2.closed = st.closed ∧ s2.chans = st.chans ∧
      (∀ k, sessionOf s2 k = sessionOf st k) := by
    intro key s2 h
    rcases h with h | h <;> subst h
    · exact ⟨rfl, fun k => by simp, rfl, rfl, rfl, rfl, rfl, fun k => by simp⟩
    · exact ⟨rfl, fun k => by simp, rfl, rfl, rfl, rfl, rfl, fun k => by simp⟩
  unfold handleMessage
  simp only [hcmd, hc, ne_cron_start, ne_cron_cancel, ne_cron_list, ne_cron_time,
    ne_cron_language, ne_cron_lang, and_false, or_self, if_false, true_and, if_true, cmdCron]
  by_cases hlen : (Fields msg.CommandArguments).length < 7
  · simp only [hlen, if_true]
    exact ⟨_, MsgKey.cron_usage, rfl, Or.inl rfl, hfin _ _ (Or.inl rfl)⟩
  · simp only [hlen, if_false]
    have h5 : 5 < (Fields msg.CommandArguments).length := by omega
    rw [List.getElem?_eq_getElem h5]
    simp only
    by_cases htz : env.loadLocation (Fields msg.CommandArguments)[5] = true
    · have hparse : env.cronParse (Join [' '] ((Fields msg.CommandArguments).take 5)) = false := by
        rcases hbad with h | ⟨tz, h1, h2⟩ | h
        · exact absurd h hlen
        · rw [List.getElem?_eq_getElem h5] at h1
          simp only [Option.some.injEq] at h1
          rw [h1, h2] at htz
          exact absurd htz (by simp)
        · exact h
      simp only [htz, hparse, Bool.not_true, Bool.false_eq_true, if_false, Bool.not_false,
        if_true]
      exact ⟨_, MsgKey.err_cron_parse, rfl, Or.inr (Or.inr rfl), hfin _ _ (Or.inr rfl)⟩
    · simp only [Bool.not_eq_true] at htz
      simp only [htz, Bool.not_false, if_true]
      exact ⟨_, MsgKey.err_invalid_tz, rfl, Or.inr (Or.inl rfl), hfin _ _ (Or.inr rfl)⟩

theorem cron_invalid_witness :
    ∃ st2 key, handleMessage envNoTZ 0 threeChat cronMsg = some st2 ∧
      st2.sent = [{ chatID := 7, key := key }] ∧
      reminders st2 7 = reminders threeChat 7 ∧ st2.jobs = [] := by
  obtain ⟨st2, key, h1, -, h2, h3, -, h4, -⟩ :=
    cron_invalid envNoTZ 0 threeChat cronMsg rfl rfl (Or.inr (Or.inl ⟨"Asia/Shanghai".toList, by decide, rfl⟩))
  exact ⟨st2, key, h1, h2, h3 7, h4⟩

/-! ## The invariant of the reachable states -/

theorem Same.refl (st : State) : Same st st := ⟨fun _ => rfl, fun _ => rfl, rfl, rfl, rfl⟩

theorem Same.trans {a b c : State} (h1 : Same a b) (h2 : Same b c) : Same a c :=
  ⟨fun k => by rw [h2.rem, h1.rem], fun k => by rw [h2.sess, h1.sess],
    by rw [h2.map, h1.map], by rw [h2.closed, h1.closed], by rw [h2.chans, h1.chans]⟩

theorem chansOK_of_fields {st st2 : State} (h1 : st2.cronQuitMap = st.cronQuitMap)
    (h2 : st2.closed = st.closed) (h3 : st2.chans = st.chans) (h : ChansOK st) :
    ChansOK st2 := by
  unfold ChansOK at *
  rw [h1, h2, h3]
  exact h

theorem Same.inv {P : Reminder → Prop} {st st2 : State} (h : Same st st2) (hi : Inv P st) :
    Inv P st2 :=
  ⟨fun c r hr => hi.kind c r (by rw [← h.rem]; exact hr), fun c => by rw [h.sess]; exact hi.sess c,
    chansOK_of_fields h.map h.closed h.chans hi.chan⟩

theorem same_getUserData (st : State) (c : Int) : Same st (getUserData st c).2 :=
  ⟨fun k => by simp, fun k => by simp, rfl, rfl, rfl⟩

theorem same_getSession (st : State) (c : Int) : Same st (getSession st c).2 :=
  ⟨fun k => by simp, fun k => by simp, rfl, rfl, rfl⟩

theorem same_send (st : State) (c : Int) (key : MsgKey) : Same st (send st c key) :=
  ⟨fun k => by simp, fun k => by simp, rfl, rfl, rfl⟩

theorem same_sendText (st : State) (c : Int) (key : MsgKey) : Same st (sendText st c key) :=
  ⟨fun k => by simp, fun k => by simp, rfl, rfl, rfl⟩

@[simp]
theorem reminders_setLang (st : State) (c k : Int) (l : Str) :
    reminders (setLang st c l) k = reminders st k := by
  unfold setLang reminders
  by_cases h : k = c
  · subst h
    cases hs : st.store k <;> simp [setKey, hs]
  · cases hs : st.store c <;> simp [setKey, h]

@[simp]
theorem reminders_setUTC (st : State) (c k : Int) (u : Int) :
    reminders (setUTC st c u) k = reminders st k := by
  unfold setUTC reminders
  by_cases h : k = c
  · subst h
    cases hs : st.store k <;> simp [setKey, hs]
  · cases hs : st.store c <;> simp [setKey, h]

@[simp]
theorem sessionOf_setLang (st : State) (c k : Int) (l : Str) :
    sessionOf (setLang st c l) k = sessionOf st k := by
  unfold setLang sessionOf
  cases st.store c <;> rfl

@[simp]
theorem sessionOf_setUTC (st : State) (c k : Int) (u : Int) :
    sessionOf (setUTC st c u) k = sessionOf st k := by
  unfold setUTC sessionOf
  cases st.store c <;> rfl

theorem stopJob_sessions (st st2 : State) (r : Reminder) (h : stopJob st r = some st2) :
    st2.sessions = st.sessions := by
  unfold stopJob closeQuit at h
  split at h
  · split at h
    · split at h
      · simp at h
      · simp at h; subst h; rfl
    · simp at h; subst h; rfl
  · simp at h; subst h; rfl

theorem stopJob_view (st st2 : State) (r : Reminder) (h : stopJob st r = some st2) :
    (∀ k, reminders st2 k = reminders st k) ∧ (∀ k, sessionOf st2 k = sessionOf st k) := by
  refine ⟨fun k => ?_, fun k => ?_⟩
  · unfold reminders; rw [stopJob_store st st2 r h]
  · unfold sessionOf; rw [stopJob_sessions st st2 r h]

theorem stopJob_chansOK (st st2 : State) (r : Reminder) (hc : ChansOK st)
    (h : stopJob st r = some st2) : ChansOK st2 := by
  obtain ⟨c1, c2, c3⟩ := hc
  rcases stopJob_cases st r (fun k q hk => (c1 k q hk).1) with ⟨q, -, hq, hstop⟩ | ⟨-, hstop⟩
  · rw [hstop] at h
    simp only [Option.some.injEq] at h
    subst h
    have hmap : ∀ k q2, setKey st.cronQuitMap r.ID none k = some q2 →
        k ≠ r.ID ∧ st.cronQuitMap k = some q2 := by
      intro k q2 hk
      simp only [setKey] at hk
      by_cases e : k = r.ID
      · simp [e] at hk
      · exact ⟨e, by simpa [e] using hk⟩
    refine ⟨fun k q2 hk => ?_, fun k k2 q2 hk hk2 => ?_, fun x hx => ?_⟩
    · obtain ⟨a1, a2⟩ := hmap k q2 hk
      refine ⟨?_, (c1 k q2 a2).2⟩
      simp only [List.mem_cons, not_or]
      exact ⟨fun e => a1 (c2 _ _ _ a2 (e ▸ hq)), (c1 k q2 a2).1⟩
    · exact c2 _ _ _ (hmap k q2 hk).2 (hmap k2 q2 hk2).2
    · rcases List.mem_cons.1 hx with e | e
      · rw [e]; exact (c1 _ _ hq).2
      · exact c3 x e
  · rw [hstop] at h
    simp only [Option.some.injEq] at h
    subst h
    exact ⟨c1, c2, c3⟩

theorem startJob_chansOK (st : State) (c : Int) (r : Reminder) (hc : ChansOK st) :
    ChansOK (startJob st c r) := by
  obtain ⟨c1, c2, c3⟩ := hc
  refine ⟨fun k q hk => ?_, fun k k2 q hk hk2 => ?_, fun x hx => ?_⟩
  · simp only [startJob, setKey] at hk ⊢
    split_ifs at hk with e
    · simp only [Option.some.injEq] at hk
      subst hk
      exact ⟨fun hm => absurd (c3 _ hm) (lt_irrefl _), Nat.lt_succ_self _⟩
    · exact ⟨(c1 k q hk).1, Nat.lt_succ_of_lt (c1 k q hk).2⟩
  · simp only [startJob, setKey] at hk hk2
    split_ifs at hk hk2 with e1 e2 e2
    · rw [e1, e2]
    · simp only [Option.some.injEq] at hk
      exact absurd (c1 k2 q hk2).2 (by omega)
    · simp only [Option.some.injEq] at hk2
      exact absurd (c1 k q hk).2 (by omega)
    · exact c2 k k2 q hk hk2
  · exact Nat.lt_succ_of_lt (c3 x hx)

/-- A deletion leaves the sessions alone and every list a sublist of what it was. -/
theorem deleteByIndex_sub (st st2 : State) (c idx : Int) (b : Bool) (hc : ChansOK st)
    (h : deleteByIndex st c idx = some (b, st2)) :
    (∀ k r, r ∈ reminders st2 k → r ∈ reminders st k) ∧
      (∀ k, sessionOf st2 k = sessionOf st k) ∧ ChansOK st2 := by
  unfold deleteByIndex at h
  simp only [getUserData_reminders] at h
  split_ifs at h with hv
  · simp only [Option.some.injEq, Prod.mk.injEq] at h
    obtain ⟨-, h⟩ := h
    subst h
    exact ⟨fun k r hr => by simpa using hr, fun k => by simp, hc⟩
  · split at h
    · exact absurd h (by simp)
    · rename_i r hr
      cases hs : stopJob (getUserData st c).2 r with
      | none => rw [hs] at h; exact absurd h (by simp)
      | some s1 =>
        rw [hs] at h
        simp only [Option.map_some', Option.some.injEq, Prod.mk.injEq] at h
        obtain ⟨-, h⟩ := h
        subst h
        obtain ⟨v1, v2⟩ := stopJob_view _ _ _ hs
        have hc1 : ChansOK s1 :=
          stopJob_chansOK (getUserData st c).2 _ _ hc hs
        refine ⟨fun k x hx => ?_, fun k => by simp [v2],
          chansOK_of_fields (by simp) (by simp) (by simp) hc1⟩
        by_cases hk : k = c
        · subst hk
          rw [reminders_setReminders] at hx
          · exact List.mem_of_mem_eraseIdx hx
          · rw [stopJob_store _ _ _ hs, getUserData_store_self]; simp
        · rw [reminders_setReminders_other _ _ _ _ hk, v1, reminders_getUserData] at hx
          exact hx

theorem deleteReminder_sub (st st2 : State) (c rid : Int) (hc : ChansOK st)
    (h : deleteReminder st c rid false = some st2) :
    (∀ k r, r ∈ reminders st2 k → r ∈ reminders st k) ∧
      (∀ k, sessionOf st2 k = sessionOf st k) ∧ ChansOK st2 := by
  unfold deleteReminder at h
  simp only [getUserData_reminders, Bool.false_eq_true, if_false] at h
  split at h
  · simp only [Option.some.injEq] at h
    subst h
    exact ⟨fun k r hr => by simpa using hr, fun k => by simp, hc⟩
  · rename_i r hr
    cases hs : stopJob (getUserData st c).2 r with
    | none => rw [hs] at h; exact absurd h (by simp)
    | some s1 =>
      rw [hs] at h
      simp only [Option.map_some', Option.some.injEq] at h
      subst h
      obtain ⟨v1, v2⟩ := stopJob_view _ _ _ hs
      have hc1 : ChansOK s1 :=
          stopJob_chansOK (getUserData st c).2 _ _ hc hs
      refine ⟨fun k x hx => ?_, fun k => by simp [v2],
        chansOK_of_fields (by simp) (by simp) (by simp) hc1⟩
      by_cases hk : k = c
      · subst hk
        rw [reminders_setReminders] at hx
        · exact List.mem_of_mem_eraseP hx
        · rw [stopJob_store _ _ _ hs, getUserData_store_self]; simp
      · rw [reminders_setReminders_other _ _ _ _ hk, v1, reminders_getUserData] at hx
        exact hx

theorem inv_of_sub {P : Reminder → Prop} {st st2 : State}
    (h : (∀ k r, r ∈ reminders st2 k → r ∈ reminders st k) ∧
      (∀ k, sessionOf st2 k = sessionOf st k) ∧ ChansOK st2) (hi : Inv P st) : Inv P st2 :=
  ⟨fun c r hr => hi.kind c r (h.1 c r hr), fun c => by rw [h.2.1]; exact hi.sess c, h.2.2⟩

theorem sessionOf_congr (a b : State) (h : a.sessions = b.sessions) (k : Int) :
    sessionOf a k = sessionOf b k := by
  unfold sessionOf; rw [h]

theorem finalizeReminder_result (now : Int) (st st2 : State) (c : Int)
    (h : finalizeReminder now st c = some st2) :
    (∀ k, reminders st2 k =
      if k = c then { (sessionOf st c).Temp with ID := Int.tmod now 1000000 } :: reminders st c
      else reminders st k) ∧
    (∀ k, sessionOf st2 k = if k = c then { Stage := Stage.StageIdle, Temp := {} }
      else sessionOf st k) ∧
    st2.cronQuitMap = st.cronQuitMap ∧ st2.closed = st.closed ∧ st2.chans = st.chans := by
  have hs := getUserData_store_self st c
  unfold finalizeReminder at h
  simp only [sessionOf_getUserData, getUserData_reminders] at h
  split at h
  · exact absurd h (by simp)
  · rename_i s1 hs1
    simp only [Option.some.injEq] at h
    subst h
    obtain ⟨a1, a2, -, a4, a5, a6⟩ := scheduleOnce_fields _ _ _ _ _ hs1
    refine ⟨fun k => ?_, fun k => ?_, ?_, ?_, ?_⟩
    · simp only [reminders_setSession, reminders_sendText, a6]
      by_cases hk : k = c
      · subst hk
        rw [if_pos rfl, reminders_setReminders]
        simp [setSession, hs]
      · rw [if_neg hk, reminders_setReminders_other _ _ _ _ hk]
        simp
    · simp only [sessionOf_setSession]
      split_ifs with hk
      · rfl
      · rw [sessionOf_sendText, sessionOf_congr _ _ a5 k]
        simp [hk]
    · show s1.cronQuitMap = _
      rw [a1]; simp [setSession]
    · show s1.closed = _
      rw [a2]; simp [setSession]
    · show s1.chans = _
      rw [a4]; simp [setSession]

theorem natStrAux_ne_nil2 (n : Nat) : natStr n ≠ [] := natStrAux_ne_nil n n

theorem fmtInt_ne_nil (w : Nat) (n : Int) : fmtInt w n ≠ [] := by
  unfold fmtInt
  simp only
  split
  · simp
  · simp [natStrAux_ne_nil2]

theorem fmtDate_ne_nil (d m y : Int) : fmtDate d m y ≠ [] := by
  simp [fmtDate, fmtInt_ne_nil]

theorem fmtTime_ne_nil (h mi : Int) (ap : Str) : fmtTime h mi ap ≠ [] := by
  simp [fmtTime, fmtInt_ne_nil]

theorem fieldsGo_ne_nil (s cur : Str) : ∀ f ∈ fieldsGo cur s, f ≠ [] := by
  induction s generalizing cur with
  | nil =>
    intro f hf
    unfold fieldsGo at hf
    split_ifs at hf with h
    · exact absurd hf (List.not_mem_nil _)
    · simp only [List.mem_singleton] at hf
      subst hf; exact h
  | cons c cs ih =>
    intro f hf
    unfold fieldsGo at hf
    split_ifs at hf with h1 h2
    · exact ih [] f hf
    · rcases List.mem_cons.1 hf with e | e
      · subst e; exact h2
      · exact ih [] f e
    · exact ih _ f hf

theorem Fields_ne_nil (s : Str) : ∀ f ∈ Fields s, f ≠ [] := fieldsGo_ne_nil s []

theorem Join_ne_nil (sep a : Str) (rest : List Str) (h : a ≠ []) : Join sep (a :: rest) ≠ [] := by
  cases rest with
  | nil => simpa [Join] using h
  | cons b t => simp [Join, h]

theorem oneKind_cron (now : Int) (args : Str) (tz : Str)
    (hlen : ¬ (Fields args).length < 7) (htz : (Fields args)[5]? = some tz) :
    OneKind { ID := Int.tmod now 1000000, Name := Join [' '] ((Fields args).drop 6),
              CronOriginal := Join [' '] ((Fields args).take 5), TZ := tz,
              CronExpr := Join [' '] ((Fields args).take 5) } := by
  have hne := Fields_ne_nil args
  have htzm : tz ∈ Fields args := List.getElem?_mem htz
  rcases hf : Fields args with _ | ⟨a, t⟩
  · rw [hf] at hlen; simp at hlen
  · have ha : a ≠ [] := hne a (by rw [hf]; exact List.mem_cons_self _ _)
    have hj : Join [' '] ((a :: t).take 5) ≠ [] := by
      simpa using Join_ne_nil [' '] a (t.take 4) ha
    exact Or.inr ⟨hj, hj, hne tz htzm, rfl, rfl⟩

theorem inv_setSession {P : Reminder → Prop} (st : State) (c : Int) (s : Session)
    (hi : Inv P st) (hs : SessOK s) : Inv P (setSession st c s) := by
  refine ⟨fun k r hr => hi.kind k r (by simpa using hr), fun k => ?_, hi.chan⟩
  rw [sessionOf_setSession]
  split_ifs
  · exact hs
  · exact hi.sess k

theorem sessOK_stage (s : Session) (g : Stage) (hs : SessOK s)
    (hg : g ≠ Stage.StageTime ∧ g ≠ Stage.StageAskInfo ∧
      (g = Stage.StageOptInfo → s.Stage = Stage.StageAskInfo)) :
    SessOK { s with Stage := g } := by
  obtain ⟨h1, h2, -, h4⟩ := hs
  refine ⟨h1, h2, fun e => absurd e hg.1, fun e => ?_⟩
  rcases e with e | e
  · exact absurd e hg.2.1
  · exact h4 (Or.inl (hg.2.2 e))

theorem inv_setStage {P : Reminder → Prop} (st : State) (c : Int) (g : Stage) (hi : Inv P st)
    (hg : g ≠ Stage.StageTime ∧ g ≠ Stage.StageAskInfo ∧
      (g = Stage.StageOptInfo → (sessionOf st c).Stage = Stage.StageAskInfo)) :
    Inv P (setStage st c g) :=
  inv_setSession st c _ hi (sessOK_stage _ g (hi.sess c) hg)

theorem finalizeReminder_inv {P : Reminder → Prop} (hP : ∀ r, OneKind r → P r) (now : Int)
    (st st2 : State) (c : Int) (hi : Inv P st)
    (hstage : (sessionOf st c).Stage = Stage.StageAskInfo ∨
      (sessionOf st c).Stage = Stage.StageOptInfo)
    (h : finalizeReminder now st c = some st2) : Inv P st2 := by
  obtain ⟨h1, h2, f1, f2, f3⟩ := finalizeReminder_result now st st2 c h
  obtain ⟨s1, s2, -, s4⟩ := hi.sess c
  obtain ⟨⟨d, m, y, hd⟩, ⟨hh, mi, ap, ht⟩⟩ := s4 hstage
  refine ⟨fun k r hr => ?_, fun k => ?_, chansOK_of_fields f1 f2 f3 hi.chan⟩
  · rw [h1] at hr
    split_ifs at hr with hk
    · rcases List.mem_cons.1 hr with e | e
      · subst e
        refine hP _ (Or.inl ⟨?_, ?_, s1.1, s1.2, s2⟩)
        · show (sessionOf st c).Temp.Date ≠ []
          rw [hd]; exact fmtDate_ne_nil d m y
        · show (sessionOf st c).Temp.Time ≠ []
          rw [ht]; exact fmtTime_ne_nil hh mi ap
      · exact hi.kind c r e
    · exact hi.kind k r hr
  · rw [h2]
    split_ifs
    · exact ⟨⟨rfl, rfl⟩, rfl, fun e => by simp at e, fun e => by simp at e⟩
    · exact hi.sess k

theorem sessionFlow_inv {P : Reminder → Prop} (hP : ∀ r, OneKind r → P r) (now : Int)
    (st st2 : State) (c : Int) (text : Str) (hi : Inv P st)
    (h : sessionFlow now st c text = some st2) : Inv P st2 := by
  obtain ⟨s1, s2, s3, s4⟩ := hi.sess c
  unfold sessionFlow at h
  split at h
  · simp only [Option.some.injEq] at h
    subst h
    refine (same_send _ c _).inv (inv_setSession st c _ hi ?_)
    exact ⟨s1, s2, fun e => by simp at e, fun e => by simp at e⟩
  · rename_i hst
    refine finalizeReminder_inv hP now _ st2 c (inv_setSession st c _ hi ?_) ?_ h
    · exact ⟨s1, s2, fun e => by simp [hst] at e, fun _ => s4 (Or.inr hst)⟩
    · right
      simp [hst]
  · rename_i hst
    simp only at h
    split_ifs at h <;>
      first
      | exact finalizeReminder_inv hP now st st2 c hi (Or.inl hst) h
      | (simp only [Option.some.injEq] at h
         subst h
         exact (same_sendText _ c _).inv
           (inv_setStage st c _ hi ⟨by decide, by decide, fun _ => hst⟩))
  · simp only [Option.some.injEq] at h
    subst h
    exact hi

theorem cmdCancel_inv {P : Reminder → Prop} (st st2 : State) (c : Int) (args : Str)
    (hi : Inv P st) (h : cmdCancel st c args = some st2) : Inv P st2 := by
  have hidle : ∀ s : State, Inv P s → ∀ key,
      Inv P (setStage (sendText s c key) c Stage.StageIdle) := fun s hs key =>
    inv_setStage _ c _ ((same_sendText s c key).inv hs)
      ⟨by decide, by decide, fun e => absurd e (by decide)⟩
  unfold cmdCancel at h
  split_ifs at h with h1 h2 h3
  · simp only [Option.some.injEq] at h
    subst h
    exact hidle st hi _
  · cases hd : deleteByIndex st c (Atoi args).1 with
    | none => rw [hd] at h; exact absurd h (by simp)
    | some p =>
      obtain ⟨b, s1⟩ := p
      have hs1 : Inv P s1 := inv_of_sub (deleteByIndex_sub st s1 c _ b hi.chan hd) hi
      rw [hd] at h
      cases b <;>
      · simp only [Option.some.injEq] at h
        subst h
        exact hidle s1 hs1 _
  · simp only [Option.some.injEq] at h
    subst h
    exact (same_sendText st c _).inv hi
  · simp only [Option.some.injEq] at h
    subst h
    exact (same_send st c _).inv hi

theorem cmdCron_inv {P : Reminder → Prop} (hP : ∀ r, OneKind r → P r) (env : Env) (now : Int)
    (st st2 : State) (c : Int) (args : Str)
    (hi : Inv P st) (hstore : st.store c ≠ none) (h : cmdCron env now st c args = some st2) :
    Inv P st2 := by
  unfold cmdCron at h
  simp only at h
  by_cases hlen : (Fields args).length < 7
  · rw [if_pos hlen] at h
    simp only [Option.some.injEq] at h
    subst h
    exact (same_sendText st c _).inv hi
  · rw [if_neg hlen] at h
    cases htz : (Fields args)[5]? with
    | none => rw [htz] at h; exact absurd h (by simp)
    | some tz =>
      rw [htz] at h
      simp only at h
      by_cases h1 : (!env.loadLocation tz) = true
      · rw [if_pos h1] at h
        simp only [Option.some.injEq] at h
        subst h
        exact (same_send st c _).inv hi
      · rw [if_neg h1] at h
        by_cases h2 : (!env.cronParse (Join [' '] ((Fields args).take 5))) = true
        · rw [if_pos h2] at h
          simp only [Option.some.injEq] at h
          subst h
          exact (same_send st c _).inv hi
        · rw [if_neg h2] at h
          simp only [Option.some.injEq] at h
          subst h
          refine (same_sendText _ c _).inv ?_
          refine ⟨fun k r hr => ?_, fun k => by simpa [startJob, sessionOf] using hi.sess k,
            startJob_chansOK _ _ _ (chansOK_of_fields (by simp) (by simp) (by simp) hi.chan)⟩
          have hr2 : r ∈ reminders (setReminders st c (reminders st c ++ _)) k := hr
          by_cases hk : k = c
          · subst hk
            rw [reminders_setReminders _ _ _ hstore] at hr2
            rcases List.mem_append.1 hr2 with e | e
            · exact hi.kind k r e
            · simp only [List.mem_singleton] at e
              subst e
              exact hP _ (oneKind_cron now args tz hlen htz)
          · rw [reminders_setReminders_other _ _ _ _ hk] at hr2
            exact hi.kind k r hr2

theorem handleMessage_inv {P : Reminder → Prop} (hP : ∀ r, OneKind r → P r) (env : Env)
    (now : Int) (st st2 : State) (msg : Message)
    (hi : Inv P st) (h : handleMessage env now st msg = some st2) : Inv P st2 := by
  have h0 : Inv P (getSession (getUserData st msg.chatID).2 msg.chatID).2 :=
    (same_getSession _ _).inv ((same_getUserData st _).inv hi)
  have hstore : (getSession (getUserData st msg.chatID).2 msg.chatID).2.store msg.chatID ≠
      none := by
    show (getUserData st msg.chatID).2.store msg.chatID ≠ none
    rw [getUserData_store_self]; simp
  unfold handleMessage at h
  simp only at h
  split_ifs at h
  · simp only [Option.some.injEq] at h
    subst h
    exact (same_sendText _ _ _).inv
      (inv_setStage _ _ _ h0 ⟨by decide, by decide, fun e => absurd e (by decide)⟩)
  · exact cmdCancel_inv _ st2 _ _ h0 h
  · simp only [Option.some.injEq] at h
    subst h
    exact (same_sendText _ _ _).inv h0
  · simp only [Option.some.injEq] at h
    subst h
    exact (same_send _ _ _).inv h0
  · simp only [Option.some.injEq] at h
    subst h
    exact (same_send _ _ _).inv
      (inv_setStage _ _ _ h0 ⟨by decide, by decide, fun e => absurd e (by decide)⟩)
  · simp only [Option.some.injEq] at h
    subst h
    exact (same_send _ _ _).inv h0
  · exact cmdCron_inv hP env now _ st2 _ _ h0 hstore h
  · exact sessionFlow_inv hP now _ st2 _ _ h0 h

theorem ProcessCalendar_same (st st2 : State) (c : Int) (data : Str) (res : Bool × Int × Int × Int)
    (h : ProcessCalendar st c data = some (res, st2)) : Same st st2 := by
  unfold ProcessCalendar at h
  simp only [Option.bind_eq_bind, Option.pure_def] at h
  cases h0 : (Split ';' data)[0]? <;> rw [h0] at h
  · exact absurd h (by simp)
  cases h1 : (Split ';' data)[1]? <;> rw [h1] at h
  · exact absurd h (by simp)
  cases h2 : (Split ';' data)[2]? <;> rw [h2] at h
  · exact absurd h (by simp)
  cases h3 : (Split ';' data)[3]? <;> rw [h3] at h
  · exact absurd h (by simp)
  simp only [Option.some_bind] at h
  split_ifs at h <;>
  · simp only [Option.some.injEq, Prod.mk.injEq] at h
    obtain ⟨-, h⟩ := h
    subst h
    first
    | exact same_send _ _ _
    | exact Same.refl _

theorem ProcessClock_same (st st2 : State) (c : Int) (data : Str) (res : Bool × Int × Int × Str)
    (h : ProcessClock st c data = some (res, st2)) : Same st st2 := by
  unfold ProcessClock at h
  simp only [Option.bind_eq_bind, Option.pure_def] at h
  cases h0 : (Split ';' data)[0]? with
  | none => rw [h0] at h; exact absurd h (by simp)
  | some act =>
    rw [h0] at h
    simp only [Option.some_bind] at h
    by_cases hign : act = "ignore".toList
    · rw [if_pos hign] at h
      simp only [Option.some.injEq, Prod.mk.injEq] at h
      obtain ⟨-, h⟩ := h
      subst h
      exact same_send _ _ _
    · rw [if_neg hign] at h
      cases h1 : (Split ';' data)[1]? <;> rw [h1] at h
      · exact absurd h (by simp)
      cases h2 : (Split ';' data)[2]? <;> rw [h2] at h
      · exact absurd h (by simp)
      cases h3 : (Split ';' data)[3]? <;> rw [h3] at h
      · exact absurd h (by simp)
      simp only [Option.some_bind] at h
      split_ifs at h <;>
      · simp only [Option.some.injEq, Prod.mk.injEq] at h
        obtain ⟨-, h⟩ := h
        subst h
        exact same_send _ _ _

theorem ProcessUTC_same (st st2 : State) (c : Int) (data : Str) (res : Bool × Int)
    (h : ProcessUTC st c data = some (res, st2)) : Same st st2 := by
  unfold ProcessUTC at h
  simp only [Option.bind_eq_bind, Option.pure_def] at h
  cases h0 : (Split ';' data)[0]? <;> rw [h0] at h
  · exact absurd h (by simp)
  cases h1 : (Split ';' data)[1]? <;> rw [h1] at h
  · exact absurd h (by simp)
  simp only [Option.some_bind] at h
  split_ifs at h <;>
  · simp only [Option.some.injEq, Prod.mk.injEq] at h
    obtain ⟨-, h⟩ := h
    subst h
    exact same_send _ _ _

theorem same_setLang (st : State) (c : Int) (l : Str) : Same st (setLang st c l) := by
  refine ⟨fun k => by simp, fun k => by simp, ?_, ?_, ?_⟩
  all_goals (unfold setLang; cases st.store c <;> rfl)

theorem same_setUTC (st : State) (c : Int) (u : Int) : Same st (setUTC st c u) := by
  refine ⟨fun k => by simp, fun k => by simp, ?_, ?_, ?_⟩
  all_goals (unfold setUTC; cases st.store c <;> rfl)

theorem handleCallback_inv {P : Reminder → Prop} (hP : ∀ r, OneKind r → P r) (now : Int)
    (st st2 : State) (q : CallbackQuery)
    (hi : Inv P st) (h : handleCallback now st q = some st2) : Inv P st2 := by
  have h0 : Inv P (getSession (getUserData st q.chatID).2 q.chatID).2 :=
    (same_getSession _ _).inv ((same_getUserData st _).inv hi)
  unfold handleCallback at h
  simp only at h
  generalize (getSession (getUserData st q.chatID).2 q.chatID).2 = s0 at h h0
  by_cases c1 : startsWith q.Data "CANCELIDX;".toList = true
  · rw [if_pos c1] at h
    cases hp : (Split ';' q.Data)[1]? with
    | none => rw [hp] at h; exact absurd h (by simp)
    | some p =>
      rw [hp] at h
      simp only at h
      cases hd : deleteByIndex s0 q.chatID (Atoi p).1 with
      | none => rw [hd] at h; exact absurd h (by simp)
      | some r =>
        obtain ⟨b, s1⟩ := r
        have hs1 : Inv P s1 := inv_of_sub (deleteByIndex_sub s0 s1 q.chatID _ b h0.chan hd) h0
        rw [hd] at h
        cases b
        · simp only [Option.some.injEq] at h
          subst h
          exact (same_send _ _ _).inv ((same_sendText _ _ _).inv hs1)
        · simp only [Option.some.injEq] at h
          subst h
          exact (same_send _ _ _).inv ((same_sendText _ _ _).inv ((same_send _ _ _).inv hs1))
  rw [if_neg c1] at h
  by_cases c2 : startsWith q.Data "LANG;".toList = true
  · rw [if_pos c2] at h
    cases hp : (Split ';' q.Data)[1]? with
    | none => rw [hp] at h; exact absurd h (by simp)
    | some p =>
      rw [hp] at h
      simp only [Option.some.injEq] at h
      subst h
      refine (same_send _ _ _).inv ?_
      split_ifs
      · exact (same_sendText _ _ _).inv ((same_setLang _ _ _).inv h0)
      · exact (same_sendText _ _ _).inv ((same_setLang _ _ _).inv h0)
  rw [if_neg c2] at h
  obtain ⟨t1, t2, t3, t4⟩ := h0.sess q.chatID
  by_cases c3 : (sessionOf s0 q.chatID).Stage = Stage.StageDate
  · rw [if_pos c3] at h
    cases hp : ProcessCalendar s0 q.chatID q.Data with
    | none => rw [hp] at h; exact absurd h (by simp)
    | some r =>
      obtain ⟨⟨ok, y, m, d⟩, s1⟩ := r
      have hsame := ProcessCalendar_same _ _ _ _ _ hp
      have hs1 : Inv P s1 := hsame.inv h0
      rw [hp] at h
      simp only at h
      split_ifs at h
      · simp only [Option.some.injEq] at h
        subst h
        refine (same_sendText _ _ _).inv (inv_setSession _ _ _ hs1 ?_)
        rw [hsame.sess]
        exact ⟨t1, t2, fun _ => ⟨d, m, y, rfl⟩, fun e => by simp at e⟩
      · simp only [Option.some.injEq] at h
        subst h
        exact hs1
  rw [if_neg c3] at h
  by_cases c4 : (sessionOf s0 q.chatID).Stage = Stage.StageTime
  · rw [if_pos c4] at h
    cases hp : ProcessClock s0 q.chatID q.Data with
    | none => rw [hp] at h; exact absurd h (by simp)
    | some r =>
      obtain ⟨⟨ok, hh, mi, ap⟩, s1⟩ := r
      have hsame := ProcessClock_same _ _ _ _ _ hp
      have hs1 : Inv P s1 := hsame.inv h0
      rw [hp] at h
      simp only at h
      split_ifs at h
      · simp only [Option.some.injEq] at h
        subst h
        refine (same_send _ _ _).inv (inv_setSession _ _ _ hs1 ?_)
        rw [hsame.sess]
        exact ⟨t1, t2, fun e => by simp at e, fun _ => ⟨t3 c4, ⟨hh, mi, ap, rfl⟩⟩⟩
      · simp only [Option.some.injEq] at h
        subst h
        exact hs1
  rw [if_neg c4] at h
  by_cases c5 : (sessionOf s0 q.chatID).Stage = Stage.StageAskInfo ∧
      (q.Data = "askinfo_yes".toList ∨ q.Data = "askinfo_no".toList)
  · rw [if_pos c5] at h
    split_ifs at h
    · simp only [Option.some.injEq] at h
      subst h
      exact (same_send _ _ _).inv
        (inv_setStage _ _ _ h0 ⟨by decide, by decide, fun _ => c5.1⟩)
    · exact finalizeReminder_inv hP now _ st2 _ ((same_send _ _ _).inv h0) (Or.inl c5.1) h
  rw [if_neg c5] at h
  by_cases c6 : (sessionOf s0 q.chatID).Stage = Stage.StageUTC
  · rw [if_pos c6] at h
    cases hp : ProcessUTC s0 q.chatID q.Data with
    | none => rw [hp] at h; exact absurd h (by simp)
    | some r =>
      obtain ⟨⟨done, off⟩, s1⟩ := r
      have hs1 : Inv P s1 := (ProcessUTC_same _ _ _ _ _ hp).inv h0
      rw [hp] at h
      simp only at h
      split_ifs at h
      · simp only [Option.some.injEq] at h
        subst h
        exact inv_setStage _ _ _ ((same_send _ _ _).inv ((same_setUTC _ _ _).inv hs1))
          ⟨by decide, by decide, fun e => absurd e (by decide)⟩
      · simp only [Option.some.injEq] at h
        subst h
        exact hs1
  rw [if_neg c6] at h
  simp only [Option.some.injEq] at h
  subst h
  exact (same_send _ _ _).inv h0

theorem step_inv {P : Reminder → Prop} (hP : ∀ r, OneKind r → P r) (env : Env)
    (st st2 : State) (e : Event) (hi : Inv P st)
    (h : step env st e = some st2) : Inv P st2 := by
  cases e with
  | message now msg => exact handleMessage_inv hP env now st st2 msg hi h
  | callback now q => exact handleCallback_inv hP now st st2 q hi h
  | timer i =>
    simp only [step, fireTimer] at h
    split at h
    · exact absurd h (by simp)
    · rename_i t _
      have hpre : Inv P (sendText { st with timers := st.timers.eraseIdx i } t.chatID
          MsgKey.notify) :=
        (same_sendText _ _ _).inv
          (Same.inv (show Same st _ from ⟨fun _ => rfl, fun _ => rfl, rfl, rfl, rfl⟩) hi)
      exact inv_of_sub (deleteReminder_sub _ st2 _ _ hpre.chan h) hpre
  | tick i =>
    simp only [step, cronTick] at h
    split at h
    · exact absurd h (by simp)
    · simp only [Option.some.injEq] at h
      subst h
      exact (same_sendText _ _ _).inv hi
  | quit i =>
    simp only [step, cronQuit] at h
    split at h
    · exact absurd h (by simp)
    · split_ifs at h
      simp only [Option.some.injEq] at h
      subst h
      exact Same.inv (show Same st _ from ⟨fun _ => rfl, fun _ => rfl, rfl, rfl, rfl⟩) hi

theorem chansOK_empty : ChansOK {} :=
  ⟨fun k q hk => by simp at hk, fun k k2 q hk => by simp at hk, fun q hq => by simp at hq⟩

theorem sessOK_default : SessOK {} :=
  ⟨⟨rfl, rfl⟩, rfl, fun e => by simp at e, fun e => by simp at e⟩

theorem inv_empty : Inv OneKind {} :=
  ⟨fun c r hr => by simp [reminders] at hr, fun c => sessOK_default, chansOK_empty⟩

/-- The invariant holds along every run that starts in a state satisfying it. -/
theorem reachable_inv {P : Reminder → Prop} (hP : ∀ r, OneKind r → P r) (env : Env)
    (st0 st : State) (h0 : Inv P st0) (h : ReachableFrom env st0 st) : Inv P st := by
  induction h with
  | start => exact h0
  | next e _ hstep ih => exact step_inv hP env _ _ e ih hstep

/-- C10: in every state reachable from the empty store through the handlers, the
timer callbacks and the job loops, every reminder of every chat's list has
exactly one kind populated: date and time non-empty with empty expression
(both expression fields) and timezone, or expression and timezone non-empty
with empty date and time. -/
theorem reachable_one_kind (env : Env) (st : State) (h : ReachableFrom env {} st)
    (chatID : Int) (r : Reminder) (hr : r ∈ reminders st chatID) :
    (r.Date ≠ [] ∧ r.Time ≠ [] ∧ r.CronExpr = [] ∧ r.CronOriginal = [] ∧ r.TZ = []) ∨
    (r.CronExpr ≠ [] ∧ r.CronOriginal ≠ [] ∧ r.TZ ≠ [] ∧ r.Date = [] ∧ r.Time = []) :=
  (reachable_inv (fun _ hr => hr) env {} st inv_empty h).kind chatID r hr

theorem reachable_of_run (env : Env) (es : List Event) (st0 st st2 : State)
    (h0 : ReachableFrom env st0 st) (h : run env st es = some st2) :
    ReachableFrom env st0 st2 := by
  induction es generalizing st with
  | nil =>
    simp only [run, Option.some.injEq] at h
    subst h; exact h0
  | cons e es ih =>
    simp only [run] at h
    split at h
    · exact absurd h (by simp)
    · rename_i s1 h1
      exact ih s1 (ReachableFrom.next e h0 h1) h


set_option maxRecDepth 100000 in
theorem reachable_one_kind_witness :
    (run envAll {} mixedRun).map (fun s => (reminders s 7).map (fun r => r.Name)) =
      some [['a'], "report".toList] ∧
    ∃ st, run envAll {} mixedRun = some st ∧
      ∀ r ∈ reminders st 7,
        (r.Date ≠ [] ∧ r.Time ≠ [] ∧ r.CronExpr = [] ∧ r.CronOriginal = [] ∧ r.TZ = []) ∨
        (r.CronExpr ≠ [] ∧ r.CronOriginal ≠ [] ∧ r.TZ ≠ [] ∧ r.Date = [] ∧ r.Time = []) := by
  constructor
  · decide
  have h : (run envAll ({} : State) mixedRun).isSome = true := by decide
  obtain ⟨st, hst⟩ := Option.isSome_iff_exists.1 h
  exact ⟨st, hst, fun r hr =>
    reachable_one_kind envAll st (reachable_of_run envAll _ _ _ _ ReachableFrom.start hst) 7 r hr⟩

/-! ## The hypotheses on states hold along every run of the process -/

theorem Split_length (sep : Char) (s : Str) : (Split sep s).length = s.count sep + 1 := by
  induction s with
  | nil => rfl
  | cons c cs ih =>
    unfold Split
    by_cases h : c = sep
    · subst h
      simp [ih]
    · rw [if_neg h]
      have hcount : (c :: cs).count sep = cs.count sep := by
        rw [List.count_cons]
        simp [h]
      cases hs : Split sep cs with
      | nil => rw [hs] at ih; simp at ih
      | cons p ps =>
        rw [hs] at ih
        simp only [List.length_cons] at ih ⊢
        rw [hcount]
        exact ih

theorem fmtInt_chars (w : Nat) (n : Int) : ∀ c ∈ fmtInt w n, c = '-' ∨ c.isDigit = true := by
  have hd : ∀ c ∈ natStr n.natAbs, c.isDigit = true :=
    natStrAux_isDigit n.natAbs n.natAbs (Or.inl (le_refl _))
  have hz : ∀ (k : Nat), ∀ c ∈ List.replicate k '0' ++ natStr n.natAbs, c.isDigit = true := by
    intro k c hc
    rcases List.mem_append.1 hc with h1 | h1
    · rw [List.eq_of_mem_replicate h1]; decide
    · exact hd c h1
  intro c hc
  unfold fmtInt at hc
  simp only at hc
  split_ifs at hc
  · rcases List.mem_cons.1 hc with e | e
    · exact Or.inl e
    · exact Or.inr (hz _ c e)
  · exact Or.inr (hz _ c hc)

theorem space_not_mem_fmtInt (w : Nat) (n : Int) : ' ' ∉ fmtInt w n := by
  intro h
  rcases fmtInt_chars w n ' ' h with e | e
  · exact absurd e (by decide)
  · exact absurd e (by decide)

/-- The texts the date and time callbacks store have the parts `scheduleOnce`
indexes, whatever integers and am/pm text the callback data carried. -/
theorem hasParts_of_ok (r : Reminder) (hd : DateOK r.Date) (ht : TimeOK r.Time) :
    hasParts r = true := by
  obtain ⟨d, m, y, hd⟩ := hd
  obtain ⟨h, mi, ap, ht⟩ := ht
  have e : fmtTime h mi ap = (fmtInt 0 h ++ ':' :: fmtInt 2 mi) ++ ' ' :: ap := by
    simp [fmtTime]
  have hno : ' ' ∉ fmtInt 0 h ++ ':' :: fmtInt 2 mi := by
    intro hm
    rcases List.mem_append.1 hm with h1 | h1
    · exact space_not_mem_fmtInt _ _ h1
    · rcases List.mem_cons.1 h1 with h2 | h2
      · exact absurd h2 (by decide)
      · exact space_not_mem_fmtInt _ _ h2
  have hsplit : Split ' ' r.Time = (fmtInt 0 h ++ ':' :: fmtInt 2 mi) :: Split ' ' ap := by
    rw [ht, e, Split_append _ _ _ hno]
  have hlen : 0 < (Split ' ' ap).length := by rw [Split_length]; omega
  simp only [hasParts, Bool.and_eq_true, decide_eq_true_eq]
  refine ⟨⟨?_, ?_⟩, ?_⟩
  · rw [Split_length, hd]
    simp only [fmtDate, List.count_append, List.count_singleton, beq_self_eq_true, if_true]
    omega
  · rw [hsplit]
    simp only [List.length_cons]
    omega
  · rw [hsplit]
    simp only [List.headD_cons]
    rw [Split_length]
    simp only [List.count_append, List.count_cons, beq_self_eq_true, if_true]
    omega

theorem rehydrateOne_sessions (env : Env) (now : Int) (st st2 : State) (c : Int) (r : Reminder)
    (h : rehydrateOne env now st c r = some st2) : st2.sessions = st.sessions := by
  unfold rehydrateOne at h
  split_ifs at h
  · simp only [Option.some.injEq] at h; subst h; rfl
  · simp only [Option.some.injEq] at h; subst h; rfl
  · simp only [Option.some.injEq] at h; subst h; rfl
  · exact (scheduleOnce_fields now st st2 c r h).2.2.2.2.1

theorem rehydratePairs_sessions (env : Env) (now : Int) (ps : List (Int × Reminder))
    (st st2 : State) (h : rehydratePairs env now st ps = some st2) :
    st2.sessions = st.sessions := by
  induction ps generalizing st with
  | nil =>
    simp only [rehydratePairs, Option.some.injEq] at h
    subst h; rfl
  | cons p ps ih =>
    obtain ⟨c, r⟩ := p
    simp only [rehydratePairs] at h
    split at h
    · exact absurd h (by simp)
    · rename_i s1 h1
      rw [ih s1 h, rehydrateOne_sessions env now st s1 c r h1]

/-- The process state after loading a snapshot and rehydrating satisfies the
invariant, for any stored reminders. -/
theorem inv_rehydrated (env : Env) (now : Int) (snap : Int → Option UserData)
    (keys : List Int) (st1 : State)
    (hre : rehydrate env now (loaded snap) keys = some st1) : Inv (fun _ => True) st1 := by
  rw [rehydrate_eq] at hre
  have h0 : Rehy (loaded snap) :=
    ⟨rfl, fun k q hk => by simp [loaded] at hk, fun k k2 q hk => by simp [loaded] at hk,
      fun k q hk => by simp [loaded] at hk⟩
  obtain ⟨r1, r2, r3, -⟩ := rehydratePairs_inv env now _ _ st1 h0 (visited_mem _ keys) hre
  have hs := rehydratePairs_sessions env now _ _ st1 hre
  refine ⟨fun _ _ _ => trivial, fun c => ?_, ?_⟩
  · have : sessionOf st1 c = {} := by
      unfold sessionOf; rw [hs]; rfl
    rw [this]
    exact sessOK_default
  · refine ⟨fun k q hk => ⟨by rw [r1]; exact List.not_mem_nil _, r2 k q hk⟩, r3, fun q hq => ?_⟩
    rw [r1] at hq
    exact absurd hq (List.not_mem_nil _)

/-- Along every run of the process (load a snapshot, rehydrate, then any
sequence of messages, callbacks and firings) no registered quit channel is
closed, and an accumulator in a stage from which the wizard finalizes has the
date and time parts `scheduleOnce` indexes. -/
theorem running_state_ok (env : Env) (now : Int) (snap : Int → Option UserData)
    (keys : List Int) (st1 st : State)
    (hre : rehydrate env now (loaded snap) keys = some st1)
    (h : ReachableFrom env st1 st) :
    QuitOpen st ∧
      ∀ c, (sessionOf st c).Stage = Stage.StageAskInfo ∨
          (sessionOf st c).Stage = Stage.StageOptInfo →
        hasParts (sessionOf st c).Temp = true := by
  have hi := reachable_inv (fun _ _ => trivial) env st1 st (inv_rehydrated env now snap keys st1 hre) h
  refine ⟨fun k q hk => (hi.chan.1 k q hk).1, fun c hc => ?_⟩
  obtain ⟨d1, d2⟩ := (hi.sess c).2.2.2 hc
  exact hasParts_of_ok _ d1 d2

/-! ## The store accessor -/

/-- C11: for every state and chat id `getUserData` returns (it is total), the
returned data has language en or zh and is the chat's entry afterwards; with
no entry before, it is the new entry with offset 0, no reminders and language
en; with an entry before, offset and reminder list are those of the entry and
the language is the entry's when that is en or zh and en otherwise; the
entries of all other chats, and everything outside the store, are unchanged. -/
theorem getUserData_returns (st : State) (chatID : Int) :
    ((getUserData st chatID).1.Lang = sEn ∨ (getUserData st chatID).1.Lang = sZh) ∧
    (getUserData st chatID).2.store chatID = some (getUserData st chatID).1 ∧
    (st.store chatID = none →
      (getUserData st chatID).1 = { UTC := 0, Reminders := [], Lang := sEn }) ∧
    (∀ ud, st.store chatID = some ud →
      (getUserData st chatID).1.UTC = ud.UTC ∧
      (getUserData st chatID).1.Reminders = ud.Reminders ∧
      (getUserData st chatID).1.Lang = if ud.Lang = sEn ∨ ud.Lang = sZh then ud.Lang else sEn) ∧
    (∀ k, k ≠ chatID → (getUserData st chatID).2.store k = st.store k) ∧
    (getUserData st chatID).2.sessions = st.sessions ∧
    (getUserData st chatID).2.cronQuitMap = st.cronQuitMap ∧
    (getUserData st chatID).2.closed = st.closed ∧
    (getUserData st chatID).2.timers = st.timers ∧
    (getUserData st chatID).2.jobs = st.jobs ∧
    (getUserData st chatID).2.sent = st.sent := by
  refine ⟨getUserData_lang st chatID, getUserData_store_self st chatID, ?_, ?_, ?_,
    rfl, rfl, rfl, rfl, rfl, rfl⟩
  · intro h
    simp [getUserData, h]
  · intro ud h
    unfold getUserData
    simp only [h]
    by_cases hl : ud.Lang = sEn ∨ ud.Lang = sZh
    · have hn : ¬ (ud.Lang ≠ sEn ∧ ud.Lang ≠ sZh) := by
        rcases hl with e | e <;> simp [e]
      simp [hn, hl]
    · have hn : ud.Lang ≠ sEn ∧ ud.Lang ≠ sZh := by
        simpa [not_or] using hl
      simp [hn, hl]
  · intro k hk
    simp [getUserData, setKey, hk]

theorem getUserData_returns_witness :
    (getUserData frChat 7).1.UTC = 3 ∧ (getUserData frChat 7).1.Reminders = [oneShot5] ∧
      (getUserData frChat 7).1.Lang = sEn ∧
      (getUserData frChat 8).1 = { UTC := 0, Reminders := [], Lang := sEn } := by
  obtain ⟨-, -, -, h4, -⟩ := getUserData_returns frChat 7
  obtain ⟨-, -, h3, -⟩ := getUserData_returns frChat 8
  obtain ⟨a1, a2, a3⟩ := h4 { UTC := 3, Lang := ['f', 'r'], Reminders := [oneShot5] } rfl
  exact ⟨a1, a2, a3, h3 rfl⟩

/-! ## The pickers on the callback data of their own widgets -/

theorem Split_getElem_isSome (s : Str) (i : Nat) (h : i ≤ s.count ';') :
    ∃ p, (Split ';' s)[i]? = some p := by
  have hl : i < (Split ';' s).length := by rw [Split_length]; omega
  exact ⟨_, List.getElem?_eq_getElem hl⟩

theorem Split_ignore : Split ';' sIgnore = [sIgnore] := by decide

theorem ProcessCalendar_ignore (st : State) (c : Int) : ProcessCalendar st c sIgnore = none := by
  simp [ProcessCalendar, Split_ignore]

theorem ProcessUTC_ignore (st : State) (c : Int) : ProcessUTC st c sIgnore = none := by
  simp [ProcessUTC, Split_ignore]

theorem ProcessCalendar_isSome (st : State) (c : Int) (d : Str) (h : 3 ≤ d.count ';') :
    (ProcessCalendar st c d).isSome = true := by
  obtain ⟨p0, h0⟩ := Split_getElem_isSome d 0 (by omega)
  obtain ⟨p1, h1⟩ := Split_getElem_isSome d 1 (by omega)
  obtain ⟨p2, h2⟩ := Split_getElem_isSome d 2 (by omega)
  obtain ⟨p3, h3⟩ := Split_getElem_isSome d 3 (by omega)
  unfold ProcessCalendar
  simp only [Option.bind_eq_bind, Option.pure_def, h0, h1, h2, h3, Option.some_bind]
  split_ifs <;> rfl

theorem ProcessUTC_isSome (st : State) (c : Int) (d : Str) (h : 1 ≤ d.count ';') :
    (ProcessUTC st c d).isSome = true := by
  obtain ⟨p0, h0⟩ := Split_getElem_isSome d 0 (by omega)
  obtain ⟨p1, h1⟩ := Split_getElem_isSome d 1 (by omega)
  unfold ProcessUTC
  simp only [Option.bind_eq_bind, Option.pure_def, h0, h1, Option.some_bind]
  split_ifs <;> rfl

theorem ProcessClock_isSome (st : State) (c : Int) (d : Str) (h : 3 ≤ d.count ';') :
    (ProcessClock st c d).isSome = true := by
  obtain ⟨p0, h0⟩ := Split_getElem_isSome d 0 (by omega)
  obtain ⟨p1, h1⟩ := Split_getElem_isSome d 1 (by omega)
  obtain ⟨p2, h2⟩ := Split_getElem_isSome d 2 (by omega)
  obtain ⟨p3, h3⟩ := Split_getElem_isSome d 3 (by omega)
  unfold ProcessClock
  simp only [Option.bind_eq_bind, Option.pure_def, h0, h1, h2, h3, Option.some_bind]
  split_ifs <;> rfl

theorem ProcessClock_ignore (st : State) (c : Int) :
    (ProcessClock st c sIgnore).isSome = true := by
  unfold ProcessClock
  rw [Split_ignore]
  rfl

theorem count_dayData (year month d : Int) : 3 ≤ (dayData year month d).count ';' := by
  simp only [dayData, List.count_append, List.count_cons, List.count_nil]
  simp
  omega

theorem count_prevData (year month : Int) : 3 ≤ (prevData year month).count ';' := by
  simp only [prevData, List.count_append, List.count_cons, List.count_nil]
  simp
  omega

theorem count_nextData (year month : Int) : 3 ≤ (nextData year month).count ';' := by
  simp only [nextData, List.count_append, List.count_cons, List.count_nil]
  simp
  omega

theorem count_clockData (act : Str) (h mi : Int) (ap : Str) :
    3 ≤ (clockData act h mi ap).count ';' := by
  simp only [clockData, List.count_append, List.count_cons, List.count_nil]
  simp
  omega

theorem count_utcData (act : Str) (off : Int) : 1 ≤ (utcData act off).count ';' := by
  simp only [utcData, List.count_append, List.count_cons, List.count_nil]
  simp
  omega

/-- The buttons of the calendar carry `ignore` or data with four parts. -/
theorem CreateCalendar_data (year month : Int) :
    ∀ d ∈ (CreateCalendar year month).flatten, d = sIgnore ∨ 3 ≤ d.count ';' := by
  intro d hd
  obtain ⟨row, hrow, hmem⟩ := List.mem_flatten.1 hd
  simp only [CreateCalendar, List.mem_append, List.mem_cons, List.mem_singleton, List.mem_map,
    List.not_mem_nil, or_false] at hrow
  rcases hrow with ((hrow | hrow) | ⟨wk, -, hrow⟩) | hrow
  · subst hrow
    exact Or.inl (List.mem_singleton.1 hmem)
  · subst hrow
    exact Or.inl (List.eq_of_mem_replicate hmem)
  · subst hrow
    obtain ⟨x, -, hx⟩ := List.mem_map.1 hmem
    subst hx
    split_ifs
    · exact Or.inl rfl
    · exact Or.inr (count_dayData year month x)
  · subst hrow
    simp only [List.mem_cons, List.mem_singleton, List.not_mem_nil, or_false] at hmem
    rcases hmem with e | e | e
    · subst e; exact Or.inr (count_prevData year month)
    · exact Or.inl e
    · subst e; exact Or.inr (count_nextData year month)

/-- The clock's handler is defined on every button of its own widget: it tests
for `ignore` before it indexes the parts. -/
theorem ProcessClock_on_CreateClock (st : State) (c : Int) (h mi : Int) (ap : Str) :
    ∀ d ∈ (CreateClock h mi ap).flatten, (ProcessClock st c d).isSome = true := by
  intro d hd
  obtain ⟨row, hrow, hmem⟩ := List.mem_flatten.1 hd
  simp only [CreateClock, List.mem_cons, List.mem_singleton, List.not_mem_nil, or_false] at hrow
  rcases hrow with hrow | hrow | hrow | hrow <;> subst hrow <;>
    simp only [List.mem_cons, List.mem_singleton, List.not_mem_nil, or_false, or_self] at hmem
  · rcases hmem with e | e | e <;> subst e <;>
      exact ProcessClock_isSome st c _ (count_clockData _ _ _ _)
  · subst hmem
    exact ProcessClock_ignore st c
  · rcases hmem with e | e | e <;> subst e <;>
      exact ProcessClock_isSome st c _ (count_clockData _ _ _ _)
  · subst hmem
    exact ProcessClock_isSome st c _ (count_clockData _ _ _ _)

set_option maxRecDepth 100000 in
/-- C13 (the code misses it): for every year and month `CreateCalendar` emits
buttons with data `ignore`, and `ProcessCalendar` returns on the data of a
calendar button exactly when the data is not `ignore`; for every offset
`CreateTimezone` emits a button with data `ignore`, and `ProcessUTC` returns on
the data of a timezone button exactly when the data is not `ignore`.  On
`ignore` both index `parts[1]` of a one-element slice: pressing the title of
the date picker, or the current value of the timezone picker, panics in
`handleCallback`. -/
theorem pickers_on_own_data (st : State) (chatID : Int) :
    (∀ year month, sIgnore ∈ (CreateCalendar year month).flatten ∧
      ∀ d ∈ (CreateCalendar year month).flatten,
        ((ProcessCalendar st chatID d).isSome = true ↔ d ≠ sIgnore)) ∧
    (∀ offset, sIgnore ∈ (CreateTimezone offset).flatten ∧
      ∀ d ∈ (CreateTimezone offset).flatten,
        ((ProcessUTC st chatID d).isSome = true ↔ d ≠ sIgnore)) ∧
    (run envAll {} ignoreDateRun).isSome = false ∧
    (run envAll {} ignoreUTCRun).isSome = false := by
  refine ⟨fun year month => ⟨?_, fun d hd => ⟨fun h e => ?_, fun h => ?_⟩⟩,
    fun offset => ⟨?_, fun d hd => ⟨fun h e => ?_, fun h => ?_⟩⟩, by decide, by decide⟩
  · simp [CreateCalendar]
  · rw [e, ProcessCalendar_ignore] at h
    exact absurd h (by simp)
  · rcases CreateCalendar_data year month d hd with e | e
    · exact absurd e h
    · exact ProcessCalendar_isSome st chatID d e
  · simp [CreateTimezone]
  · rw [e, ProcessUTC_ignore] at h
    exact absurd h (by simp)
  · obtain ⟨row, hrow, hmem⟩ := List.mem_flatten.1 hd
    simp only [CreateTimezone, List.mem_cons, List.mem_singleton, List.not_mem_nil,
      or_false] at hrow
    rcases hrow with hrow | hrow | hrow | hrow <;> subst hrow <;>
      simp only [List.mem_singleton] at hmem
    · subst hmem; exact ProcessUTC_isSome st chatID _ (count_utcData _ _)
    · exact absurd hmem h
    · subst hmem; exact ProcessUTC_isSome st chatID _ (count_utcData _ _)
    · subst hmem; exact ProcessUTC_isSome st chatID _ (count_utcData _ _)

/-! ## The transitions of the session -/

theorem semicolon_not_mem_fmtInt (w : Nat) (n : Int) : ';' ∉ fmtInt w n := by
  intro h
  rcases fmtInt_chars w n ';' h with e | e
  · exact absurd e (by decide)
  · exact absurd e (by decide)

/-- The text `fmtInt` gives a 64-bit integer reads back as the integer. -/
theorem Atoi_fmtInt_int (w : Nat) (n : Int) (h1 : -(2 ^ 63) ≤ n) (h2 : n < 2 ^ 63) :
    Atoi (fmtInt w n) = (n, true) := by
  have p63 : (2 : Int) ^ 63 = 9223372036854775808 := by norm_num
  rw [p63] at h1 h2
  by_cases hn : n < 0
  · have hk : parseDigits (List.replicate (w - 1 - (natStr n.natAbs).length) '0' ++
        natStr n.natAbs) = some n.natAbs := by
      rw [parseDigits_zeros]
      exact parseDigits_natStrAux _ _ (Or.inl (le_refl _))
    have hne : List.replicate (w - 1 - (natStr n.natAbs).length) '0' ++ natStr n.natAbs ≠ [] := by
      simp [natStrAux_ne_nil2]
    have habs : ((n.natAbs : Nat) : Int) = -n := by omega
    unfold fmtInt
    simp only [hn, if_true]
    unfold Atoi
    simp only [true_or, if_true, hne, if_false, hk, beq_self_eq_true, habs, neg_neg]
    norm_num
    rw [if_neg (by omega), if_neg (by omega)]
  · have hk : n.toNat < 2 ^ 63 := by
      have : (2 : Nat) ^ 63 = 9223372036854775808 := by norm_num
      omega
    have hcast : ((n.toNat : Nat) : Int) = n := by omega
    obtain ⟨a1, a2, a3⟩ := fmtInt_nat w n.toNat
    rw [hcast] at a1 a2 a3
    rw [Atoi_digits _ n.toNat a1 a2 a3 hk, hcast]

theorem Split_four (a b c e : Str) (ha : ';' ∉ a) (hb : ';' ∉ b) (hc : ';' ∉ c)
    (he : ';' ∉ e) : Split ';' (a ++ [';'] ++ b ++ [';'] ++ c ++ [';'] ++ e) = [a, b, c, e] := by
  simp only [List.append_assoc, List.singleton_append, List.cons_append, List.nil_append]
  rw [Split_append _ _ _ ha, Split_append _ _ _ hb, Split_append _ _ _ hc, Split_no_sep _ _ he]

theorem Split_two (a b : Str) (ha : ';' ∉ a) (hb : ';' ∉ b) :
    Split ';' (a ++ [';'] ++ b) = [a, b] := by
  simp only [List.append_assoc, List.singleton_append, List.cons_append, List.nil_append]
  rw [Split_append _ _ _ ha, Split_no_sep _ _ hb]

theorem startsWith_head_ne (c1 c2 : Char) (s p : Str) (h : c2 ≠ c1) :
    startsWith (c1 :: s) (c2 :: p) = false := by
  simp [startsWith, List.isPrefixOf, h]

theorem ProcessCalendar_day (st : State) (c : Int) (y m d : Int)
    (hy : -(2 ^ 63) ≤ y ∧ y < 2 ^ 63) (hm : -(2 ^ 63) ≤ m ∧ m < 2 ^ 63)
    (hd : -(2 ^ 63) ≤ d ∧ d < 2 ^ 63) :
    ProcessCalendar st c (dayData y m d) =
      some ((true, y, m, d), send st c MsgKey.callback_ack) := by
  have hs : Split ';' (dayData y m d) = [['D', 'A', 'Y'], fmtInt 0 y, fmtInt 0 m, fmtInt 0 d] := by
    have e : dayData y m d =
        ['D', 'A', 'Y'] ++ [';'] ++ fmtInt 0 y ++ [';'] ++ fmtInt 0 m ++ [';'] ++ fmtInt 0 d := by
      simp [dayData]
    rw [e]
    exact Split_four _ _ _ _ (by decide) (semicolon_not_mem_fmtInt _ _)
      (semicolon_not_mem_fmtInt _ _) (semicolon_not_mem_fmtInt _ _)
  have h1 : (['D', 'A', 'Y'] = "ignore".toList) = False := eq_false (by decide)
  have h2 : (['D', 'A', 'Y'] = "DAY".toList) = True := eq_true (by decide)
  unfold ProcessCalendar
  simp only [hs, Option.bind_eq_bind, Option.pure_def, List.getElem?_cons_zero,
    List.getElem?_cons_succ, Option.some_bind, Atoi_fmtInt_int 0 y hy.1 hy.2,
    Atoi_fmtInt_int 0 m hm.1 hm.2, Atoi_fmtInt_int 0 d hd.1 hd.2, h1, h2, if_false, if_true]

theorem ProcessClock_okay (st : State) (c : Int) (h mi : Int) (ap : Str)
    (hh : -(2 ^ 63) ≤ h ∧ h < 2 ^ 63) (hmi : -(2 ^ 63) ≤ mi ∧ mi < 2 ^ 63) (hap : ';' ∉ ap) :
    ProcessClock st c (clockData ['O', 'K', 'A', 'Y'] h mi ap) =
      some ((true, h, mi, ap), send st c MsgKey.callback_ack) := by
  have hs : Split ';' (clockData ['O', 'K', 'A', 'Y'] h mi ap) =
      [['O', 'K', 'A', 'Y'], fmtInt 0 h, fmtInt 0 mi, ap] :=
    Split_four _ _ _ _ (by decide) (semicolon_not_mem_fmtInt _ _)
      (semicolon_not_mem_fmtInt _ _) hap
  have h1 : (['O', 'K', 'A', 'Y'] = "ignore".toList) = False := eq_false (by decide)
  have h2 : (['O', 'K', 'A', 'Y'] = "OKAY".toList) = True := eq_true (by decide)
  unfold ProcessClock
  simp only [hs, Option.bind_eq_bind, Option.pure_def, List.getElem?_cons_zero,
    List.getElem?_cons_succ, Option.some_bind, Atoi_fmtInt_int 0 h hh.1 hh.2,
    Atoi_fmtInt_int 0 mi hmi.1 hmi.2, h1, h2, if_false, if_true]

theorem ProcessUTC_data (st : State) (c : Int) (act : Str) (n : Int) (hact : ';' ∉ act)
    (hn : -(2 ^ 63) ≤ n ∧ n < 2 ^ 63) :
    ProcessUTC st c (utcData act n) =
      if act = "ignore".toList then some ((false, n), send st c MsgKey.callback_ack)
      else if act = "PLUS".toList then some ((false, wrap64 (n + 1)), send st c MsgKey.edit_markup)
      else if act = "MINUS".toList then
        some ((false, wrap64 (n - 1)), send st c MsgKey.edit_markup)
      else if act = "OKAY".toList then some ((true, n), send st c MsgKey.callback_ack)
      else some ((false, n), send st c MsgKey.edit_markup) := by
  have hs : Split ';' (utcData act n) = [act, fmtInt 0 n] :=
    Split_two _ _ hact (semicolon_not_mem_fmtInt _ _)
  unfold ProcessUTC
  simp only [hs, Option.bind_eq_bind, Option.pure_def, List.getElem?_cons_zero,
    List.getElem?_cons_succ, Option.some_bind, Atoi_fmtInt_int 0 n hn.1 hn.2]

theorem handleMessage_plain (env : Env) (now : Int) (st : State) (msg : Message)
    (h : knownCommand msg = false) :
    handleMessage env now st msg =
      sessionFlow now (getSession (getUserData st msg.chatID).2 msg.chatID).2 msg.chatID
        msg.Text := by
  unfold handleMessage
  simp only
  by_cases hc : msg.IsCommand = true
  · simp only [knownCommand, hc, Bool.true_and, decide_eq_false_iff_not, List.mem_cons,
      List.mem_singleton, List.not_mem_nil, or_false, not_or] at h
    obtain ⟨h1, h2, h3, h4, h5, h6, h7⟩ := h
    simp only [h1, h2, h3, h4, h5, h6, h7, and_false, or_self, if_false]
  · simp only [Bool.not_eq_true] at hc
    simp only [hc, Bool.false_eq_true, false_and, if_false]

theorem getUserData_entry_lang (st : State) (c : Int) :
    (getUserData (getSession (getUserData st c).2 c).2 c).1 = (getUserData st c).1 := by
  have hs : (getSession (getUserData st c).2 c).2.store c = some (getUserData st c).1 :=
    getUserData_store_self st c
  rw [getUserData_fix _ _ _ hs (getUserData_lang st c)]

theorem finalizeReminder_some (now : Int) (st : State) (c : Int)
    (hp : hasParts (sessionOf st c).Temp = true) :
    ∃ st2, finalizeReminder now st c = some st2 := by
  unfold finalizeReminder
  simp only [sessionOf_getUserData, getUserData_reminders]
  generalize htemp : ({ (sessionOf st c).Temp with ID := Int.tmod now 1000000 } : Reminder)
    = temp
  have hp2 : hasParts temp = true := by rw [← htemp]; exact hp
  generalize setReminders (setSession (getUserData st c).2 c
    { Stage := (sessionOf st c).Stage, Temp := temp }) c (temp :: reminders st c) = s1
  obtain ⟨n, hn⟩ := notifyUTC_of_hasParts (getUserData s1 c).1.UTC temp hp2
  simp only [scheduleOnce, hn]
  exact ⟨_, rfl⟩

/-- What a finalization leaves behind, when the accumulator has its parts. -/
theorem finalizeReminder_done (now : Int) (st : State) (c : Int)
    (hp : hasParts (sessionOf st c).Temp = true) :
    ∃ st2, finalizeReminder now st c = some st2 ∧
      sessionOf st2 c = { Stage := Stage.StageIdle, Temp := {} } ∧
      reminders st2 c =
        { (sessionOf st c).Temp with ID := Int.tmod now 1000000 } :: reminders st c := by
  obtain ⟨st2, h⟩ := finalizeReminder_some now st c hp
  obtain ⟨h1, h2, -⟩ := finalizeReminder_result now st st2 c h
  refine ⟨st2, h, ?_, ?_⟩
  · rw [h2, if_pos rfl]
  · rw [h1, if_pos rfl]

theorem row_start (env : Env) (now : Int) (st : State) (msg : Message)
    (h1 : msg.IsCommand = true) (h2 : msg.Command = "start".toList) :
    ∃ st2, handleMessage env now st msg = some st2 ∧
      sessionOf st2 msg.chatID = { sessionOf st msg.chatID with Stage := Stage.StageName } := by
  have h : handleMessage env now st msg = some (sendText (setStage
      (getSession (getUserData st msg.chatID).2 msg.chatID).2 msg.chatID Stage.StageName)
      msg.chatID MsgKey.prompt_name) := by
    simp only [handleMessage, h1, h2, and_self, if_true]
  exact ⟨_, h, by simp [setStage]⟩

theorem row_name (env : Env) (now : Int) (st : State) (msg : Message)
    (hk : knownCommand msg = false)
    (hs : (sessionOf st msg.chatID).Stage = Stage.StageName) :
    ∃ st2, handleMessage env now st msg = some st2 ∧
      sessionOf st2 msg.chatID =
        { Stage := Stage.StageDate,
          Temp := { (sessionOf st msg.chatID).Temp with Name := msg.Text } } := by
  rw [handleMessage_plain env now st msg hk]
  unfold sessionFlow
  simp only [sessionOf_getSession, sessionOf_getUserData, hs]
  exact ⟨_, rfl, by simp⟩

theorem row_ask_yes (env : Env) (now : Int) (st : State) (msg : Message)
    (hk : knownCommand msg = false)
    (hs : (sessionOf st msg.chatID).Stage = Stage.StageAskInfo)
    (hy : ToLower msg.Text = ToLower (yesWord (getUserData st msg.chatID).1.Lang)) :
    ∃ st2, handleMessage env now st msg = some st2 ∧
      sessionOf st2 msg.chatID =
        { sessionOf st msg.chatID with Stage := Stage.StageOptInfo } := by
  rw [handleMessage_plain env now st msg hk]
  unfold sessionFlow
  simp only [sessionOf_getSession, sessionOf_getUserData, hs, getUserData_entry_lang]
  unfold yesWord at hy
  rw [if_pos hy]
  exact ⟨_, rfl, by simp [setStage]⟩

theorem row_ask_other (env : Env) (now : Int) (st : State) (msg : Message)
    (hk : knownCommand msg = false)
    (hs : (sessionOf st msg.chatID).Stage = Stage.StageAskInfo)
    (hy : ToLower msg.Text ≠ ToLower (yesWord (getUserData st msg.chatID).1.Lang))
    (hp : hasParts (sessionOf st msg.chatID).Temp = true) :
    ∃ st2, handleMessage env now st msg = some st2 ∧
      sessionOf st2 msg.chatID = { Stage := Stage.StageIdle, Temp := {} } ∧
      reminders st2 msg.chatID =
        { (sessionOf st msg.chatID).Temp with ID := Int.tmod now 1000000 } ::
          reminders st msg.chatID := by
  rw [handleMessage_plain env now st msg hk]
  unfold sessionFlow
  simp only [sessionOf_getSession, sessionOf_getUserData, hs, getUserData_entry_lang]
  unfold yesWord at hy
  rw [if_neg hy]
  simpa using finalizeReminder_done now
    (getSession (getUserData st msg.chatID).2 msg.chatID).2 msg.chatID (by simpa using hp)

theorem row_optinfo (env : Env) (now : Int) (st : State) (msg : Message)
    (hk : knownCommand msg = false)
    (hs : (sessionOf st msg.chatID).Stage = Stage.StageOptInfo)
    (hp : hasParts (sessionOf st msg.chatID).Temp = true) :
    ∃ st2, handleMessage env now st msg = some st2 ∧
      sessionOf st2 msg.chatID = { Stage := Stage.StageIdle, Temp := {} } ∧
      reminders st2 msg.chatID =
        { (sessionOf st msg.chatID).Temp with
            OptInfo := msg.Text, ID := Int.tmod now 1000000 } :: reminders st msg.chatID := by
  rw [handleMessage_plain env now st msg hk]
  unfold sessionFlow
  simp only [sessionOf_getSession, sessionOf_getUserData, hs]
  generalize hs0 : (getSession (getUserData st msg.chatID).2 msg.chatID).2 = s0
  have hr : reminders s0 msg.chatID = reminders st msg.chatID := by
    rw [← hs0]; simp
  generalize ht : ({ (sessionOf st msg.chatID).Temp with OptInfo := msg.Text } : Reminder) = t
  have hp2 : hasParts (sessionOf (setSession s0 msg.chatID
      { Stage := Stage.StageOptInfo, Temp := t }) msg.chatID).Temp = true := by
    rw [← ht]
    simpa [hasParts] using hp
  obtain ⟨st2, h1, h2, h3⟩ := finalizeReminder_done now _ msg.chatID hp2
  refine ⟨st2, h1, h2, ?_⟩
  rw [h3, ← ht]
  simp [hr]

theorem utcOf_getUserData (st : State) (c k : Int) :
    utcOf (getUserData st c).2 k = utcOf st k := by
  unfold getUserData utcOf
  by_cases h : k = c
  · subst h
    cases st.store k <;> simp [setKey]
    all_goals (split <;> rfl)
  · simp [setKey, h]

theorem utcOf_setUTC (st : State) (c : Int) (u : Int) (h : st.store c ≠ none) :
    utcOf (setUTC st c u) c = u := by
  unfold setUTC utcOf
  cases hs : st.store c with
  | none => exact absurd hs h
  | some ud => simp [setKey]

theorem startsWith_dayData (y m d : Int) :
    startsWith (dayData y m d) "CANCELIDX;".toList = false ∧
      startsWith (dayData y m d) "LANG;".toList = false :=
  ⟨startsWith_head_ne 'D' 'C' _ _ (by decide), startsWith_head_ne 'D' 'L' _ _ (by decide)⟩

theorem startsWith_clockData (h mi : Int) (ap : Str) :
    startsWith (clockData ['O', 'K', 'A', 'Y'] h mi ap) "CANCELIDX;".toList = false ∧
      startsWith (clockData ['O', 'K', 'A', 'Y'] h mi ap) "LANG;".toList = false :=
  ⟨startsWith_head_ne 'O' 'C' _ _ (by decide), startsWith_head_ne 'O' 'L' _ _ (by decide)⟩

theorem startsWith_utcData (c : Char) (act : Str) (n : Int) (h1 : c ≠ 'C') (h2 : c ≠ 'L') :
    startsWith (utcData (c :: act) n) "CANCELIDX;".toList = false ∧
      startsWith (utcData (c :: act) n) "LANG;".toList = false :=
  ⟨startsWith_head_ne c 'C' _ _ (fun e => h1 e.symm),
    startsWith_head_ne c 'L' _ _ (fun e => h2 e.symm)⟩

theorem row_date (now : Int) (st : State) (q : CallbackQuery) (y m d : Int)
    (hq : q.Data = dayData y m d)
    (hy : -(2 ^ 63) ≤ y ∧ y < 2 ^ 63) (hm : -(2 ^ 63) ≤ m ∧ m < 2 ^ 63)
    (hd : -(2 ^ 63) ≤ d ∧ d < 2 ^ 63)
    (hs : (sessionOf st q.chatID).Stage = Stage.StageDate) :
    ∃ st2, handleCallback now st q = some st2 ∧
      sessionOf st2 q.chatID =
        { Stage := Stage.StageTime,
          Temp := { (sessionOf st q.chatID).Temp with Date := fmtDate d m y } } := by
  unfold handleCallback
  simp only [hq, (startsWith_dayData y m d).1, (startsWith_dayData y m d).2,
    sessionOf_getSession, sessionOf_getUserData, hs, ProcessCalendar_day _ _ _ _ _ hy hm hd,
    if_true, Bool.false_eq_true, if_false]
  exact ⟨_, rfl, by simp⟩

theorem row_time (now : Int) (st : State) (q : CallbackQuery) (h mi : Int) (ap : Str)
    (hq : q.Data = clockData ['O', 'K', 'A', 'Y'] h mi ap)
    (hh : -(2 ^ 63) ≤ h ∧ h < 2 ^ 63) (hmi : -(2 ^ 63) ≤ mi ∧ mi < 2 ^ 63) (hap : ';' ∉ ap)
    (hs : (sessionOf st q.chatID).Stage = Stage.StageTime) :
    ∃ st2, handleCallback now st q = some st2 ∧
      sessionOf st2 q.chatID =
        { Stage := Stage.StageAskInfo,
          Temp := { (sessionOf st q.chatID).Temp with Time := fmtTime h mi ap } } := by
  have e1 : (Stage.StageTime = Stage.StageDate) = False := eq_false (by decide)
  unfold handleCallback
  simp only [hq, (startsWith_clockData h mi ap).1, (startsWith_clockData h mi ap).2,
    sessionOf_getSession, sessionOf_getUserData, hs, e1, ProcessClock_okay _ _ _ _ _ hh hmi hap,
    if_true, Bool.false_eq_true, if_false]
  exact ⟨_, rfl, by simp⟩

theorem row_ask_yes_button (now : Int) (st : State) (q : CallbackQuery)
    (hq : q.Data = "askinfo_yes".toList)
    (hs : (sessionOf st q.chatID).Stage = Stage.StageAskInfo) :
    ∃ st2, handleCallback now st q = some st2 ∧
      sessionOf st2 q.chatID = { sessionOf st q.chatID with Stage := Stage.StageOptInfo } := by
  have e1 : (Stage.StageAskInfo = Stage.StageDate) = False := eq_false (by decide)
  have e2 : (Stage.StageAskInfo = Stage.StageTime) = False := eq_false (by decide)
  have p1 : startsWith "askinfo_yes".toList "CANCELIDX;".toList = false := by decide
  have p2 : startsWith "askinfo_yes".toList "LANG;".toList = false := by decide
  unfold handleCallback
  simp only [hq, p1, p2, sessionOf_getSession, sessionOf_getUserData, hs, e1, e2,
    true_or, and_self, if_true, Bool.false_eq_true, if_false]
  exact ⟨_, rfl, by simp [setStage]⟩

theorem row_ask_no_button (now : Int) (st : State) (q : CallbackQuery)
    (hq : q.Data = "askinfo_no".toList)
    (hs : (sessionOf st q.chatID).Stage = Stage.StageAskInfo)
    (hp : hasParts (sessionOf st q.chatID).Temp = true) :
    ∃ st2, handleCallback now st q = some st2 ∧
      sessionOf st2 q.chatID = { Stage := Stage.StageIdle, Temp := {} } ∧
      reminders st2 q.chatID =
        { (sessionOf st q.chatID).Temp with ID := Int.tmod now 1000000 } ::
          reminders st q.chatID := by
  have e1 : (Stage.StageAskInfo = Stage.StageDate) = False := eq_false (by decide)
  have e2 : (Stage.StageAskInfo = Stage.StageTime) = False := eq_false (by decide)
  have e3 : ("askinfo_no".toList = "askinfo_yes".toList) = False := eq_false (by decide)
  have p1 : startsWith "askinfo_no".toList "CANCELIDX;".toList = false := by decide
  have p2 : startsWith "askinfo_no".toList "LANG;".toList = false := by decide
  unfold handleCallback
  simp only [hq, p1, p2, sessionOf_getSession, sessionOf_getUserData, hs, e1, e2, e3,
    or_true, and_self, if_true, Bool.false_eq_true, if_false]
  simpa using finalizeReminder_done now
    (send (getSession (getUserData st q.chatID).2 q.chatID).2 q.chatID MsgKey.no_extra)
    q.chatID (by simpa using hp)

theorem row_ask_other_button (now : Int) (st : State) (q : CallbackQuery)
    (h1 : startsWith q.Data "CANCELIDX;".toList = false)
    (h2 : startsWith q.Data "LANG;".toList = false)
    (h3 : q.Data ≠ "askinfo_yes".toList) (h4 : q.Data ≠ "askinfo_no".toList)
    (hs : (sessionOf st q.chatID).Stage = Stage.StageAskInfo) :
    ∃ st2, handleCallback now st q = some st2 ∧
      sessionOf st2 q.chatID = sessionOf st q.chatID ∧
      reminders st2 q.chatID = reminders st q.chatID := by
  have e1 : (Stage.StageAskInfo = Stage.StageDate) = False := eq_false (by decide)
  have e2 : (Stage.StageAskInfo = Stage.StageTime) = False := eq_false (by decide)
  have e3 : (Stage.StageAskInfo = Stage.StageUTC) = False := eq_false (by decide)
  unfold handleCallback
  simp only [h1, h2, h3, h4, sessionOf_getSession, sessionOf_getUserData, hs, e1, e2, e3,
    or_self, and_false, Bool.false_eq_true, if_false]
  exact ⟨_, rfl, by simp, by simp [reminders_getUserData]⟩

theorem row_utc_step (now : Int) (st : State) (q : CallbackQuery) (n : Int)
    (hq : q.Data = utcData ['P', 'L', 'U', 'S'] n ∨ q.Data = utcData ['M', 'I', 'N', 'U', 'S'] n)
    (hn : -(2 ^ 63) ≤ n ∧ n < 2 ^ 63)
    (hs : (sessionOf st q.chatID).Stage = Stage.StageUTC) :
    ∃ st2, handleCallback now st q = some st2 ∧
      sessionOf st2 q.chatID = sessionOf st q.chatID ∧
      utcOf st2 q.chatID = utcOf st q.chatID := by
  have e1 : (Stage.StageUTC = Stage.StageDate) = False := eq_false (by decide)
  have e2 : (Stage.StageUTC = Stage.StageTime) = False := eq_false (by decide)
  have e3 : (Stage.StageUTC = Stage.StageAskInfo) = False := eq_false (by decide)
  have a1 : (['P', 'L', 'U', 'S'] = "ignore".toList) = False := eq_false (by decide)
  have a2 : (['P', 'L', 'U', 'S'] = "PLUS".toList) = True := eq_true (by decide)
  have b1 : (['M', 'I', 'N', 'U', 'S'] = "ignore".toList) = False := eq_false (by decide)
  have b2 : (['M', 'I', 'N', 'U', 'S'] = "PLUS".toList) = False := eq_false (by decide)
  have b3 : (['M', 'I', 'N', 'U', 'S'] = "MINUS".toList) = True := eq_true (by decide)
  have hu : utcOf (getSession (getUserData st q.chatID).2 q.chatID).2 q.chatID =
      utcOf st q.chatID := utcOf_getUserData st q.chatID q.chatID
  unfold handleCallback
  rcases hq with hq | hq
  · simp only [hq, (startsWith_utcData 'P' _ n (by decide) (by decide)).1,
      (startsWith_utcData 'P' _ n (by decide) (by decide)).2,
      sessionOf_getSession, sessionOf_getUserData, hs, e1, e2, e3, false_and,
      ProcessUTC_data _ _ ['P', 'L', 'U', 'S'] n (by decide) hn, a1, a2, if_true, Bool.false_eq_true, if_false]
    exact ⟨_, rfl, by simp, hu⟩
  · simp only [hq, (startsWith_utcData 'M' _ n (by decide) (by decide)).1,
      (startsWith_utcData 'M' _ n (by decide) (by decide)).2,
      sessionOf_getSession, sessionOf_getUserData, hs, e1, e2, e3, false_and,
      ProcessUTC_data _ _ ['M', 'I', 'N', 'U', 'S'] n (by decide) hn, b1, b2, b3, if_true, Bool.false_eq_true, if_false]
    exact ⟨_, rfl, by simp, hu⟩

theorem row_utc_okay (now : Int) (st : State) (q : CallbackQuery) (n : Int)
    (hq : q.Data = utcData ['O', 'K', 'A', 'Y'] n)
    (hn : -(2 ^ 63) ≤ n ∧ n < 2 ^ 63)
    (hs : (sessionOf st q.chatID).Stage = Stage.StageUTC) :
    ∃ st2, handleCallback now st q = some st2 ∧
      sessionOf st2 q.chatID = { sessionOf st q.chatID with Stage := Stage.StageIdle } ∧
      utcOf st2 q.chatID = n := by
  have e1 : (Stage.StageUTC = Stage.StageDate) = False := eq_false (by decide)
  have e2 : (Stage.StageUTC = Stage.StageTime) = False := eq_false (by decide)
  have e3 : (Stage.StageUTC = Stage.StageAskInfo) = False := eq_false (by decide)
  have a1 : (['O', 'K', 'A', 'Y'] = "ignore".toList) = False := eq_false (by decide)
  have a2 : (['O', 'K', 'A', 'Y'] = "PLUS".toList) = False := eq_false (by decide)
  have a3 : (['O', 'K', 'A', 'Y'] = "MINUS".toList) = False := eq_false (by decide)
  have a4 : (['O', 'K', 'A', 'Y'] = "OKAY".toList) = True := eq_true (by decide)
  have hne : (getSession (getUserData st q.chatID).2 q.chatID).2.store q.chatID ≠ none := by
    have := getUserData_store_self st q.chatID
    intro h
    rw [show (getSession (getUserData st q.chatID).2 q.chatID).2.store =
      (getUserData st q.chatID).2.store from rfl, this] at h
    exact Option.noConfusion h
  unfold handleCallback
  simp only [hq, (startsWith_utcData 'O' _ n (by decide) (by decide)).1,
    (startsWith_utcData 'O' _ n (by decide) (by decide)).2,
    sessionOf_getSession, sessionOf_getUserData, hs, e1, e2, e3, false_and,
    ProcessUTC_data _ _ ['O', 'K', 'A', 'Y'] n (by decide) hn, a1, a2, a3, a4, if_true, Bool.false_eq_true,
    if_false]
  refine ⟨_, rfl, by simp [setStage], ?_⟩
  exact utcOf_setUTC _ _ n hne

/-! ## The transition table -/

/-- C12 (amended): the session of a chat starts in Idle with an empty accumulator, and
the rows of the transition table hold with their inputs made precise. The start
command moves the session (from Idle, and from any other stage) to AwaitingName. In
AwaitingName a message that is not one of the bot's commands is stored as the name and
the session moves to AwaitingDate. In AwaitingDate the press of a day button stores
the date and moves to AwaitingTime. In AwaitingTime the press of the OK button stores
the time and moves to AwaitingExtraInfoChoice. In AwaitingExtraInfoChoice the yes
button, or a non-command message equal up to case to the yes label of the chat's
language, moves to AwaitingExtraInfo; the no button, or any other non-command message,
finalizes (the reminder built from the accumulator is prepended, the accumulator is
emptied, the stage is Idle); a press of a button with other data leaves the session
and the reminder list as they are. In AwaitingExtraInfo a non-command message is stored
as the extra information and the reminder is finalized. In AwaitingTimezoneOffset an
increment or decrement keeps the stage and the stored offset, and the confirm button
sets the stored offset to the confirmed value and moves to Idle. Finalization is
stated for an accumulator whose date and time have their parts, as the pickers store
them. -/
theorem session_transitions (env : Env) (now : Int) (st : State) :
    (∀ c, st.sessions c = none →
      (getSession st c).1 = { Stage := Stage.StageIdle, Temp := {} }) ∧
    (∀ msg : Message, msg.IsCommand = true → msg.Command = "start".toList →
      ∃ st2, handleMessage env now st msg = some st2 ∧
        sessionOf st2 msg.chatID =
          { sessionOf st msg.chatID with Stage := Stage.StageName }) ∧
    (∀ msg : Message, knownCommand msg = false →
      (sessionOf st msg.chatID).Stage = Stage.StageName →
      ∃ st2, handleMessage env now st msg = some st2 ∧
        sessionOf st2 msg.chatID =
          { Stage := Stage.StageDate,
            Temp := { (sessionOf st msg.chatID).Temp with Name := msg.Text } }) ∧
    (∀ (q : CallbackQuery) (y m d : Int), q.Data = dayData y m d →
      (-(2 ^ 63) ≤ y ∧ y < 2 ^ 63) → (-(2 ^ 63) ≤ m ∧ m < 2 ^ 63) →
      (-(2 ^ 63) ≤ d ∧ d < 2 ^ 63) →
      (sessionOf st q.chatID).Stage = Stage.StageDate →
      ∃ st2, handleCallback now st q = some st2 ∧
        sessionOf st2 q.chatID =
          { Stage := Stage.StageTime,
            Temp := { (sessionOf st q.chatID).Temp with Date := fmtDate d m y } }) ∧
    (∀ (q : CallbackQuery) (h mi : Int) (ap : Str),
      q.Data = clockData ['O', 'K', 'A', 'Y'] h mi ap →
      (-(2 ^ 63) ≤ h ∧ h < 2 ^ 63) → (-(2 ^ 63) ≤ mi ∧ mi < 2 ^ 63) → ';' ∉ ap →
      (sessionOf st q.chatID).Stage = Stage.StageTime →
      ∃ st2, handleCallback now st q = some st2 ∧
        sessionOf st2 q.chatID =
          { Stage := Stage.StageAskInfo,
            Temp := { (sessionOf st q.chatID).Temp with Time := fmtTime h mi ap } }) ∧
    (∀ msg : Message, knownCommand msg = false →
      (sessionOf st msg.chatID).Stage = Stage.StageAskInfo →
      ToLower msg.Text = ToLower (yesWord (getUserData st msg.chatID).1.Lang) →
      ∃ st2, handleMessage env now st msg = some st2 ∧
        sessionOf st2 msg.chatID =
          { sessionOf st msg.chatID with Stage := Stage.StageOptInfo }) ∧
    (∀ q : CallbackQuery, q.Data = "askinfo_yes".toList →
      (sessionOf st q.chatID).Stage = Stage.StageAskInfo →
      ∃ st2, handleCallback now st q = some st2 ∧
        sessionOf st2 q.chatID =
          { sessionOf st q.chatID with Stage := Stage.StageOptInfo }) ∧
    (∀ msg : Message, knownCommand msg = false →
      (sessionOf st msg.chatID).Stage = Stage.StageAskInfo →
      ToLower msg.Text ≠ ToLower (yesWord (getUserData st msg.chatID).1.Lang) →
      hasParts (sessionOf st msg.chatID).Temp = true →
      ∃ st2, handleMessage env now st msg = some st2 ∧
        sessionOf st2 msg.chatID = { Stage := Stage.StageIdle, Temp := {} } ∧
        reminders st2 msg.chatID =
          { (sessionOf st msg.chatID).Temp with ID := Int.tmod now 1000000 } ::
            reminders st msg.chatID) ∧
    (∀ q : CallbackQuery, q.Data = "askinfo_no".toList →
      (sessionOf st q.chatID).Stage = Stage.StageAskInfo →
      hasParts (sessionOf st q.chatID).Temp = true →
      ∃ st2, handleCallback now st q = some st2 ∧
        sessionOf st2 q.chatID = { Stage := Stage.StageIdle, Temp := {} } ∧
        reminders st2 q.chatID =
          { (sessionOf st q.chatID).Temp with ID := Int.tmod now 1000000 } ::
            reminders st q.chatID) ∧
    (∀ q : CallbackQuery, startsWith q.Data "CANCELIDX;".toList = false →
      startsWith q.Data "LANG;".toList = false →
      q.Data ≠ "askinfo_yes".toList → q.Data ≠ "askinfo_no".toList →
      (sessionOf st q.chatID).Stage = Stage.StageAskInfo →
      ∃ st2, handleCallback now st q = some st2 ∧
        sessionOf st2 q.chatID = sessionOf st q.chatID ∧
        reminders st2 q.chatID = reminders st q.chatID) ∧
    (∀ msg : Message, knownCommand msg = false →
      (sessionOf st msg.chatID).Stage = Stage.StageOptInfo →
      hasParts (sessionOf st msg.chatID).Temp = true →
      ∃ st2, handleMessage env now st msg = some st2 ∧
        sessionOf st2 msg.chatID = { Stage := Stage.StageIdle, Temp := {} } ∧
        reminders st2 msg.chatID =
          { (sessionOf st msg.chatID).Temp with
              OptInfo := msg.Text, ID := Int.tmod now 1000000 } ::
            reminders st msg.chatID) ∧
    (∀ (q : CallbackQuery) (n : Int),
      (q.Data = utcData ['P', 'L', 'U', 'S'] n ∨ q.Data = utcData ['M', 'I', 'N', 'U', 'S'] n) →
      (-(2 ^ 63) ≤ n ∧ n < 2 ^ 63) →
      (sessionOf st q.chatID).Stage = Stage.StageUTC →
      ∃ st2, handleCallback now st q = some st2 ∧
        sessionOf st2 q.chatID = sessionOf st q.chatID ∧
        utcOf st2 q.chatID = utcOf st q.chatID) ∧
    (∀ (q : CallbackQuery) (n : Int), q.Data = utcData ['O', 'K', 'A', 'Y'] n →
      (-(2 ^ 63) ≤ n ∧ n < 2 ^ 63) →
      (sessionOf st q.chatID).Stage = Stage.StageUTC →
      ∃ st2, handleCallback now st q = some st2 ∧
        sessionOf st2 q.chatID = { sessionOf st q.chatID with Stage := Stage.StageIdle } ∧
        utcOf st2 q.chatID = n) := by
  refine ⟨fun c h => ?_, fun msg h1 h2 => row_start env now st msg h1 h2,
    fun msg hk hs => row_name env now st msg hk hs,
    fun q y m d hq hy hm hd hs => row_date now st q y m d hq hy hm hd hs,
    fun q h mi ap hq hh hmi hap hs => row_time now st q h mi ap hq hh hmi hap hs,
    fun msg hk hs hy => row_ask_yes env now st msg hk hs hy,
    fun q hq hs => row_ask_yes_button now st q hq hs,
    fun msg hk hs hy hp => row_ask_other env now st msg hk hs hy hp,
    fun q hq hs hp => row_ask_no_button now st q hq hs hp,
    fun q h1 h2 h3 h4 hs => row_ask_other_button now st q h1 h2 h3 h4 hs,
    fun msg hk hs hp => row_optinfo env now st msg hk hs hp,
    fun q n hq hn hs => row_utc_step now st q n hq hn hs,
    fun q n hq hn hs => row_utc_okay now st q n hq hn hs⟩
  show sessionOf st c = _
  unfold sessionOf
  rw [h]

/-- The transition table on concrete sessions of chat 7: the start command on the
empty state, a day button in AwaitingDate, the no button in AwaitingExtraInfoChoice. -/
theorem session_transitions_witness :
    (∃ st2, handleMessage envAll 0 {} startMsg = some st2 ∧
      sessionOf st2 7 = { Stage := Stage.StageName, Temp := {} }) ∧
    (∃ st2, handleCallback 0 dateChat { chatID := 7, Data := dayData 2030 1 1 } = some st2 ∧
      sessionOf st2 7 =
        { Stage := Stage.StageTime, Temp := { Name := ['a'], Date := fmtDate 1 1 2030 } }) ∧
    (hasParts (sessionOf askChat 7).Temp = true ∧
      ∃ st2, handleCallback 5 askChat { chatID := 7, Data := "askinfo_no".toList } = some st2 ∧
        sessionOf st2 7 = { Stage := Stage.StageIdle, Temp := {} } ∧
        reminders st2 7 =
          [{ Name := ['a'], Date := fmtDate 1 1 2030, Time := fmtTime 9 0 sAm, ID := 5 }]) :=
  ⟨(session_transitions envAll 0 {}).2.1 startMsg rfl rfl,
    (session_transitions envAll 0 dateChat).2.2.2.1 { chatID := 7, Data := dayData 2030 1 1 }
      2030 1 1 rfl (by decide) (by decide) (by decide) rfl,
    by decide,
    (session_transitions envAll 5 askChat).2.2.2.2.2.2.2.2.1
      { chatID := 7, Data := "askinfo_no".toList } rfl rfl (by decide)⟩

set_option maxRecDepth 100000 in
/-- C12 counterexample: after the start command, a name, a day and the OK button chat 7
is in AwaitingExtraInfoChoice; the press of a button whose data is `ignore`, and the
command `/list`, are inputs other than yes, yet after either the chat is still in
AwaitingExtraInfoChoice and no reminder has been stored. -/
theorem session_transitions_counterexample :
    (run envAll {} askInfoRun).map (fun s => (sessionOf s 7).Stage) =
      some Stage.StageAskInfo ∧
    (run envAll {} (askInfoRun ++ [Event.callback 0 { chatID := 7, Data := sIgnore }])).map
      (fun s => ((sessionOf s 7).Stage, reminders s 7)) = some (Stage.StageAskInfo, []) ∧
    (run envAll {} (askInfoRun ++ [Event.message 0 listMsg])).map
      (fun s => ((sessionOf s 7).Stage, reminders s 7)) = some (Stage.StageAskInfo, []) := by
  decide

end ReminderBot
